import Mathlib

/-!
B53 register access through MII registers.

A shallow embedding of `drivers/net/phy/b53/b53_mdio.c` (the page / address /
poll handshake and the 8/16/32/48/64-bit read and write operations built on it)
and of the locked wrappers `b53_read*` / `b53_write*` of `b53_priv.h`.

Conventions of the embedding

* C integers are `Nat` (unsigned) or `Int` (`int`); every narrowing conversion
  of the source is an explicit `%`.
* The MDIO bus is a parameter: a `Transport σ` gives the result of a register
  write and of a register read as a function of the bus state `σ`.
  `mdiobus_write` and `mdiobus_read` run it and append the call, with its
  result, to the log carried by the bus.
* `u8 page`, `u8 reg` and the value parameters are passed as naturals; the C
  types bound them (below 256 for `page` and `reg`).
* An output parameter `T *val` is an extra argument (the old content) and an
  extra component of the result (the new content).
-/

namespace B53

/-! ## Constants of `b53_mdio.c` -/

/-- Register Access Pseudo PHY. -/
def B53_PSEUDO_PHY : Nat := 0x1e
/-- MII Page register. -/
def REG_MII_PAGE : Nat := 0x10
/-- MII Address register. -/
def REG_MII_ADDR : Nat := 0x11
/-- MII Data register 0. -/
def REG_MII_DATA0 : Nat := 0x18
/-- MII Data register 1. -/
def REG_MII_DATA1 : Nat := 0x19
/-- MII Data register 2. -/
def REG_MII_DATA2 : Nat := 0x1a
/-- MII Data register 3. -/
def REG_MII_DATA3 : Nat := 0x1b
/-- Page enable bit, `BIT(0)`. -/
def REG_MII_PAGE_ENABLE : Nat := 1
/-- Write operation bit, `BIT(0)`. -/
def REG_MII_ADDR_WRITE : Nat := 1
/-- Read operation bit, `BIT(1)`. -/
def REG_MII_ADDR_READ : Nat := 2
/-- Errno of an input/output error. -/
def EIO : Int := 5

/-! ## Integer conversions -/

/-- Conversion of an `int` to `u16`. -/
def to_u16 (x : Int) : Nat := (x % 65536).toNat
/-- Conversion of an `int` to `u32` (also the bit pattern of the `int`). -/
def to_u32 (x : Int) : Nat := (x % 4294967296).toNat
/-- Conversion of an `int` to `u64` (sign extension). -/
def to_u64 (x : Int) : Nat := (x % 18446744073709551616).toNat

/-! ## The bus -/

/-- One call of the bus, as a transport mock records it: the register write
`mdiobus_write(bus, addr, reg, val)` or the register read
`mdiobus_read(bus, addr, reg)`, each with the `int` it returned. -/
inductive Call where
  | write (addr reg val : Nat) (ret : Int)
  | read (addr reg : Nat) (ret : Int)
  deriving DecidableEq, Repr

/-- The bus backend: what a register write returns (0 or an error code) and
what a register read returns (a 16-bit word or a negative error code), with
the next state of the backend. -/
structure Transport (σ : Type) where
  write : σ → Nat → Nat → Nat → Int × σ
  read : σ → Nat → Nat → Int × σ

/-- The `struct mii_bus` behind `dev->priv`: the backend state and the log of
the calls made so far, oldest first. -/
structure mii_bus (σ : Type) where
  chip : σ
  log : List Call

/-- `int mdiobus_write(struct mii_bus *bus, int addr, u32 regnum, u16 val)`. -/
def mdiobus_write {σ : Type} (T : Transport σ) (bus : mii_bus σ) (addr regnum val : Nat) :
    Int × mii_bus σ :=
  let r := T.write bus.chip addr regnum (val % 65536)
  (r.1, { chip := r.2, log := bus.log ++ [Call.write addr regnum (val % 65536) r.1] })

/-- `int mdiobus_read(struct mii_bus *bus, int addr, u32 regnum)`. -/
def mdiobus_read {σ : Type} (T : Transport σ) (bus : mii_bus σ) (addr regnum : Nat) :
    Int × mii_bus σ :=
  let r := T.read bus.chip addr regnum
  (r.1, { chip := r.2, log := bus.log ++ [Call.read addr regnum r.1] })

/-! ## The device handle -/

/-- The fields of `struct b53_device` that register access uses:
`reg_mutex` (true when held), `current_page` and `priv` (the bus). -/
structure b53_device (σ : Type) where
  reg_mutex : Bool
  current_page : Nat
  priv : mii_bus σ

/-! ## `b53_mdio_op` -/

/-- The completion loop of `b53_mdio_op`,
`for (i = 0; i < 5; ++i) { v = mdiobus_read(..); if (!(v & 3)) break; usleep_range(..); }`,
with `k = 5 - i` iterations left. The result is the final `i` and the bus. -/
def b53_mdio_op_poll {σ : Type} (T : Transport σ) : Nat → Nat → mii_bus σ → Nat × mii_bus σ
  | 0, i, bus => (i, bus)
  | k + 1, i, bus =>
    let r := mdiobus_read T bus B53_PSEUDO_PHY REG_MII_ADDR
    let v := to_u16 r.1
    if v &&& (REG_MII_ADDR_WRITE ||| REG_MII_ADDR_READ) = 0 then (i, r.2)
    else b53_mdio_op_poll T k (i + 1) r.2

/-- The second half of `b53_mdio_op` (lines 57-74): set the register address,
then check that the operation completed. -/
def b53_mdio_op_addr {σ : Type} (T : Transport σ) (dev : b53_device σ) (reg op : Nat) :
    Int × b53_device σ :=
  let v := ((reg <<< 8) ||| op) % 65536
  let w := mdiobus_write T dev.priv B53_PSEUDO_PHY REG_MII_ADDR v
  if w.1 ≠ 0 then (w.1, { dev with priv := w.2 })
  else
    let p := b53_mdio_op_poll T 5 0 w.2
    if p.1 = 5 then (- EIO, { dev with priv := p.2 })
    else (0, { dev with priv := p.2 })

/-- `static int b53_mdio_op(struct b53_device *dev, u8 page, u8 reg, u16 op)`. -/
def b53_mdio_op {σ : Type} (T : Transport σ) (dev : b53_device σ) (page reg op : Nat) :
    Int × b53_device σ :=
  if dev.current_page ≠ page then
    let v := ((page <<< 8) ||| REG_MII_PAGE_ENABLE) % 65536
    let w := mdiobus_write T dev.priv B53_PSEUDO_PHY REG_MII_PAGE v
    if w.1 ≠ 0 then (w.1, { dev with priv := w.2 })
    else b53_mdio_op_addr T { dev with priv := w.2, current_page := page } reg op
  else b53_mdio_op_addr T dev reg op

/-! ## Reads -/

/-- `static int b53_mdio_read8(struct b53_device *dev, u8 page, u8 reg, u8 *val)`. -/
def b53_mdio_read8 {σ : Type} (T : Transport σ) (dev : b53_device σ) (page reg val : Nat) :
    Int × Nat × b53_device σ :=
  let h := b53_mdio_op T dev page reg REG_MII_ADDR_READ
  if h.1 ≠ 0 then (h.1, val, h.2)
  else
    let r := mdiobus_read T h.2.priv B53_PSEUDO_PHY REG_MII_DATA0
    (0, (to_u32 r.1 &&& 0xff) % 256, { h.2 with priv := r.2 })

/-- `static int b53_mdio_read16(struct b53_device *dev, u8 page, u8 reg, u16 *val)`. -/
def b53_mdio_read16 {σ : Type} (T : Transport σ) (dev : b53_device σ) (page reg val : Nat) :
    Int × Nat × b53_device σ :=
  let h := b53_mdio_op T dev page reg REG_MII_ADDR_READ
  if h.1 ≠ 0 then (h.1, val, h.2)
  else
    let r := mdiobus_read T h.2.priv B53_PSEUDO_PHY REG_MII_DATA0
    (0, to_u16 r.1, { h.2 with priv := r.2 })

/-- `static int b53_mdio_read32(struct b53_device *dev, u8 page, u8 reg, u32 *val)`:
`*val = mdiobus_read(.., DATA0); *val |= mdiobus_read(.., DATA1) << 16;`. -/
def b53_mdio_read32 {σ : Type} (T : Transport σ) (dev : b53_device σ) (page reg val : Nat) :
    Int × Nat × b53_device σ :=
  let h := b53_mdio_op T dev page reg REG_MII_ADDR_READ
  if h.1 ≠ 0 then (h.1, val, h.2)
  else
    let r0 := mdiobus_read T h.2.priv B53_PSEUDO_PHY REG_MII_DATA0
    let val0 := to_u32 r0.1
    let r1 := mdiobus_read T r0.2 B53_PSEUDO_PHY REG_MII_DATA1
    (0, val0 ||| to_u32 (r1.1 * 65536), { h.2 with priv := r1.2 })

/-- The loop of `b53_mdio_read48` and `b53_mdio_read64`,
`for (i = n; i >= 0; i--) { temp <<= 16; temp |= mdiobus_read(.., REG_MII_DATA0 + i); }`
on a `u64 temp`; the first argument is `i + 1`. -/
def b53_mdio_read_loop {σ : Type} (T : Transport σ) : Nat → Nat → mii_bus σ → Nat × mii_bus σ
  | 0, temp, bus => (temp, bus)
  | i + 1, temp, bus =>
    let temp1 := (temp <<< 16) % 18446744073709551616
    let r := mdiobus_read T bus B53_PSEUDO_PHY (REG_MII_DATA0 + i)
    b53_mdio_read_loop T i (temp1 ||| to_u64 r.1) r.2

/-- `static int b53_mdio_read48(struct b53_device *dev, u8 page, u8 reg, u64 *val)`. -/
def b53_mdio_read48 {σ : Type} (T : Transport σ) (dev : b53_device σ) (page reg val : Nat) :
    Int × Nat × b53_device σ :=
  let h := b53_mdio_op T dev page reg REG_MII_ADDR_READ
  if h.1 ≠ 0 then (h.1, val, h.2)
  else
    let l := b53_mdio_read_loop T 3 0 h.2.priv
    (0, l.1, { h.2 with priv := l.2 })

/-- `static int b53_mdio_read64(struct b53_device *dev, u8 page, u8 reg, u64 *val)`. -/
def b53_mdio_read64 {σ : Type} (T : Transport σ) (dev : b53_device σ) (page reg val : Nat) :
    Int × Nat × b53_device σ :=
  let h := b53_mdio_op T dev page reg REG_MII_ADDR_READ
  if h.1 ≠ 0 then (h.1, val, h.2)
  else
    let l := b53_mdio_read_loop T 4 0 h.2.priv
    (0, l.1, { h.2 with priv := l.2 })

/-! ## Writes -/

/-- `static int b53_mdio_write8(struct b53_device *dev, u8 page, u8 reg, u8 value)`. -/
def b53_mdio_write8 {σ : Type} (T : Transport σ) (dev : b53_device σ) (page reg value : Nat) :
    Int × b53_device σ :=
  let w := mdiobus_write T dev.priv B53_PSEUDO_PHY REG_MII_DATA0 value
  if w.1 ≠ 0 then (w.1, { dev with priv := w.2 })
  else b53_mdio_op T { dev with priv := w.2 } page reg REG_MII_ADDR_WRITE

/-- `static int b53_mdio_write16(struct b53_device *dev, u8 page, u8 reg, u16 value)`. -/
def b53_mdio_write16 {σ : Type} (T : Transport σ) (dev : b53_device σ) (page reg value : Nat) :
    Int × b53_device σ :=
  let w := mdiobus_write T dev.priv B53_PSEUDO_PHY REG_MII_DATA0 value
  if w.1 ≠ 0 then (w.1, { dev with priv := w.2 })
  else b53_mdio_op T { dev with priv := w.2 } page reg REG_MII_ADDR_WRITE

/-- The loop of `b53_mdio_write32/48/64`,
`for (i = 0; i < n; i++) { ret = mdiobus_write(.., REG_MII_DATA0 + i, temp & 0xffff);
if (ret) return ret; temp >>= 16; }`, with `k = n - i` iterations left. The
result is 0 when the loop ran to its end, else the `ret` it returned. -/
def b53_mdio_write_loop {σ : Type} (T : Transport σ) :
    Nat → Nat → Nat → mii_bus σ → Int × mii_bus σ
  | 0, _, _, bus => (0, bus)
  | k + 1, i, temp, bus =>
    let w := mdiobus_write T bus B53_PSEUDO_PHY (REG_MII_DATA0 + i) (temp &&& 0xffff)
    if w.1 ≠ 0 then (w.1, w.2)
    else b53_mdio_write_loop T k (i + 1) (temp >>> 16) w.2

/-- `static int b53_mdio_write32(struct b53_device *dev, u8 page, u8 reg, u32 value)`. -/
def b53_mdio_write32 {σ : Type} (T : Transport σ) (dev : b53_device σ) (page reg value : Nat) :
    Int × b53_device σ :=
  let l := b53_mdio_write_loop T 2 0 value dev.priv
  if l.1 ≠ 0 then (l.1, { dev with priv := l.2 })
  else b53_mdio_op T { dev with priv := l.2 } page reg REG_MII_ADDR_WRITE

/-- `static int b53_mdio_write48(struct b53_device *dev, u8 page, u8 reg, u64 value)`. -/
def b53_mdio_write48 {σ : Type} (T : Transport σ) (dev : b53_device σ) (page reg value : Nat) :
    Int × b53_device σ :=
  let l := b53_mdio_write_loop T 3 0 value dev.priv
  if l.1 ≠ 0 then (l.1, { dev with priv := l.2 })
  else b53_mdio_op T { dev with priv := l.2 } page reg REG_MII_ADDR_WRITE

/-- `static int b53_mdio_write64(struct b53_device *dev, u8 page, u8 reg, u64 value)`. -/
def b53_mdio_write64 {σ : Type} (T : Transport σ) (dev : b53_device σ) (page reg value : Nat) :
    Int × b53_device σ :=
  let l := b53_mdio_write_loop T 4 0 value dev.priv
  if l.1 ≠ 0 then (l.1, { dev with priv := l.2 })
  else b53_mdio_op T { dev with priv := l.2 } page reg REG_MII_ADDR_WRITE

/-! ## The locked entry points of `b53_priv.h` -/

/-- `struct b53_io_ops`: the ten register access callbacks. -/
structure b53_io_ops (σ : Type) where
  read8 : b53_device σ → Nat → Nat → Nat → Int × Nat × b53_device σ
  read16 : b53_device σ → Nat → Nat → Nat → Int × Nat × b53_device σ
  read32 : b53_device σ → Nat → Nat → Nat → Int × Nat × b53_device σ
  read48 : b53_device σ → Nat → Nat → Nat → Int × Nat × b53_device σ
  read64 : b53_device σ → Nat → Nat → Nat → Int × Nat × b53_device σ
  write8 : b53_device σ → Nat → Nat → Nat → Int × b53_device σ
  write16 : b53_device σ → Nat → Nat → Nat → Int × b53_device σ
  write32 : b53_device σ → Nat → Nat → Nat → Int × b53_device σ
  write48 : b53_device σ → Nat → Nat → Nat → Int × b53_device σ
  write64 : b53_device σ → Nat → Nat → Nat → Int × b53_device σ

/-- `static struct b53_io_ops b53_mdio_ops`. -/
def b53_mdio_ops {σ : Type} (T : Transport σ) : b53_io_ops σ where
  read8 := b53_mdio_read8 T
  read16 := b53_mdio_read16 T
  read32 := b53_mdio_read32 T
  read48 := b53_mdio_read48 T
  read64 := b53_mdio_read64 T
  write8 := b53_mdio_write8 T
  write16 := b53_mdio_write16 T
  write32 := b53_mdio_write32 T
  write48 := b53_mdio_write48 T
  write64 := b53_mdio_write64 T

/-- `mutex_lock(&dev->reg_mutex)` in a sequential run: it takes a free mutex;
on a held one the caller would sleep for ever, which is `none`. -/
def mutex_lock {σ : Type} (dev : b53_device σ) : Option (b53_device σ) :=
  if dev.reg_mutex then none else some { dev with reg_mutex := true }

/-- `mutex_unlock(&dev->reg_mutex)`. -/
def mutex_unlock {σ : Type} (dev : b53_device σ) : b53_device σ :=
  { dev with reg_mutex := false }

/-- The body shared by `b53_read8/16/32/48/64`:
`mutex_lock(..); ret = dev->ops->readN(dev, page, reg, val); mutex_unlock(..); return ret;`
for the callback `cb`. -/
def b53_read_locked {σ : Type}
    (cb : b53_device σ → Nat → Nat → Nat → Int × Nat × b53_device σ)
    (dev : b53_device σ) (page reg val : Nat) : Option (Int × Nat × b53_device σ) :=
  match mutex_lock dev with
  | none => none
  | some d =>
    let r := cb d page reg val
    some (r.1, r.2.1, mutex_unlock r.2.2)

/-- The body shared by `b53_write8/16/32/48/64`. -/
def b53_write_locked {σ : Type}
    (cb : b53_device σ → Nat → Nat → Nat → Int × b53_device σ)
    (dev : b53_device σ) (page reg value : Nat) : Option (Int × b53_device σ) :=
  match mutex_lock dev with
  | none => none
  | some d =>
    let r := cb d page reg value
    some (r.1, mutex_unlock r.2)

/-- `static inline int b53_read8(struct b53_device *dev, u8 page, u8 reg, u8 *val)`. -/
def b53_read8 {σ : Type} (ops : b53_io_ops σ) (dev : b53_device σ) (page reg val : Nat) :
    Option (Int × Nat × b53_device σ) :=
  b53_read_locked ops.read8 dev page reg val

/-- `static inline int b53_read16(struct b53_device *dev, u8 page, u8 reg, u16 *val)`. -/
def b53_read16 {σ : Type} (ops : b53_io_ops σ) (dev : b53_device σ) (page reg val : Nat) :
    Option (Int × Nat × b53_device σ) :=
  b53_read_locked ops.read16 dev page reg val

/-- `static inline int b53_read32(struct b53_device *dev, u8 page, u8 reg, u32 *val)`. -/
def b53_read32 {σ : Type} (ops : b53_io_ops σ) (dev : b53_device σ) (page reg val : Nat) :
    Option (Int × Nat × b53_device σ) :=
  b53_read_locked ops.read32 dev page reg val

/-- `static inline int b53_read48(struct b53_device *dev, u8 page, u8 reg, u64 *val)`. -/
def b53_read48 {σ : Type} (ops : b53_io_ops σ) (dev : b53_device σ) (page reg val : Nat) :
    Option (Int × Nat × b53_device σ) :=
  b53_read_locked ops.read48 dev page reg val

/-- `static inline int b53_read64(struct b53_device *dev, u8 page, u8 reg, u64 *val)`. -/
def b53_read64 {σ : Type} (ops : b53_io_ops σ) (dev : b53_device σ) (page reg val : Nat) :
    Option (Int × Nat × b53_device σ) :=
  b53_read_locked ops.read64 dev page reg val

/-- `static inline int b53_write8(struct b53_device *dev, u8 page, u8 reg, u8 value)`. -/
def b53_write8 {σ : Type} (ops : b53_io_ops σ) (dev : b53_device σ) (page reg value : Nat) :
    Option (Int × b53_device σ) :=
  b53_write_locked ops.write8 dev page reg value

/-- `static inline int b53_write16(struct b53_device *dev, u8 page, u8 reg, u16 value)`. -/
def b53_write16 {σ : Type} (ops : b53_io_ops σ) (dev : b53_device σ) (page reg value : Nat) :
    Option (Int × b53_device σ) :=
  b53_write_locked ops.write16 dev page reg value

/-- `static inline int b53_write32(struct b53_device *dev, u8 page, u8 reg, u32 value)`. -/
def b53_write32 {σ : Type} (ops : b53_io_ops σ) (dev : b53_device σ) (page reg value : Nat) :
    Option (Int × b53_device σ) :=
  b53_write_locked ops.write32 dev page reg value

/-- `static inline int b53_write48(struct b53_device *dev, u8 page, u8 reg, u64 value)`. -/
def b53_write48 {σ : Type} (ops : b53_io_ops σ) (dev : b53_device σ) (page reg value : Nat) :
    Option (Int × b53_device σ) :=
  b53_write_locked ops.write48 dev page reg value

/-- `static inline int b53_write64(struct b53_device *dev, u8 page, u8 reg, u64 value)`. -/
def b53_write64 {σ : Type} (ops : b53_io_ops σ) (dev : b53_device σ) (page reg value : Nat) :
    Option (Int × b53_device σ) :=
  b53_write_locked ops.write64 dev page reg value

/-- The device handle with its mutex held and everything else as it is. -/
def held {σ : Type} (dev : b53_device σ) : b53_device σ := { dev with reg_mutex := true }

/-! ## Observing the transport log -/

/-- The calls a run added to the log: what `new` holds after the calls of `old`. -/
def trace (old new : List Call) : List Call := new.drop old.length

/-- A call is a register write. -/
def Call.isWrite : Call → Bool
  | Call.write _ _ _ _ => true
  | Call.read _ _ _ => false

/-- The bus address of a call. -/
def Call.addr : Call → Nat
  | Call.write a _ _ _ => a
  | Call.read a _ _ => a

/-- The register index of a call. -/
def Call.reg : Call → Nat
  | Call.write _ r _ _ => r
  | Call.read _ r _ => r

/-- The `int` a call returned. -/
def Call.ret : Call → Int
  | Call.write _ _ _ r => r
  | Call.read _ _ r => r

/-- A call is a write to the page register. -/
def Call.isPageWrite (c : Call) : Bool := c.isWrite && c.reg == REG_MII_PAGE

/-- A call is a write to the address register (the address strobe). -/
def Call.isStrobe (c : Call) : Bool := c.isWrite && c.reg == REG_MII_ADDR

/-- A call is a read of the address register (a completion poll). -/
def Call.isPoll (c : Call) : Bool := !c.isWrite && c.reg == REG_MII_ADDR

/-- A call targets one of the four data registers. -/
def Call.isData (c : Call) : Bool := decide (REG_MII_DATA0 ≤ c.reg) && decide (c.reg ≤ REG_MII_DATA3)

/-- A call is a write to a data register. -/
def Call.isDataWrite (c : Call) : Bool := c.isWrite && c.isData

/-- A call is a read of a data register. -/
def Call.isDataRead (c : Call) : Bool := !c.isWrite && c.isData

/-- A 16-bit word of the address register still shows the read or the write bit. -/
def busy (w : Int) : Bool := decide (to_u16 w &&& (REG_MII_ADDR_WRITE ||| REG_MII_ADDR_READ) ≠ 0)

/-! ## Transports used as test fixtures -/

/-- A scripted transport mock: the state is the queue of results the next
writes return and the queue of results the next reads return; an exhausted
queue answers 0. -/
def scripted : Transport (List Int × List Int) where
  write := fun s _ _ _ => (s.1.headD 0, (s.1.tail, s.2))
  read := fun s _ _ => (s.2.headD 0, (s.1, s.2.tail))

/-- A device handle over the scripted mock with an empty log and a free mutex. -/
def scriptedDev (current_page : Nat) (writes reads : List Int) :
    b53_device (List Int × List Int) :=
  { reg_mutex := false, current_page := current_page,
    priv := { chip := (writes, reads), log := [] } }

/-- The register file of the in-memory chip: the selected page, the content of
the address register, the four data registers and, for each page and offset,
the four 16-bit words of the logical register. -/
structure Chip where
  page : Nat
  addr : Nat
  data : Nat → Nat
  regs : Nat → Nat → Nat → Nat

/-- The in-memory chip as a transport. No call fails. At the pseudo PHY address
a write to the page register selects the page of the high byte; a data register
holds the last word written; a write to the address register with the write bit
latches the data registers into the logical register (selected page, offset),
with the read bit it loads that logical register into the data registers, and
the address register then reads back with both operation bits clear. Other
addresses are not answered (writes are dropped, reads float to 0xffff). -/
def chipTransport : Transport Chip where
  write := fun c addr reg val =>
    if addr ≠ B53_PSEUDO_PHY then (0, c)
    else if reg = REG_MII_PAGE then (0, { c with page := val >>> 8 })
    else if reg = REG_MII_ADDR then
      if val &&& REG_MII_ADDR_WRITE ≠ 0 then
        (0, { c with addr := (val >>> 8) <<< 8,
                     regs := fun p o => if p = c.page ∧ o = val >>> 8 then c.data else c.regs p o })
      else if val &&& REG_MII_ADDR_READ ≠ 0 then
        (0, { c with addr := (val >>> 8) <<< 8, data := c.regs c.page (val >>> 8) })
      else (0, { c with addr := val })
    else if REG_MII_DATA0 ≤ reg ∧ reg ≤ REG_MII_DATA3 then
      (0, { c with data := fun i => if i = reg - REG_MII_DATA0 then val else c.data i })
    else (0, c)
  read := fun c addr reg =>
    if addr ≠ B53_PSEUDO_PHY then (0xffff, c)
    else if reg = REG_MII_PAGE then (((c.page <<< 8) ||| REG_MII_PAGE_ENABLE : Nat), c)
    else if reg = REG_MII_ADDR then ((c.addr : Nat), c)
    else if REG_MII_DATA0 ≤ reg ∧ reg ≤ REG_MII_DATA3 then ((c.data (reg - REG_MII_DATA0) : Nat), c)
    else (0, c)

/-- A chip with every register zero and page 0 selected. -/
def chip0 : Chip := { page := 0, addr := 0, data := fun _ => 0, regs := fun _ _ _ => 0 }

/-- A device handle over the in-memory chip, as `b53_phy_config_init` leaves it
(`current_page = 0xff`), with an empty log. -/
def chipDev : b53_device Chip :=
  { reg_mutex := false, current_page := 0xff, priv := { chip := chip0, log := [] } }

/-! ## Widths and accesses -/

/-- The five access widths of `struct b53_io_ops`. -/
inductive Width where
  | w8 | w16 | w32 | w48 | w64
  deriving DecidableEq, Repr

/-- The number of bits of a width. -/
def Width.bits : Width → Nat
  | Width.w8 => 8
  | Width.w16 => 16
  | Width.w32 => 32
  | Width.w48 => 48
  | Width.w64 => 64

/-- The number of 16-bit data registers a width transfers. -/
def Width.words : Width → Nat
  | Width.w8 => 1
  | Width.w16 => 1
  | Width.w32 => 2
  | Width.w48 => 3
  | Width.w64 => 4

/-- The data slots in the order a read of the width is expected to read them. -/
def Width.readSlots : Width → List Nat
  | Width.w8 => [0]
  | Width.w16 => [0]
  | Width.w32 => [0, 1]
  | Width.w48 => [2, 1, 0]
  | Width.w64 => [3, 2, 1, 0]

/-- The read callback of `b53_mdio_ops` for a width. -/
def mdio_read {σ : Type} (T : Transport σ) :
    Width → b53_device σ → Nat → Nat → Nat → Int × Nat × b53_device σ
  | Width.w8 => (b53_mdio_ops T).read8
  | Width.w16 => (b53_mdio_ops T).read16
  | Width.w32 => (b53_mdio_ops T).read32
  | Width.w48 => (b53_mdio_ops T).read48
  | Width.w64 => (b53_mdio_ops T).read64

/-- The write callback of `b53_mdio_ops` for a width. -/
def mdio_write {σ : Type} (T : Transport σ) :
    Width → b53_device σ → Nat → Nat → Nat → Int × b53_device σ
  | Width.w8 => (b53_mdio_ops T).write8
  | Width.w16 => (b53_mdio_ops T).write16
  | Width.w32 => (b53_mdio_ops T).write32
  | Width.w48 => (b53_mdio_ops T).write48
  | Width.w64 => (b53_mdio_ops T).write64

/-- One register access: a read (with the old content of the output variable)
or a write (with the value), of some width, at a page and an offset. -/
inductive Access where
  | read (w : Width) (page reg val : Nat)
  | write (w : Width) (page reg value : Nat)
  deriving DecidableEq, Repr

/-- The page an access addresses. -/
def Access.page : Access → Nat
  | Access.read _ p _ _ => p
  | Access.write _ p _ _ => p

/-- Run one access: its return code and the device afterwards. -/
def access {σ : Type} (T : Transport σ) (dev : b53_device σ) : Access → Int × b53_device σ
  | Access.read w p r val => ((mdio_read T w dev p r val).1, (mdio_read T w dev p r val).2.2)
  | Access.write w p r v => mdio_write T w dev p r v

/-! ## Shapes of the log of one operation -/

/-- The results of the completion polls of one handshake and whether it timed
out: busy words then a clear one (at most 5 reads), or 5 busy words. -/
inductive PollShape : List Int → Bool → Prop
  | clear (pre : List Int) (r : Int) (hpre : ∀ x ∈ pre, busy x = true) (hr : busy r = false)
      (hlen : pre.length ≤ 4) : PollShape (pre ++ [r]) false
  | timeout (rs : List Int) (hlen : rs.length = 5) (hrs : ∀ x ∈ rs, busy x = true) :
      PollShape rs true

/-- The calls and the return code of the address half of a handshake: a failed
address strobe alone, or a successful strobe and the polls. -/
inductive AddrShape (reg op : Nat) : List Call → Int → Prop
  | fail (r : Int) (hr : r ≠ 0) :
      AddrShape reg op [Call.write B53_PSEUDO_PHY REG_MII_ADDR (((reg <<< 8) ||| op) % 65536) r] r
  | polled (rs : List Int) (t : Bool) (h : PollShape rs t) :
      AddrShape reg op
        (Call.write B53_PSEUDO_PHY REG_MII_ADDR (((reg <<< 8) ||| op) % 65536) 0
          :: rs.map (Call.read B53_PSEUDO_PHY REG_MII_ADDR))
        (if t then - EIO else 0)

/-- The calls, the return code and the final `current_page` of one handshake
started with `current_page = cp`. -/
inductive OpShape (cp page reg op : Nat) : List Call → Int → Nat → Prop
  | same (tr : List Call) (ret : Int) (hcp : cp = page) (h : AddrShape reg op tr ret) :
      OpShape cp page reg op tr ret cp
  | fail (r : Int) (hcp : cp ≠ page) (hr : r ≠ 0) :
      OpShape cp page reg op
        [Call.write B53_PSEUDO_PHY REG_MII_PAGE (((page <<< 8) ||| REG_MII_PAGE_ENABLE) % 65536) r]
        r cp
  | selected (tr : List Call) (ret : Int) (hcp : cp ≠ page) (h : AddrShape reg op tr ret) :
      OpShape cp page reg op
        (Call.write B53_PSEUDO_PHY REG_MII_PAGE (((page <<< 8) ||| REG_MII_PAGE_ENABLE) % 65536) 0
          :: tr)
        ret page

/-- The data-register writes of the first `n` slots of value `v`, all
successful: slot `i` takes `(v >> 16 i) & 0xffff`. -/
def stagedWrites (v n : Nat) : List Call :=
  (List.range n).map fun i =>
    Call.write B53_PSEUDO_PHY (REG_MII_DATA0 + i) ((v >>> (16 * i)) &&& 0xffff) 0

/-- The data-register reads of a width, in its slot order, with the `int`s
they returned. -/
def dataReads (w : Width) (rs : List Int) : List Call :=
  List.zipWith (fun s r => Call.read B53_PSEUDO_PHY (REG_MII_DATA0 + s) r) w.readSlots rs

/-- The value a read of a width assembles from the `int`s its data reads
returned, listed in the order of the reads, written with the conversions of the
C expressions (`& 0xff` into a `u8`; into a `u16`; `r0` then `|= r1 << 16` into
a `u32`; `temp <<= 16; temp |= r` on a `u64`). -/
def rawValue : Width → List Int → Nat
  | Width.w8, [r] => (to_u32 r &&& 0xff) % 256
  | Width.w16, [r] => to_u16 r
  | Width.w32, [r0, r1] => to_u32 r0 ||| to_u32 (r1 * 65536)
  | Width.w48, [r2, r1, r0] =>
    ((((((0 <<< 16) % 18446744073709551616 ||| to_u64 r2) <<< 16) % 18446744073709551616
      ||| to_u64 r1) <<< 16) % 18446744073709551616) ||| to_u64 r0
  | Width.w64, [r3, r2, r1, r0] =>
    ((((((((0 <<< 16) % 18446744073709551616 ||| to_u64 r3) <<< 16) % 18446744073709551616
      ||| to_u64 r2) <<< 16) % 18446744073709551616 ||| to_u64 r1) <<< 16)
      % 18446744073709551616) ||| to_u64 r0
  | _, _ => 0

/-- The words the completion polls of a log returned, oldest first. -/
def pollResults (l : List Call) : List Int := (l.filter Call.isPoll).map Call.ret

/-! ## The page register as the log shows it, and runs of accesses -/

/-- The value a write call carried (0 for a read). -/
def Call.val : Call → Nat
  | Call.write _ _ v _ => v
  | Call.read _ _ _ => 0

/-- A call is a write to the page register that the transport accepted. -/
def Call.isPageSelect (c : Call) : Bool := c.isPageWrite && decide (c.ret = 0)

/-- The page register of the chip after the calls of `l`, when it held `init`
before them: the page number (high byte) carried by the most recent successful
write to the page register, if there is one. -/
def pageAfter (init : Option Nat) (l : List Call) : Option Nat :=
  l.foldl (fun acc c => if c.isPageSelect then some (c.val >>> 8) else acc) init

/-- The page register of the chip as a log shows it: `none` while no write to
the page register has succeeded. -/
def chipPage (l : List Call) : Option Nat := pageAfter none l

/-- The handle as `b53_phy_probe` (lines 267-271) and `b53_phy_config_init`
(line 297) set it up over a bus: `current_page = 0xff`, the mutex initialised
(free). -/
def freshDev {σ : Type} (bus : mii_bus σ) : b53_device σ :=
  { reg_mutex := false, current_page := 0xff, priv := bus }

/-- Run a sequence of accesses one after the other, whatever each returns. -/
def runAll {σ : Type} (T : Transport σ) (dev : b53_device σ) : List Access → b53_device σ
  | [] => dev
  | a :: rest => runAll T (access T dev a).2 rest

/-- The page cache agrees with the chip: no write to the page register has
succeeded yet and `current_page` is still the sentinel 0xff, or `current_page`
is the page the chip has selected. -/
def pageCacheOk {σ : Type} (dev : b53_device σ) : Prop :=
  (chipPage dev.priv.log = none ∧ dev.current_page = 0xff) ∨
  chipPage dev.priv.log = some dev.current_page

instance pageCacheOk_decidable {σ : Type} (dev : b53_device σ) : Decidable (pageCacheOk dev) :=
  inferInstanceAs (Decidable ((chipPage dev.priv.log = none ∧ dev.current_page = 0xff) ∨
    chipPage dev.priv.log = some dev.current_page))

/-! ## Arithmetic of the words -/

theorem and_ffff (x : Nat) : x &&& 0xffff = x % 65536 :=
  Nat.and_pow_two_sub_one_eq_mod x 16

theorem and_ff (x : Nat) : x &&& 0xff = x % 256 :=
  Nat.and_pow_two_sub_one_eq_mod x 8

theorem and_three (x : Nat) : x &&& 3 = x % 4 :=
  Nat.and_pow_two_sub_one_eq_mod x 2

theorem and_one (x : Nat) : x &&& 1 = x % 2 :=
  Nat.and_pow_two_sub_one_eq_mod x 1

theorem to_u16_natCast (n : Nat) : to_u16 (n : Int) = n % 65536 := by
  unfold to_u16
  omega

theorem to_u32_natCast (n : Nat) : to_u32 (n : Int) = n % 4294967296 := by
  unfold to_u32
  omega

theorem to_u64_natCast (n : Nat) : to_u64 (n : Int) = n % 18446744073709551616 := by
  unfold to_u64
  omega

/-- OR with a word shifted above the low 16 bits is addition. -/
theorem lor_shift16 (a b : Nat) (ha : a < 65536) : a ||| (b * 65536) = a + b * 65536 := by
  have h := Nat.mul_add_lt_is_or (i := 16) (b := a) (by simpa using ha) b
  rw [Nat.lor_comm, Nat.mul_comm, ← h]
  omega

/-- The strobe word of an 8-bit offset and a one- or two-valued operation bit. -/
theorem strobe_word (reg op : Nat) (hr : reg < 256) (hop : op < 256) :
    ((reg <<< 8) ||| op) % 65536 = reg * 256 + op := by
  have h := Nat.mul_add_lt_is_or (i := 8) (b := op) (by simpa using hop) reg
  rw [Nat.shiftLeft_eq]
  have h2 : reg * 2 ^ 8 ||| op = reg * 256 + op := by
    rw [Nat.mul_comm, ← h]; omega
  rw [h2]
  omega

/-! ## The log only grows -/

@[simp] theorem mdiobus_write_log {σ : Type} (T : Transport σ) (bus : mii_bus σ) (a r v : Nat) :
    (mdiobus_write T bus a r v).2.log
      = bus.log ++ [Call.write a r (v % 65536) (mdiobus_write T bus a r v).1] := rfl

@[simp] theorem mdiobus_read_log {σ : Type} (T : Transport σ) (bus : mii_bus σ) (a r : Nat) :
    (mdiobus_read T bus a r).2.log
      = bus.log ++ [Call.read a r (mdiobus_read T bus a r).1] := rfl

@[simp] theorem trace_append (l t : List Call) : trace l (l ++ t) = t := by
  simp [trace]

/-! ## The handshake -/

/-- The poll loop with `k` iterations left reads the address register until a
word is clear, at most `k` times; its counter ends at `i + k` exactly when every
word was busy. -/
theorem b53_mdio_op_poll_shape {σ : Type} (T : Transport σ) :
    ∀ (k i : Nat) (bus : mii_bus σ), ∃ rs : List Int,
      (b53_mdio_op_poll T k i bus).2.log
        = bus.log ++ rs.map (Call.read B53_PSEUDO_PHY REG_MII_ADDR) ∧
      ((∃ pre r, rs = pre ++ [r] ∧ (∀ x ∈ pre, busy x = true) ∧ busy r = false ∧
          pre.length < k ∧ (b53_mdio_op_poll T k i bus).1 = i + pre.length) ∨
       (rs.length = k ∧ (∀ x ∈ rs, busy x = true) ∧
          (b53_mdio_op_poll T k i bus).1 = i + k)) := by
  intro k
  induction k with
  | zero =>
    intro i bus
    exact ⟨[], by simp [b53_mdio_op_poll], Or.inr (by simp [b53_mdio_op_poll])⟩
  | succ k ih =>
    intro i bus
    by_cases hb : busy (mdiobus_read T bus B53_PSEUDO_PHY REG_MII_ADDR).1 = true
    · have hne : ¬ (to_u16 (mdiobus_read T bus B53_PSEUDO_PHY REG_MII_ADDR).1
          &&& (REG_MII_ADDR_WRITE ||| REG_MII_ADDR_READ) = 0) := by
        simpa [busy] using hb
      obtain ⟨rs, hlog, hcase⟩ := ih (i + 1) (mdiobus_read T bus B53_PSEUDO_PHY REG_MII_ADDR).2
      refine ⟨(mdiobus_read T bus B53_PSEUDO_PHY REG_MII_ADDR).1 :: rs, ?_, ?_⟩
      · simp only [b53_mdio_op_poll, if_neg hne, hlog]
        simp
      · simp only [b53_mdio_op_poll, if_neg hne]
        rcases hcase with ⟨pre, r, hrs, hpre, hr, hlen, hi⟩ | ⟨hlen, hall, hi⟩
        · refine Or.inl ⟨(mdiobus_read T bus B53_PSEUDO_PHY REG_MII_ADDR).1 :: pre, r, ?_, ?_, hr, ?_, ?_⟩
          · simp [hrs]
          · intro x hx
            rcases List.mem_cons.mp hx with rfl | hx
            · exact hb
            · exact hpre x hx
          · simpa using hlen
          · rw [hi]; simp; omega
        · refine Or.inr ⟨by simp [hlen], ?_, by rw [hi]; omega⟩
          intro x hx
          rcases List.mem_cons.mp hx with rfl | hx
          · exact hb
          · exact hall x hx
    · have he : to_u16 (mdiobus_read T bus B53_PSEUDO_PHY REG_MII_ADDR).1
          &&& (REG_MII_ADDR_WRITE ||| REG_MII_ADDR_READ) = 0 := by
        simpa [busy] using hb
      refine ⟨[(mdiobus_read T bus B53_PSEUDO_PHY REG_MII_ADDR).1], ?_, ?_⟩
      · simp only [b53_mdio_op_poll, if_pos he]
        simp
      · refine Or.inl ⟨[], (mdiobus_read T bus B53_PSEUDO_PHY REG_MII_ADDR).1, by simp, by simp, ?_, by simp, ?_⟩
        · simpa using hb
        · simp only [b53_mdio_op_poll, if_pos he]
          simp

/-- The five-iteration poll of `b53_mdio_op`. -/
theorem b53_mdio_op_poll_five {σ : Type} (T : Transport σ) (bus : mii_bus σ) :
    ∃ (rs : List Int) (t : Bool), PollShape rs t ∧
      (b53_mdio_op_poll T 5 0 bus).2.log
        = bus.log ++ rs.map (Call.read B53_PSEUDO_PHY REG_MII_ADDR) ∧
      ((b53_mdio_op_poll T 5 0 bus).1 = 5 ↔ t = true) := by
  obtain ⟨rs, hlog, hcase⟩ := b53_mdio_op_poll_shape T 5 0 bus
  rcases hcase with ⟨pre, r, hrs, hpre, hr, hlen, hi⟩ | ⟨hlen, hall, hi⟩
  · refine ⟨rs, false, ?_, hlog, ?_⟩
    · rw [hrs]; exact PollShape.clear pre r hpre hr (by omega)
    · rw [hi]; simp; omega
  · exact ⟨rs, true, PollShape.timeout rs hlen hall, hlog, by rw [hi]; simp⟩

/-- The address half of the handshake: its log, its return code and its frame. -/
theorem b53_mdio_op_addr_shape {σ : Type} (T : Transport σ) (dev : b53_device σ) (reg op : Nat) :
    ∃ tr, AddrShape reg op tr (b53_mdio_op_addr T dev reg op).1 ∧
      (b53_mdio_op_addr T dev reg op).2.priv.log = dev.priv.log ++ tr ∧
      (b53_mdio_op_addr T dev reg op).2.current_page = dev.current_page ∧
      (b53_mdio_op_addr T dev reg op).2.reg_mutex = dev.reg_mutex := by
  by_cases hw : (mdiobus_write T dev.priv B53_PSEUDO_PHY REG_MII_ADDR
      (((reg <<< 8) ||| op) % 65536)).1 = 0
  · obtain ⟨rs, t, hshape, hlog, ht⟩ := b53_mdio_op_poll_five T
      (mdiobus_write T dev.priv B53_PSEUDO_PHY REG_MII_ADDR (((reg <<< 8) ||| op) % 65536)).2
    refine ⟨Call.write B53_PSEUDO_PHY REG_MII_ADDR (((reg <<< 8) ||| op) % 65536) 0
        :: rs.map (Call.read B53_PSEUDO_PHY REG_MII_ADDR), ?_, ?_, ?_, ?_⟩
    · have := @AddrShape.polled reg op rs t hshape
      cases t with
      | true =>
        have h5 := ht.mpr rfl
        simpa [b53_mdio_op_addr, hw, h5] using this
      | false =>
        have h5 : ¬ (b53_mdio_op_poll T 5 0 (mdiobus_write T dev.priv B53_PSEUDO_PHY REG_MII_ADDR
            (((reg <<< 8) ||| op) % 65536)).2).1 = 5 := fun h => by simpa using ht.mp h
        simpa [b53_mdio_op_addr, hw, h5] using this
    · by_cases h5 : (b53_mdio_op_poll T 5 0 (mdiobus_write T dev.priv B53_PSEUDO_PHY REG_MII_ADDR
          (((reg <<< 8) ||| op) % 65536)).2).1 = 5 <;>
        simp [b53_mdio_op_addr, hw, h5, hlog]
    · by_cases h5 : (b53_mdio_op_poll T 5 0 (mdiobus_write T dev.priv B53_PSEUDO_PHY REG_MII_ADDR
          (((reg <<< 8) ||| op) % 65536)).2).1 = 5 <;>
        simp [b53_mdio_op_addr, hw, h5]
    · by_cases h5 : (b53_mdio_op_poll T 5 0 (mdiobus_write T dev.priv B53_PSEUDO_PHY REG_MII_ADDR
          (((reg <<< 8) ||| op) % 65536)).2).1 = 5 <;>
        simp [b53_mdio_op_addr, hw, h5]
  · refine ⟨[Call.write B53_PSEUDO_PHY REG_MII_ADDR (((reg <<< 8) ||| op) % 65536)
        (mdiobus_write T dev.priv B53_PSEUDO_PHY REG_MII_ADDR (((reg <<< 8) ||| op) % 65536)).1],
        ?_, ?_, ?_, ?_⟩
    · have := @AddrShape.fail reg op _ hw
      simpa [b53_mdio_op_addr, hw] using this
    · simp [b53_mdio_op_addr, hw]
    · simp [b53_mdio_op_addr, hw]
    · simp [b53_mdio_op_addr, hw]

/-- One handshake: its log, its return code, the page it leaves cached and its frame. -/
theorem b53_mdio_op_shape {σ : Type} (T : Transport σ) (dev : b53_device σ) (page reg op : Nat) :
    ∃ tr, OpShape dev.current_page page reg op tr (b53_mdio_op T dev page reg op).1
        (b53_mdio_op T dev page reg op).2.current_page ∧
      (b53_mdio_op T dev page reg op).2.priv.log = dev.priv.log ++ tr ∧
      (b53_mdio_op T dev page reg op).2.reg_mutex = dev.reg_mutex := by
  by_cases hcp : dev.current_page = page
  · obtain ⟨tr, hs, hlog, hpage, hm⟩ := b53_mdio_op_addr_shape T dev reg op
    refine ⟨tr, ?_, ?_, ?_⟩
    · have := @OpShape.same dev.current_page page reg op tr _ hcp hs
      simpa [b53_mdio_op, hcp, hpage] using this
    · simpa [b53_mdio_op, hcp] using hlog
    · simpa [b53_mdio_op, hcp] using hm
  · by_cases hw : (mdiobus_write T dev.priv B53_PSEUDO_PHY REG_MII_PAGE
        (((page <<< 8) ||| REG_MII_PAGE_ENABLE) % 65536)).1 = 0
    · obtain ⟨tr, hs, hlog, hpage, hm⟩ := b53_mdio_op_addr_shape T
        { dev with priv := (mdiobus_write T dev.priv B53_PSEUDO_PHY REG_MII_PAGE
            (((page <<< 8) ||| REG_MII_PAGE_ENABLE) % 65536)).2, current_page := page } reg op
      refine ⟨Call.write B53_PSEUDO_PHY REG_MII_PAGE
          (((page <<< 8) ||| REG_MII_PAGE_ENABLE) % 65536) 0 :: tr, ?_, ?_, ?_⟩
      · have := @OpShape.selected dev.current_page page reg op tr _ hcp hs
        simpa [b53_mdio_op, hcp, hw, hpage] using this
      · simp [b53_mdio_op, hcp, hw, hlog]
      · simpa [b53_mdio_op, hcp, hw] using hm
    · refine ⟨[Call.write B53_PSEUDO_PHY REG_MII_PAGE
          (((page <<< 8) ||| REG_MII_PAGE_ENABLE) % 65536)
          (mdiobus_write T dev.priv B53_PSEUDO_PHY REG_MII_PAGE
            (((page <<< 8) ||| REG_MII_PAGE_ENABLE) % 65536)).1], ?_, ?_, ?_⟩
      · have := @OpShape.fail dev.current_page page reg op _ hcp hw
        simpa [b53_mdio_op, hcp, hw] using this
      · simp [b53_mdio_op, hcp, hw]
      · simp [b53_mdio_op, hcp, hw]

/-! ## Writes: staging, then the handshake -/

theorem and_ffff_mod (x : Nat) : (x &&& 0xffff) % 65536 = x &&& 0xffff := by
  rw [and_ffff]
  omega

/-- The staging loop with `k` slots left from slot `i`: either every write
succeeded, or the writes stop at the first failing one and its code is returned. -/
theorem b53_mdio_write_loop_shape {σ : Type} (T : Transport σ) :
    ∀ (k i temp : Nat) (bus : mii_bus σ),
      ((b53_mdio_write_loop T k i temp bus).1 = 0 ∧
        (b53_mdio_write_loop T k i temp bus).2.log = bus.log ++ (List.range k).map (fun m =>
          Call.write B53_PSEUDO_PHY (REG_MII_DATA0 + (i + m)) ((temp >>> (16 * m)) &&& 0xffff) 0)) ∨
      (∃ j e, j < k ∧ e ≠ 0 ∧ (b53_mdio_write_loop T k i temp bus).1 = e ∧
        (b53_mdio_write_loop T k i temp bus).2.log = bus.log ++ (List.range j).map (fun m =>
          Call.write B53_PSEUDO_PHY (REG_MII_DATA0 + (i + m)) ((temp >>> (16 * m)) &&& 0xffff) 0)
          ++ [Call.write B53_PSEUDO_PHY (REG_MII_DATA0 + (i + j))
                ((temp >>> (16 * j)) &&& 0xffff) e]) := by
  intro k
  induction k with
  | zero =>
    intro i temp bus
    exact Or.inl (by simp [b53_mdio_write_loop])
  | succ k ih =>
    intro i temp bus
    have hshift : ∀ m, (temp >>> 16) >>> (16 * m) = temp >>> (16 * (m + 1)) := by
      intro m
      rw [← Nat.shiftRight_add]
      congr 1
      omega
    have hmap : ∀ (n : Nat) (e : Int),
        (List.range n).map (fun m => Call.write B53_PSEUDO_PHY (REG_MII_DATA0 + (i + 1 + m))
          (((temp >>> 16) >>> (16 * m)) &&& 0xffff) e)
        = (List.range n).map ((fun m => Call.write B53_PSEUDO_PHY (REG_MII_DATA0 + (i + m))
          ((temp >>> (16 * m)) &&& 0xffff) e) ∘ Nat.succ) := by
      intro n e
      apply List.map_congr_left
      intro m _
      simp only [Function.comp, hshift, Nat.succ_eq_add_one]
      congr 2
      omega
    by_cases hw : (mdiobus_write T bus B53_PSEUDO_PHY (REG_MII_DATA0 + i) (temp &&& 0xffff)).1 = 0
    · rcases ih (i + 1) (temp >>> 16)
          (mdiobus_write T bus B53_PSEUDO_PHY (REG_MII_DATA0 + i) (temp &&& 0xffff)).2 with
        ⟨h0, hlog⟩ | ⟨j, e, hj, he, hret, hlog⟩
      · refine Or.inl ⟨by simpa [b53_mdio_write_loop, hw] using h0, ?_⟩
        simp only [b53_mdio_write_loop, hw, ne_eq, not_true_eq_false, if_false]
        rw [hlog, hmap, List.range_succ_eq_map, List.map_cons, List.map_map]
        simp [and_ffff_mod, hw]
      · refine Or.inr ⟨j + 1, e, by omega, he, by simpa [b53_mdio_write_loop, hw] using hret, ?_⟩
        simp only [b53_mdio_write_loop, hw, ne_eq, not_true_eq_false, if_false]
        have e1 : i + 1 + j = i + (j + 1) := by omega
        rw [hlog, hmap, List.range_succ_eq_map, List.map_cons, List.map_map, hshift, e1]
        simp [and_ffff_mod, hw]
    · refine Or.inr ⟨0, _, by omega, hw, by simp [b53_mdio_write_loop, hw], ?_⟩
      simp [b53_mdio_write_loop, hw, and_ffff_mod]

theorem mdiobus_write_and_ffff {σ : Type} (T : Transport σ) (bus : mii_bus σ) (a r v : Nat) :
    mdiobus_write T bus a r (v &&& 0xffff) = mdiobus_write T bus a r v := by
  have h : (v &&& 0xffff) % 65536 = v % 65536 := by rw [and_ffff]; omega
  simp only [mdiobus_write, h]

/-- Every write operation is the staging loop over its slots followed by the
handshake with the write bit. -/
theorem mdio_write_eq {σ : Type} (T : Transport σ) (w : Width) (dev : b53_device σ)
    (page reg v : Nat) :
    mdio_write T w dev page reg v
      = if (b53_mdio_write_loop T w.words 0 v dev.priv).1 ≠ 0 then
          ((b53_mdio_write_loop T w.words 0 v dev.priv).1,
            { dev with priv := (b53_mdio_write_loop T w.words 0 v dev.priv).2 })
        else b53_mdio_op T { dev with priv := (b53_mdio_write_loop T w.words 0 v dev.priv).2 }
          page reg REG_MII_ADDR_WRITE := by
  cases w
  · by_cases h : (mdiobus_write T dev.priv B53_PSEUDO_PHY REG_MII_DATA0 v).1 = 0 <;>
      simp [mdio_write, b53_mdio_ops, b53_mdio_write8, Width.words, b53_mdio_write_loop,
        mdiobus_write_and_ffff, h]
  · by_cases h : (mdiobus_write T dev.priv B53_PSEUDO_PHY REG_MII_DATA0 v).1 = 0 <;>
      simp [mdio_write, b53_mdio_ops, b53_mdio_write16, Width.words, b53_mdio_write_loop,
        mdiobus_write_and_ffff, h]
  · simp [mdio_write, b53_mdio_ops, b53_mdio_write32, Width.words]
  · simp [mdio_write, b53_mdio_ops, b53_mdio_write48, Width.words]
  · simp [mdio_write, b53_mdio_ops, b53_mdio_write64, Width.words]

/-- The log, return code and frame of a write operation: it stops at the first
failing data write, or stages every slot and runs the handshake. -/
theorem mdio_write_shape {σ : Type} (T : Transport σ) (w : Width) (dev : b53_device σ)
    (page reg v : Nat) :
    (∃ j e, j < w.words ∧ e ≠ 0 ∧ (mdio_write T w dev page reg v).1 = e ∧
      (mdio_write T w dev page reg v).2.priv.log = dev.priv.log ++ (stagedWrites v j ++
        [Call.write B53_PSEUDO_PHY (REG_MII_DATA0 + j) ((v >>> (16 * j)) &&& 0xffff) e]) ∧
      (mdio_write T w dev page reg v).2.current_page = dev.current_page ∧
      (mdio_write T w dev page reg v).2.reg_mutex = dev.reg_mutex) ∨
    (∃ tr, OpShape dev.current_page page reg REG_MII_ADDR_WRITE tr
        (mdio_write T w dev page reg v).1 (mdio_write T w dev page reg v).2.current_page ∧
      (mdio_write T w dev page reg v).2.priv.log
        = dev.priv.log ++ (stagedWrites v w.words ++ tr) ∧
      (mdio_write T w dev page reg v).2.reg_mutex = dev.reg_mutex) := by
  rw [mdio_write_eq]
  rcases b53_mdio_write_loop_shape T w.words 0 v dev.priv with
    ⟨h0, hlog⟩ | ⟨j, e, hj, he, hret, hlog⟩
  · right
    obtain ⟨tr, hs, hl, hm⟩ := b53_mdio_op_shape T
      { dev with priv := (b53_mdio_write_loop T w.words 0 v dev.priv).2 } page reg
      REG_MII_ADDR_WRITE
    refine ⟨tr, ?_, ?_, ?_⟩
    · simpa [h0] using hs
    · simp only [h0, ne_eq, not_true_eq_false, if_false, hl, hlog]
      simp [stagedWrites]
    · simpa [h0] using hm
  · left
    have hne : (b53_mdio_write_loop T w.words 0 v dev.priv).1 ≠ 0 := by rw [hret]; exact he
    refine ⟨j, e, hj, he, ?_, ?_, ?_, ?_⟩
    · simp [hret, he]
    · simp only [hne, ne_eq, not_false_eq_true, if_true, hlog]
      simp [stagedWrites]
    · simp [hne]
    · simp [hne]

/-! ## Reads: the handshake, then the data registers -/

/-- A read whose handshake fails returns the handshake's code and state and
leaves the output variable alone. -/
theorem mdio_read_fail {σ : Type} (T : Transport σ) (w : Width) (dev : b53_device σ)
    (page reg val : Nat) (h : (b53_mdio_op T dev page reg REG_MII_ADDR_READ).1 ≠ 0) :
    mdio_read T w dev page reg val
      = ((b53_mdio_op T dev page reg REG_MII_ADDR_READ).1, val,
          (b53_mdio_op T dev page reg REG_MII_ADDR_READ).2) := by
  cases w <;>
    simp [mdio_read, b53_mdio_ops, b53_mdio_read8, b53_mdio_read16, b53_mdio_read32,
      b53_mdio_read48, b53_mdio_read64, h]

/-- A read whose handshake succeeds reads its data slots in the slot order of
its width, returns 0 and stores the value assembled from what the reads returned. -/
theorem mdio_read_ok {σ : Type} (T : Transport σ) (w : Width) (dev : b53_device σ)
    (page reg val : Nat) (h : (b53_mdio_op T dev page reg REG_MII_ADDR_READ).1 = 0) :
    ∃ rs : List Int, rs.length = w.words ∧
      (mdio_read T w dev page reg val).1 = 0 ∧
      (mdio_read T w dev page reg val).2.1 = rawValue w rs ∧
      (mdio_read T w dev page reg val).2.2.priv.log
        = (b53_mdio_op T dev page reg REG_MII_ADDR_READ).2.priv.log ++ dataReads w rs ∧
      (mdio_read T w dev page reg val).2.2.current_page
        = (b53_mdio_op T dev page reg REG_MII_ADDR_READ).2.current_page ∧
      (mdio_read T w dev page reg val).2.2.reg_mutex
        = (b53_mdio_op T dev page reg REG_MII_ADDR_READ).2.reg_mutex := by
  cases w
  · exact ⟨[(mdiobus_read T (b53_mdio_op T dev page reg REG_MII_ADDR_READ).2.priv
        B53_PSEUDO_PHY REG_MII_DATA0).1], rfl, by
      simp [mdio_read, b53_mdio_ops, b53_mdio_read8, h, rawValue, dataReads, Width.readSlots]⟩
  · exact ⟨[(mdiobus_read T (b53_mdio_op T dev page reg REG_MII_ADDR_READ).2.priv
        B53_PSEUDO_PHY REG_MII_DATA0).1], rfl, by
      simp [mdio_read, b53_mdio_ops, b53_mdio_read16, h, rawValue, dataReads, Width.readSlots]⟩
  · exact ⟨[(mdiobus_read T (b53_mdio_op T dev page reg REG_MII_ADDR_READ).2.priv
        B53_PSEUDO_PHY REG_MII_DATA0).1,
      (mdiobus_read T (mdiobus_read T (b53_mdio_op T dev page reg REG_MII_ADDR_READ).2.priv
        B53_PSEUDO_PHY REG_MII_DATA0).2 B53_PSEUDO_PHY REG_MII_DATA1).1], rfl, by
      simp [mdio_read, b53_mdio_ops, b53_mdio_read32, h, rawValue, dataReads, Width.readSlots,
        REG_MII_DATA1, REG_MII_DATA0]⟩
  · exact ⟨[(mdiobus_read T (b53_mdio_op T dev page reg REG_MII_ADDR_READ).2.priv
        B53_PSEUDO_PHY (REG_MII_DATA0 + 2)).1,
      (mdiobus_read T (mdiobus_read T (b53_mdio_op T dev page reg REG_MII_ADDR_READ).2.priv
        B53_PSEUDO_PHY (REG_MII_DATA0 + 2)).2 B53_PSEUDO_PHY (REG_MII_DATA0 + 1)).1,
      (mdiobus_read T (mdiobus_read T (mdiobus_read T
        (b53_mdio_op T dev page reg REG_MII_ADDR_READ).2.priv
        B53_PSEUDO_PHY (REG_MII_DATA0 + 2)).2 B53_PSEUDO_PHY (REG_MII_DATA0 + 1)).2
        B53_PSEUDO_PHY (REG_MII_DATA0 + 0)).1], rfl, by
      simp [mdio_read, b53_mdio_ops, b53_mdio_read48, b53_mdio_read_loop, h, rawValue, dataReads,
        Width.readSlots]⟩
  · exact ⟨[(mdiobus_read T (b53_mdio_op T dev page reg REG_MII_ADDR_READ).2.priv
        B53_PSEUDO_PHY (REG_MII_DATA0 + 3)).1,
      (mdiobus_read T (mdiobus_read T (b53_mdio_op T dev page reg REG_MII_ADDR_READ).2.priv
        B53_PSEUDO_PHY (REG_MII_DATA0 + 3)).2 B53_PSEUDO_PHY (REG_MII_DATA0 + 2)).1,
      (mdiobus_read T (mdiobus_read T (mdiobus_read T
        (b53_mdio_op T dev page reg REG_MII_ADDR_READ).2.priv
        B53_PSEUDO_PHY (REG_MII_DATA0 + 3)).2 B53_PSEUDO_PHY (REG_MII_DATA0 + 2)).2
        B53_PSEUDO_PHY (REG_MII_DATA0 + 1)).1,
      (mdiobus_read T (mdiobus_read T (mdiobus_read T (mdiobus_read T
        (b53_mdio_op T dev page reg REG_MII_ADDR_READ).2.priv
        B53_PSEUDO_PHY (REG_MII_DATA0 + 3)).2 B53_PSEUDO_PHY (REG_MII_DATA0 + 2)).2
        B53_PSEUDO_PHY (REG_MII_DATA0 + 1)).2 B53_PSEUDO_PHY (REG_MII_DATA0 + 0)).1], rfl, by
      simp [mdio_read, b53_mdio_ops, b53_mdio_read64, b53_mdio_read_loop, h, rawValue, dataReads,
        Width.readSlots]⟩

/-! ## Every operation only appends to the log -/

theorem append_trace (l t : List Call) : l ++ trace l (l ++ t) = l ++ t := by
  rw [trace_append]

/-- A handshake appends its calls to the log. -/
theorem b53_mdio_op_log {σ : Type} (T : Transport σ) (dev : b53_device σ) (page reg op : Nat) :
    (b53_mdio_op T dev page reg op).2.priv.log
      = dev.priv.log ++ trace dev.priv.log (b53_mdio_op T dev page reg op).2.priv.log := by
  obtain ⟨tr, _, hlog, _⟩ := b53_mdio_op_shape T dev page reg op
  rw [hlog, append_trace]

/-- A write operation appends its calls to the log. -/
theorem mdio_write_log {σ : Type} (T : Transport σ) (w : Width) (dev : b53_device σ)
    (page reg v : Nat) :
    (mdio_write T w dev page reg v).2.priv.log
      = dev.priv.log ++ trace dev.priv.log (mdio_write T w dev page reg v).2.priv.log := by
  rcases mdio_write_shape T w dev page reg v with
    ⟨_, _, _, _, _, hlog, _, _⟩ | ⟨_, _, hlog, _⟩ <;>
    rw [hlog, append_trace]

/-- A read operation appends its calls to the log. -/
theorem mdio_read_log {σ : Type} (T : Transport σ) (w : Width) (dev : b53_device σ)
    (page reg val : Nat) :
    (mdio_read T w dev page reg val).2.2.priv.log
      = dev.priv.log ++ trace dev.priv.log (mdio_read T w dev page reg val).2.2.priv.log := by
  obtain ⟨tr, _, hl, _⟩ := b53_mdio_op_shape T dev page reg REG_MII_ADDR_READ
  by_cases hop : (b53_mdio_op T dev page reg REG_MII_ADDR_READ).1 = 0
  · obtain ⟨rs, _, _, _, hlog, _, _⟩ := mdio_read_ok T w dev page reg val hop
    rw [hlog, hl, List.append_assoc, append_trace]
  · rw [mdio_read_fail T w dev page reg val hop]
    show (b53_mdio_op T dev page reg REG_MII_ADDR_READ).2.priv.log = _
    rw [hl, append_trace]

/-! ## Which registers each part of an operation touches -/

theorem AddrShape.mem_addr {reg op : Nat} {tr : List Call} {ret : Int} (h : AddrShape reg op tr ret) :
    ∀ c ∈ tr, c.addr = B53_PSEUDO_PHY ∧ c.reg = REG_MII_ADDR := by
  cases h with
  | fail r hr =>
    intro c hc
    simp only [List.mem_singleton] at hc
    subst hc
    exact ⟨rfl, rfl⟩
  | polled rs t hp =>
    intro c hc
    rcases List.mem_cons.mp hc with rfl | hc
    · exact ⟨rfl, rfl⟩
    · obtain ⟨r, _, rfl⟩ := List.mem_map.mp hc
      exact ⟨rfl, rfl⟩

theorem OpShape.mem_op {cp page reg op : Nat} {tr : List Call} {ret : Int} {cp1 : Nat}
    (h : OpShape cp page reg op tr ret cp1) :
    ∀ c ∈ tr, c.addr = B53_PSEUDO_PHY ∧ (c.reg = REG_MII_PAGE ∨ c.reg = REG_MII_ADDR) := by
  cases h with
  | same tr ret hcp ha =>
    intro c hc
    exact ⟨(ha.mem_addr c hc).1, Or.inr (ha.mem_addr c hc).2⟩
  | fail r hcp hr =>
    intro c hc
    simp only [List.mem_singleton] at hc
    subst hc
    exact ⟨rfl, Or.inl rfl⟩
  | selected tr ret hcp ha =>
    intro c hc
    rcases List.mem_cons.mp hc with rfl | hc
    · exact ⟨rfl, Or.inl rfl⟩
    · exact ⟨(ha.mem_addr c hc).1, Or.inr (ha.mem_addr c hc).2⟩

/-- A handshake touches no data register. -/
theorem OpShape.not_data {cp page reg op : Nat} {tr : List Call} {ret : Int} {cp1 : Nat}
    (h : OpShape cp page reg op tr ret cp1) : ∀ c ∈ tr, c.isData = false := by
  intro c hc
  rcases (h.mem_op c hc).2 with h1 | h1 <;>
    simp [Call.isData, h1, REG_MII_PAGE, REG_MII_ADDR, REG_MII_DATA0]

theorem stagedWrites_mem {v n : Nat} {c : Call} (h : c ∈ stagedWrites v n) :
    ∃ i, i < n ∧
      c = Call.write B53_PSEUDO_PHY (REG_MII_DATA0 + i) ((v >>> (16 * i)) &&& 0xffff) 0 := by
  obtain ⟨i, hi, rfl⟩ := List.mem_map.mp h
  exact ⟨i, List.mem_range.mp hi, rfl⟩

theorem stagedWrites_length (v n : Nat) : (stagedWrites v n).length = n := by
  simp [stagedWrites]

/-- The address half of a handshake is the strobe followed only by polls of the
address register: none after a failed strobe, one to five after a successful one. -/
theorem AddrShape.split_addr {reg op : Nat} {tr : List Call} {ret : Int}
    (h : AddrShape reg op tr ret) :
    ∃ (r : Int) (polls : List Call),
      tr = Call.write B53_PSEUDO_PHY REG_MII_ADDR (((reg <<< 8) ||| op) % 65536) r :: polls ∧
      (∀ c ∈ polls, c.isPoll = true) ∧
      ((r ≠ 0 ∧ polls = [] ∧ ret = r) ∨
       (r = 0 ∧ polls ≠ [] ∧ polls.length ≤ 5 ∧ (ret = 0 ∨ ret = - EIO))) := by
  cases h with
  | fail r hr => exact ⟨_, [], rfl, by simp, Or.inl ⟨hr, rfl, rfl⟩⟩
  | polled rs t hp =>
    refine ⟨0, rs.map (Call.read B53_PSEUDO_PHY REG_MII_ADDR), rfl, ?_, Or.inr ⟨rfl, ?_, ?_, ?_⟩⟩
    · intro c hc
      obtain ⟨x, _, rfl⟩ := List.mem_map.mp hc
      rfl
    · cases hp with
      | clear pre r hpre hr hlen => simp
      | timeout rs hlen hrs =>
        intro h0
        simp only [List.map_eq_nil_iff] at h0
        simp [h0] at hlen
    · cases hp with
      | clear pre r hpre hr hlen => simp; omega
      | timeout rs hlen hrs => simp [hlen]
    · cases t <;> simp

/-- A handshake is at most one write to the page register, then (unless that
write failed) the address half. -/
theorem OpShape.split_op {cp page reg op : Nat} {tr : List Call} {ret : Int} {cp1 : Nat}
    (h : OpShape cp page reg op tr ret cp1) :
    ∃ pg rest : List Call, tr = pg ++ rest ∧ pg.length ≤ 1 ∧
      (∀ c ∈ pg, c.isPageWrite = true) ∧
      ((rest = [] ∧ ret ≠ 0 ∧ ∃ c ∈ pg, c.ret ≠ 0) ∨
       ((∀ c ∈ pg, c.ret = 0) ∧ AddrShape reg op rest ret)) := by
  cases h with
  | same tr ret hcp ha => exact ⟨[], tr, rfl, by simp, by simp, Or.inr ⟨by simp, ha⟩⟩
  | fail r hcp hr =>
    refine ⟨_, [], (List.append_nil _).symm, by simp, ?_, Or.inl ⟨rfl, hr, ?_⟩⟩
    · intro c hc
      simp only [List.mem_singleton] at hc
      subst hc
      rfl
    · exact ⟨_, List.mem_singleton.mpr rfl, hr⟩
  | selected tr ret hcp ha =>
    refine ⟨[Call.write B53_PSEUDO_PHY REG_MII_PAGE
      (((page <<< 8) ||| REG_MII_PAGE_ENABLE) % 65536) 0], tr, rfl, by simp, ?_,
      Or.inr ⟨?_, ha⟩⟩
    · intro c hc
      simp only [List.mem_singleton] at hc
      subst hc
      rfl
    · intro c hc
      simp only [List.mem_singleton] at hc
      subst hc
      rfl

/-! ## Claims on the write path -/

/-- C3 (staged-write abort). For every write width: if the log of the
operation holds a data-register write of slot `i` that failed with `e ≠ 0`, then
`i` is a slot of the width, the operation returns `e`, `current_page` is
unchanged, and the calls of the operation are exactly the successful writes of
slots `0 .. i-1` followed by the failed one: no later data word, no write to
the page register or the address register, no poll read. -/
theorem staged_write_abort {σ : Type} (T : Transport σ) (w : Width) (dev : b53_device σ)
    (page reg v i x : Nat) (e : Int) (he : e ≠ 0)
    (hfail : Call.write B53_PSEUDO_PHY (REG_MII_DATA0 + i) x e
      ∈ trace dev.priv.log (mdio_write T w dev page reg v).2.priv.log) :
    i < w.words ∧
    (mdio_write T w dev page reg v).1 = e ∧
    (mdio_write T w dev page reg v).2.current_page = dev.current_page ∧
    (mdio_write T w dev page reg v).2.priv.log
      = dev.priv.log ++
        ((List.range i).map (fun j =>
            Call.write B53_PSEUDO_PHY (REG_MII_DATA0 + j) ((v >>> (16 * j)) &&& 0xffff) 0)
          ++ [Call.write B53_PSEUDO_PHY (REG_MII_DATA0 + i) x e]) ∧
    (∀ c ∈ trace dev.priv.log (mdio_write T w dev page reg v).2.priv.log,
      c.isPageWrite = false ∧ c.isStrobe = false ∧ c.isPoll = false ∧
      c.isDataWrite = true ∧ c.reg ≤ REG_MII_DATA0 + i) := by
  rcases mdio_write_shape T w dev page reg v with
    ⟨j, e1, hj, he1, hret, hlog, hcp, _⟩ | ⟨tr, hs, hlog, _⟩
  · rw [hlog, trace_append] at hfail
    have hij : i = j ∧ x = (v >>> (16 * j)) &&& 0xffff ∧ e = e1 := by
      rcases List.mem_append.mp hfail with h | h
      · obtain ⟨m, _, hm⟩ := stagedWrites_mem h
        simp only [Call.write.injEq] at hm
        exact absurd hm.2.2.2 he
      · simp only [List.mem_singleton, Call.write.injEq] at h
        exact ⟨by omega, h.2.2.1, h.2.2.2⟩
    obtain ⟨rfl, rfl, rfl⟩ := hij
    refine ⟨hj, hret, hcp, hlog, ?_⟩
    intro c hc
    rw [hlog, trace_append] at hc
    rcases List.mem_append.mp hc with h | h
    · obtain ⟨m, hm, rfl⟩ := stagedWrites_mem h
      simp [Call.isPageWrite, Call.isStrobe, Call.isPoll, Call.isDataWrite, Call.isData,
        Call.isWrite, Call.reg, REG_MII_PAGE, REG_MII_ADDR, REG_MII_DATA0, REG_MII_DATA3]
      cases w <;> simp [Width.words] at hj <;> omega
    · simp only [List.mem_singleton] at h
      subst h
      simp [Call.isPageWrite, Call.isStrobe, Call.isPoll, Call.isDataWrite, Call.isData,
        Call.isWrite, Call.reg, REG_MII_PAGE, REG_MII_ADDR, REG_MII_DATA0, REG_MII_DATA3]
      cases w <;> simp [Width.words] at hj <;> omega
  · rw [hlog, trace_append] at hfail
    rcases List.mem_append.mp hfail with h | h
    · obtain ⟨m, _, hm⟩ := stagedWrites_mem h
      simp only [Call.write.injEq] at hm
      exact absurd hm.2.2.2 he
    · have := (hs.mem_op _ h).2
      simp [Call.reg, REG_MII_PAGE, REG_MII_ADDR, REG_MII_DATA0] at this
      omega

/-- C3, witness: a 32-bit write over a mock whose second write fails with -5. -/
theorem staged_write_abort_witness :
    (mdio_write scripted Width.w32 (scriptedDev 0xff [0, -5] []) 3 4 0x10002).1 = -5 ∧
    (mdio_write scripted Width.w32 (scriptedDev 0xff [0, -5] []) 3 4 0x10002).2.current_page
      = 0xff ∧
    (mdio_write scripted Width.w32 (scriptedDev 0xff [0, -5] []) 3 4 0x10002).2.priv.log
      = [Call.write 0x1e 0x18 2 0, Call.write 0x1e 0x19 1 (-5)] := by
  have h := staged_write_abort scripted Width.w32 (scriptedDev 0xff [0, -5] []) 3 4 0x10002
    1 1 (-5) (by decide) (by decide)
  exact ⟨h.2.1, h.2.2.1, h.2.2.2.1⟩

/-- A write operation none of whose data-register writes failed staged every
slot and ran the handshake. -/
theorem mdio_write_reached {σ : Type} (T : Transport σ) (w : Width) (dev : b53_device σ)
    (page reg v : Nat)
    (h : ∀ c ∈ trace dev.priv.log (mdio_write T w dev page reg v).2.priv.log,
      c.isDataWrite = true → c.ret = 0) :
    ∃ tr, OpShape dev.current_page page reg REG_MII_ADDR_WRITE tr
        (mdio_write T w dev page reg v).1 (mdio_write T w dev page reg v).2.current_page ∧
      (mdio_write T w dev page reg v).2.priv.log
        = dev.priv.log ++ (stagedWrites v w.words ++ tr) := by
  rcases mdio_write_shape T w dev page reg v with
    ⟨j, e, hj, he, _, hlog, _, _⟩ | ⟨tr, hs, hlog, _⟩
  · exfalso
    rw [hlog, trace_append] at h
    have h1 := h (Call.write B53_PSEUDO_PHY (REG_MII_DATA0 + j) ((v >>> (16 * j)) &&& 0xffff) e)
      (by simp) (by
        have : j < 4 := by cases w <;> simp [Width.words] at hj <;> omega
        simp [Call.isDataWrite, Call.isData, Call.isWrite, Call.reg, REG_MII_DATA0, REG_MII_DATA3]
        omega)
    exact he h1
  · exact ⟨tr, hs, hlog⟩

/-- C5 (write ordering). In a write operation of any width that reaches the
handshake (no data-register write failed), the log of the operation is: one
write per slot of the width, slots ascending from 0; then at most one write to
the page register; then, unless that page write failed, the address strobe
`reg * 256 + 1` (write bit set) followed only by polls of the address
register. So every data write precedes the strobe, the strobe is the last
write, and no data register is touched after it. -/
theorem write_order {σ : Type} (T : Transport σ) (w : Width) (dev : b53_device σ)
    (page reg v : Nat) (hreg : reg < 256)
    (h : ∀ c ∈ trace dev.priv.log (mdio_write T w dev page reg v).2.priv.log,
      c.isDataWrite = true → c.ret = 0) :
    ∃ staged pg rest : List Call,
      (mdio_write T w dev page reg v).2.priv.log = dev.priv.log ++ (staged ++ (pg ++ rest)) ∧
      staged.map Call.reg = (List.range w.words).map (fun i => REG_MII_DATA0 + i) ∧
      (∀ c ∈ staged, c.isDataWrite = true) ∧
      pg.length ≤ 1 ∧ (∀ c ∈ pg, c.isPageWrite = true) ∧
      ((rest = [] ∧ ∃ c ∈ pg, c.ret ≠ 0) ∨
       (∃ (r : Int) (polls : List Call),
          rest = Call.write B53_PSEUDO_PHY REG_MII_ADDR (reg * 256 + 1) r :: polls ∧
          (reg * 256 + 1) &&& REG_MII_ADDR_WRITE = REG_MII_ADDR_WRITE ∧
          (∀ c ∈ pg, c.ret = 0) ∧
          ∀ c ∈ polls, c.isPoll = true)) := by
  obtain ⟨tr, hs, hlog⟩ := mdio_write_reached T w dev page reg v h
  have hword : ((reg <<< 8) ||| REG_MII_ADDR_WRITE) % 65536 = reg * 256 + 1 :=
    strobe_word reg 1 hreg (by decide)
  have hbit : (reg * 256 + 1) &&& REG_MII_ADDR_WRITE = REG_MII_ADDR_WRITE := by
    show (reg * 256 + 1) &&& 1 = 1
    rw [and_one]; omega
  have hstaged1 : (stagedWrites v w.words).map Call.reg
      = (List.range w.words).map (fun i => REG_MII_DATA0 + i) := by
    simp [stagedWrites, Function.comp_def, Call.reg]
  have hstaged2 : ∀ c ∈ stagedWrites v w.words, c.isDataWrite = true := by
    intro c hc
    obtain ⟨i, hi, rfl⟩ := stagedWrites_mem hc
    have : i < 4 := by cases w <;> simp [Width.words] at hi <;> omega
    simp [Call.isDataWrite, Call.isData, Call.isWrite, Call.reg, REG_MII_DATA0, REG_MII_DATA3]
    omega
  obtain ⟨pg, rest, htr, hpg1, hpg2, hcase⟩ := hs.split_op
  refine ⟨stagedWrites v w.words, pg, rest, by rw [hlog, htr], hstaged1, hstaged2, hpg1, hpg2, ?_⟩
  rcases hcase with ⟨hnil, _, hc⟩ | ⟨hok, ha⟩
  · exact Or.inl ⟨hnil, hc⟩
  · obtain ⟨r, polls, hrest, hpolls, _⟩ := ha.split_addr
    exact Or.inr ⟨r, polls, by rw [hrest, hword], hbit, hok, hpolls⟩

/-- C5, witness: a 64-bit write to page 3, offset 4 over a mock whose writes
succeed and whose address register is busy once: four data writes, the page
select, the strobe 0x0401, two polls. -/
theorem write_order_witness :
    (mdio_write scripted Width.w64 (scriptedDev 0xff [] [1, 0]) 3 4 0x0001000200030004).2.priv.log
      = [Call.write 0x1e 0x18 4 0, Call.write 0x1e 0x19 3 0, Call.write 0x1e 0x1a 2 0,
         Call.write 0x1e 0x1b 1 0, Call.write 0x1e 0x10 0x0301 0, Call.write 0x1e 0x11 0x0401 0,
         Call.read 0x1e 0x11 1, Call.read 0x1e 0x11 0] ∧
    ∃ staged pg rest : List Call,
      (mdio_write scripted Width.w64 (scriptedDev 0xff [] [1, 0]) 3 4
          0x0001000200030004).2.priv.log = [] ++ (staged ++ (pg ++ rest)) ∧
      staged.map Call.reg = [0x18, 0x19, 0x1a, 0x1b] ∧
      ∃ (r : Int) (polls : List Call),
        rest = Call.write 0x1e 0x11 0x0401 r :: polls ∧ ∀ c ∈ polls, c.isPoll = true := by
  refine ⟨by decide, ?_⟩
  obtain ⟨staged, pg, rest, hlog, hst, _, _, _, hrest⟩ :=
    write_order scripted Width.w64 (scriptedDev 0xff [] [1, 0]) 3 4 0x0001000200030004
      (by decide) (by decide)
  refine ⟨staged, pg, rest, hlog, hst, ?_⟩
  rcases hrest with ⟨hnil, c, hc, hne⟩ | ⟨r, polls, hr, _, _, hp⟩
  · exfalso
    subst hnil
    have hmem : c ∈ (mdio_write scripted Width.w64 (scriptedDev 0xff [] [1, 0]) 3 4
        0x0001000200030004).2.priv.log := by
      rw [hlog]; simp [hc]
    have hall : ∀ d ∈ (mdio_write scripted Width.w64 (scriptedDev 0xff [] [1, 0]) 3 4
        0x0001000200030004).2.priv.log, d.isWrite = true → d.ret = 0 := by decide
    have hw : c.isWrite = true := by
      have := ‹∀ c ∈ pg, c.isPageWrite = true› c hc
      simp [Call.isPageWrite] at this
      exact this.1
    exact hne (hall c hmem hw)
  · exact ⟨r, polls, hr, hp⟩

/-- C7 (write word composition). For every width with `n` slots and every
value `v`, when no data-register write fails the operation first writes, for
`i = 0 .. n-1` in this order, the word `(v >> 16 i) & 0xffff` to register
`0x18 + i` of the pseudo PHY, and these are all the data-register writes of
the operation. -/
theorem write_words {σ : Type} (T : Transport σ) (w : Width) (dev : b53_device σ)
    (page reg v : Nat)
    (h : ∀ c ∈ trace dev.priv.log (mdio_write T w dev page reg v).2.priv.log,
      c.isDataWrite = true → c.ret = 0) :
    (trace dev.priv.log (mdio_write T w dev page reg v).2.priv.log).take w.words
      = (List.range w.words).map (fun i =>
          Call.write B53_PSEUDO_PHY (REG_MII_DATA0 + i) ((v >>> (16 * i)) &&& 0xffff) 0) ∧
    (trace dev.priv.log (mdio_write T w dev page reg v).2.priv.log).filter Call.isDataWrite
      = (List.range w.words).map (fun i =>
          Call.write B53_PSEUDO_PHY (REG_MII_DATA0 + i) ((v >>> (16 * i)) &&& 0xffff) 0) := by
  obtain ⟨tr, hs, hlog⟩ := mdio_write_reached T w dev page reg v h
  rw [hlog, trace_append]
  have hlen := stagedWrites_length v w.words
  have hdata : ∀ c ∈ stagedWrites v w.words, c.isDataWrite = true := by
    intro c hc
    obtain ⟨i, hi, rfl⟩ := stagedWrites_mem hc
    have : i < 4 := by cases w <;> simp [Width.words] at hi <;> omega
    simp [Call.isDataWrite, Call.isData, Call.isWrite, Call.reg, REG_MII_DATA0, REG_MII_DATA3]
    omega
  have hnot : ∀ c ∈ tr, ¬ (c.isDataWrite = true) := by
    intro c hc
    simp [Call.isDataWrite, hs.not_data c hc]
  constructor
  · rw [List.take_left' hlen]
    rfl
  · rw [List.filter_append, List.filter_eq_self.mpr hdata, List.filter_eq_nil_iff.mpr hnot,
      List.append_nil]
    rfl

/-- C7, witness: over a mock that never fails, writing 0x00010002 as 32 bits
stages slot 0 = 0x0002, slot 1 = 0x0001, and writing 0x000100020003 as 48 bits
stages slot 0 = 0x0003, slot 1 = 0x0002, slot 2 = 0x0001. -/
theorem write_words_witness :
    (trace [] (mdio_write scripted Width.w32 (scriptedDev 0xff [] []) 3 4
        0x00010002).2.priv.log).filter Call.isDataWrite
      = [Call.write 0x1e 0x18 0x0002 0, Call.write 0x1e 0x19 0x0001 0] ∧
    (trace [] (mdio_write scripted Width.w48 (scriptedDev 0xff [] []) 3 4
        0x000100020003).2.priv.log).filter Call.isDataWrite
      = [Call.write 0x1e 0x18 0x0003 0, Call.write 0x1e 0x19 0x0002 0,
         Call.write 0x1e 0x1a 0x0001 0] :=
  ⟨(write_words scripted Width.w32 (scriptedDev 0xff [] []) 3 4 0x00010002 (by decide)).2,
   (write_words scripted Width.w48 (scriptedDev 0xff [] []) 3 4 0x000100020003 (by decide)).2⟩

/-! ## Claims on the handshake -/

theorem pollResults_map_read (rs : List Int) :
    pollResults (rs.map (Call.read B53_PSEUDO_PHY REG_MII_ADDR)) = rs := by
  induction rs with
  | nil => rfl
  | cons r rs ih =>
    simp only [pollResults] at ih
    simp [pollResults, Call.isPoll, Call.isWrite, Call.reg, Call.ret, ih]

theorem pollResults_write_cons (a r v : Nat) (e : Int) (l : List Call) :
    pollResults (Call.write a r v e :: l) = pollResults l := by
  simp [pollResults, Call.isPoll, Call.isWrite]

/-- With every write of a handshake successful, the polls recorded in its log
are the words of a `PollShape`, and a timeout is the only source of an error. -/
theorem OpShape.polls {cp page reg op : Nat} {tr : List Call} {ret : Int} {cp1 : Nat}
    (h : OpShape cp page reg op tr ret cp1) (hw : ∀ c ∈ tr, c.isWrite = true → c.ret = 0) :
    ∃ t, PollShape (pollResults tr) t ∧ ret = if t then - EIO else 0 := by
  have haddr : ∀ (tr1 : List Call) (ret1 : Int), AddrShape reg op tr1 ret1 →
      (∀ c ∈ tr1, c.isWrite = true → c.ret = 0) →
      ∃ t, PollShape (pollResults tr1) t ∧ ret1 = if t then - EIO else 0 := by
    intro tr1 ret1 ha hw1
    cases ha with
    | fail r hr => exact absurd (hw1 _ (List.mem_singleton.mpr rfl) rfl) hr
    | polled rs t hp =>
      refine ⟨t, ?_, rfl⟩
      rw [pollResults_write_cons, pollResults_map_read]
      exact hp
  cases h with
  | same tr ret hcp ha => exact haddr _ _ ha hw
  | fail r hcp hr => exact absurd (hw _ (List.mem_singleton.mpr rfl) rfl) hr
  | selected tr ret hcp ha =>
    rw [pollResults_write_cons]
    exact haddr _ _ ha (fun c hc => hw c (List.mem_cons_of_mem _ hc))

/-- In a list that is busy words then one more word, the first clear word is
the last word. -/
theorem first_clear_last (P : Int → Prop) :
    ∀ (pre pre1 : List Int) (r r1 : Int) (post1 : List Int),
      pre ++ [r] = pre1 ++ r1 :: post1 → (∀ x ∈ pre, P x) → ¬ P r1 → post1 = [] := by
  intro pre
  induction pre with
  | nil =>
    intro pre1 r r1 post1 h _ _
    cases pre1 with
    | nil =>
      simp only [List.nil_append, List.cons.injEq] at h
      exact h.2.symm
    | cons b pre1 =>
      have := congrArg List.length h
      simp at this
  | cons a pre ih =>
    intro pre1 r r1 post1 h hpre hr1
    cases pre1 with
    | nil =>
      simp only [List.cons_append, List.nil_append, List.cons.injEq] at h
      exact absurd (h.1 ▸ hpre a (List.mem_cons_self _ _)) hr1
    | cons b pre1 =>
      simp only [List.cons_append, List.cons.injEq] at h
      exact ih pre1 r r1 post1 h.2 (fun x hx => hpre x (List.mem_cons_of_mem _ hx)) hr1

/-- On a 16-bit word the busy test of the poll loop is the test of bits 0 and 1. -/
theorem busy_word (x : Int) (h0 : 0 ≤ x) (h1 : x < 65536) :
    busy x = true ↔ x.toNat &&& (REG_MII_ADDR_WRITE ||| REG_MII_ADDR_READ) ≠ 0 := by
  have : to_u16 x = x.toNat := by
    unfold to_u16
    omega
  simp [busy, this]

/-- A handshake polls the address register at most five times, whatever the
transport answers. -/
theorem OpShape.polls_le {cp page reg op : Nat} {tr : List Call} {ret : Int} {cp1 : Nat}
    (h : OpShape cp page reg op tr ret cp1) : (pollResults tr).length ≤ 5 := by
  have hpoll : ∀ (rs : List Int) (t : Bool), PollShape rs t → rs.length ≤ 5 := by
    intro rs t hp
    cases hp with
    | clear pre r hpre hr hlen => simp; omega
    | timeout rs hlen hrs => omega
  have haddr : ∀ (tr1 : List Call) (ret1 : Int), AddrShape reg op tr1 ret1 →
      (pollResults tr1).length ≤ 5 := by
    intro tr1 ret1 ha
    cases ha with
    | fail r hr => simp [pollResults, Call.isPoll, Call.isWrite]
    | polled rs t hp =>
      rw [pollResults_write_cons, pollResults_map_read]
      exact hpoll rs t hp
  cases h with
  | same tr ret hcp ha => exact haddr _ _ ha
  | fail r hcp hr => simp [pollResults, Call.isPoll, Call.isWrite]
  | selected tr ret hcp ha =>
    rw [pollResults_write_cons]
    exact haddr _ _ ha

/-- C4 (poll bound). A handshake never reads the address register more than 5
times. When its writes (page select, if any, and address strobe) succeed and its
polls return 16-bit words: it polls at least once; if the polled words are busy
words (bit 0 or bit 1 set) up to a first clear word, that clear word is the last
poll and the handshake returns 0, so after `k - 1` busy words and a clear
`k`-th one it has polled exactly `k ≤ 5` times; if every polled word is busy it
has polled exactly 5 times and returns `- EIO`. -/
theorem poll_bound {σ : Type} (T : Transport σ) (dev : b53_device σ) (page reg op : Nat) :
    (pollResults (trace dev.priv.log (b53_mdio_op T dev page reg op).2.priv.log)).length ≤ 5 ∧
    ((∀ c ∈ trace dev.priv.log (b53_mdio_op T dev page reg op).2.priv.log,
        c.isWrite = true → c.ret = 0) →
     (∀ c ∈ trace dev.priv.log (b53_mdio_op T dev page reg op).2.priv.log,
        c.isPoll = true → 0 ≤ c.ret ∧ c.ret < 65536) →
     1 ≤ (pollResults (trace dev.priv.log (b53_mdio_op T dev page reg op).2.priv.log)).length ∧
     (∀ (pre : List Int) (r : Int) (post : List Int),
        pollResults (trace dev.priv.log (b53_mdio_op T dev page reg op).2.priv.log)
          = pre ++ r :: post →
        (∀ x ∈ pre, x.toNat &&& (REG_MII_ADDR_WRITE ||| REG_MII_ADDR_READ) ≠ 0) →
        r.toNat &&& (REG_MII_ADDR_WRITE ||| REG_MII_ADDR_READ) = 0 →
        post = [] ∧ pre.length + 1 ≤ 5 ∧ (b53_mdio_op T dev page reg op).1 = 0) ∧
     ((∀ x ∈ pollResults (trace dev.priv.log (b53_mdio_op T dev page reg op).2.priv.log),
          x.toNat &&& (REG_MII_ADDR_WRITE ||| REG_MII_ADDR_READ) ≠ 0) →
        (pollResults (trace dev.priv.log (b53_mdio_op T dev page reg op).2.priv.log)).length = 5 ∧
        (b53_mdio_op T dev page reg op).1 = - EIO)) := by
  obtain ⟨tr, hs, hlog, _⟩ := b53_mdio_op_shape T dev page reg op
  rw [hlog, trace_append]
  refine ⟨hs.polls_le, ?_⟩
  intro hw h16
  obtain ⟨t, hp, hret⟩ := hs.polls hw
  have hrange : ∀ x ∈ pollResults tr, 0 ≤ x ∧ x < 65536 := by
    intro x hx
    obtain ⟨c, hc, rfl⟩ := List.mem_map.mp hx
    exact h16 c (List.mem_filter.mp hc).1 (List.mem_filter.mp hc).2
  generalize pollResults tr = polls at hp hrange
  cases hp with
  | clear pre r hpre hr hlen =>
    refine ⟨by simp, ?_, ?_⟩
    · intro pre1 r1 post1 heq hpre1 hr1
      have hr1mem : r1 ∈ pre ++ [r] := by rw [heq]; simp
      have hnb : ¬ (busy r1 = true) := by
        rw [busy_word r1 (hrange r1 hr1mem).1 (hrange r1 hr1mem).2]
        simpa using hr1
      have hpost := first_clear_last (fun x => busy x = true) pre pre1 r r1 post1 heq hpre hnb
      subst hpost
      have hl := congrArg List.length heq
      simp at hl
      exact ⟨rfl, by omega, by simpa using hret⟩
    · intro hall
      have hrm : r ∈ pre ++ [r] := by simp
      have := (busy_word r (hrange r hrm).1 (hrange r hrm).2).mpr (hall r hrm)
      rw [hr] at this
      exact absurd this (by decide)
  | timeout rs hlen hrs =>
    refine ⟨by omega, ?_, ?_⟩
    · intro pre1 r1 post1 heq hpre1 hr1
      have hr1mem : r1 ∈ polls := by rw [heq]; simp
      have := (busy_word r1 (hrange r1 hr1mem).1 (hrange r1 hr1mem).2).mp (hrs r1 hr1mem)
      exact absurd hr1 this
    · intro _
      exact ⟨hlen, by simpa using hret⟩

/-- C4, witness: four busy polls then a clear fifth succeed after exactly five
polls; five busy polls give `- EIO` after exactly five polls, and a sixth word
that would be clear is never read. -/
theorem poll_bound_witness :
    (pollResults (trace [] (b53_mdio_op scripted (scriptedDev 0xff [] [2, 2, 2, 2, 0]) 3 4
        REG_MII_ADDR_READ).2.priv.log) = [2, 2, 2, 2, 0] ∧
      (b53_mdio_op scripted (scriptedDev 0xff [] [2, 2, 2, 2, 0]) 3 4 REG_MII_ADDR_READ).1 = 0) ∧
    ((pollResults (trace [] (b53_mdio_op scripted (scriptedDev 0xff [] [2, 2, 2, 2, 2, 0]) 3 4
        REG_MII_ADDR_READ).2.priv.log)).length = 5 ∧
      (b53_mdio_op scripted (scriptedDev 0xff [] [2, 2, 2, 2, 2, 0]) 3 4 REG_MII_ADDR_READ).1
        = - EIO) :=
  ⟨⟨by decide,
    (((poll_bound scripted (scriptedDev 0xff [] [2, 2, 2, 2, 0]) 3 4 REG_MII_ADDR_READ).2
      (by decide) (by decide)).2.1 [2, 2, 2, 2] 0 [] (by decide) (by decide) (by decide)).2.2⟩,
   ((poll_bound scripted (scriptedDev 0xff [] [2, 2, 2, 2, 2, 0]) 3 4 REG_MII_ADDR_READ).2
      (by decide) (by decide)).2.2 (by decide)⟩

/-! ## Claims on the page cache -/

theorem mem_zipWith_left {α β γ : Type} (f : α → β → γ) :
    ∀ (l1 : List α) (l2 : List β) (c : γ), c ∈ List.zipWith f l1 l2 →
      ∃ a, a ∈ l1 ∧ ∃ b, c = f a b := by
  intro l1
  induction l1 with
  | nil => intro l2 c h; simp at h
  | cons a l1 ih =>
    intro l2 c h
    cases l2 with
    | nil => simp at h
    | cons b l2 =>
      simp only [List.zipWith_cons_cons, List.mem_cons] at h
      rcases h with rfl | h
      · exact ⟨a, List.mem_cons_self _ _, b, rfl⟩
      · obtain ⟨a1, ha1, b1, hb1⟩ := ih l2 c h
        exact ⟨a1, List.mem_cons_of_mem _ ha1, b1, hb1⟩

/-- The data phase of a read is reads of the data registers of the pseudo PHY. -/
theorem dataReads_mem {w : Width} {rs : List Int} {c : Call} (h : c ∈ dataReads w rs) :
    ∃ s r, s < 4 ∧ c = Call.read B53_PSEUDO_PHY (REG_MII_DATA0 + s) r := by
  obtain ⟨s, hs, r, rfl⟩ := mem_zipWith_left _ _ _ _ h
  refine ⟨s, r, ?_, rfl⟩
  cases w <;> simp [Width.readSlots] at hs <;> omega

theorem AddrShape.no_pageWrite {reg op : Nat} {tr : List Call} {ret : Int}
    (h : AddrShape reg op tr ret) : tr.filter Call.isPageWrite = [] := by
  rw [List.filter_eq_nil_iff]
  intro c hc
  simp [Call.isPageWrite, (h.mem_addr c hc).2, REG_MII_ADDR, REG_MII_PAGE]

/-- A successful handshake leaves the addressed page cached and wrote the page
register exactly when the cached page was another one. -/
theorem OpShape.pageWrites {cp page reg op : Nat} {tr : List Call} {ret : Int} {cp1 : Nat}
    (h : OpShape cp page reg op tr ret cp1) (h0 : ret = 0) :
    cp1 = page ∧ (tr.filter Call.isPageWrite).length = if cp = page then 0 else 1 := by
  cases h with
  | same tr ret hcp ha => exact ⟨hcp, by simp [ha.no_pageWrite, hcp]⟩
  | fail r hcp hr => exact absurd h0 hr
  | selected tr ret hcp ha =>
    refine ⟨rfl, ?_⟩
    have h1 : Call.isPageWrite (Call.write B53_PSEUDO_PHY REG_MII_PAGE
        (((page <<< 8) ||| REG_MII_PAGE_ENABLE) % 65536) 0) = true := rfl
    rw [List.filter_cons_of_pos h1, ha.no_pageWrite, if_neg hcp]
    rfl

/-- A successful access of any kind and width leaves its page cached and wrote
the page register exactly when the cached page was another one. -/
theorem access_pageWrites {σ : Type} (T : Transport σ) (dev : b53_device σ) (a : Access)
    (h : (access T dev a).1 = 0) :
    ∃ tr, (access T dev a).2.priv.log = dev.priv.log ++ tr ∧
      (access T dev a).2.current_page = a.page ∧
      (tr.filter Call.isPageWrite).length = if dev.current_page = a.page then 0 else 1 := by
  cases a with
  | read w p r val =>
    simp only [access, Access.page] at h ⊢
    by_cases hop : (b53_mdio_op T dev p r REG_MII_ADDR_READ).1 = 0
    · obtain ⟨rs, _, _, _, hlog, hcp, _⟩ := mdio_read_ok T w dev p r val hop
      obtain ⟨tr, hs, hl, _⟩ := b53_mdio_op_shape T dev p r REG_MII_ADDR_READ
      obtain ⟨hpage, hcount⟩ := hs.pageWrites hop
      refine ⟨tr ++ dataReads w rs, by rw [hlog, hl, List.append_assoc], by rw [hcp, hpage], ?_⟩
      have hnil : (dataReads w rs).filter Call.isPageWrite = [] := by
        rw [List.filter_eq_nil_iff]
        intro c hc
        obtain ⟨s, x, _, rfl⟩ := dataReads_mem hc
        simp [Call.isPageWrite, Call.isWrite]
      rw [List.filter_append, hnil, List.append_nil]
      exact hcount
    · rw [mdio_read_fail T w dev p r val hop] at h
      exact absurd h hop
  | write w p r v =>
    simp only [access, Access.page] at h ⊢
    rcases mdio_write_shape T w dev p r v with
      ⟨j, e, _, he, hret, _, _, _⟩ | ⟨tr, hs, hlog, _⟩
    · rw [h] at hret
      exact absurd hret.symm he
    · obtain ⟨hpage, hcount⟩ := hs.pageWrites h
      refine ⟨stagedWrites v w.words ++ tr, hlog, hpage, ?_⟩
      have hnil : (stagedWrites v w.words).filter Call.isPageWrite = [] := by
        rw [List.filter_eq_nil_iff]
        intro c hc
        obtain ⟨i, _, rfl⟩ := stagedWrites_mem hc
        simp [Call.isPageWrite, Call.isWrite, Call.reg, REG_MII_DATA0, REG_MII_PAGE]
        omega
      rw [List.filter_append, hnil, List.nil_append]
      exact hcount

/-- C6 (page-select count). For two successful accesses in a row, of any kinds,
widths and offsets, the first to page `a.page` on a handle whose `current_page`
is another page, the second to page `b.page`: the log of the two holds exactly
one write to the page register when `b.page = a.page` and exactly two
otherwise. -/
theorem page_select_count {σ : Type} (T : Transport σ) (dev : b53_device σ) (a b : Access)
    (hcp : dev.current_page ≠ a.page)
    (ha : (access T dev a).1 = 0)
    (hb : (access T (access T dev a).2 b).1 = 0) :
    ((trace dev.priv.log (access T (access T dev a).2 b).2.priv.log).filter
        Call.isPageWrite).length
      = if b.page = a.page then 1 else 2 := by
  obtain ⟨tr1, hlog1, hpage1, hcount1⟩ := access_pageWrites T dev a ha
  obtain ⟨tr2, hlog2, _, hcount2⟩ := access_pageWrites T (access T dev a).2 b hb
  rw [hlog2, hlog1, List.append_assoc, trace_append, List.filter_append, List.length_append,
    hcount1, hcount2, hpage1, if_neg hcp]
  by_cases hpq : a.page = b.page
  · simp [hpq]
  · have : ¬ b.page = a.page := fun h => hpq h.symm
    simp [hpq, this]

/-- C6, witness: from the fresh handle, a 16-bit read of page 3 then a 32-bit
write to page 3 select the page once; the same read then a write to page 5
select a page twice. -/
theorem page_select_count_witness :
    ((trace [] (access scripted (access scripted (scriptedDev 0xff [] [])
        (Access.read Width.w16 3 4 0)).2 (Access.write Width.w32 3 8 7)).2.priv.log).filter
        Call.isPageWrite).length = 1 ∧
    ((trace [] (access scripted (access scripted (scriptedDev 0xff [] [])
        (Access.read Width.w16 3 4 0)).2 (Access.write Width.w32 5 8 7)).2.priv.log).filter
        Call.isPageWrite).length = 2 :=
  ⟨page_select_count scripted (scriptedDev 0xff [] []) (Access.read Width.w16 3 4 0)
      (Access.write Width.w32 3 8 7) (by decide) (by decide) (by decide),
   page_select_count scripted (scriptedDev 0xff [] []) (Access.read Width.w16 3 4 0)
      (Access.write Width.w32 5 8 7) (by decide) (by decide) (by decide)⟩

/-! ## Claims on the read path -/

/-- The strobe word of a read has bit 1, the read bit, set. -/
theorem read_bit_of_strobe (reg : Nat) :
    (reg * 256 + REG_MII_ADDR_READ) &&& REG_MII_ADDR_READ = REG_MII_ADDR_READ := by
  show (reg * 256 + 2) &&& 2 = 2
  apply Nat.eq_of_testBit_eq
  intro i
  simp only [Nat.testBit_and]
  by_cases h : i = 1
  · subst h
    have : reg * 256 + 2 = 2 * (reg * 128 + 1) := by omega
    rw [this]
    simp [Nat.testBit, Nat.shiftRight_eq_div_pow]
    omega
  · have h2 : Nat.testBit 2 i = false := by
      have := @Nat.testBit_two_pow_of_ne 1 i (fun h1 => h h1.symm)
      simpa using this
    simp [h2]

/-- C9 (read transfer order). In a read operation of any width whose handshake
succeeds, the log of the operation is: at most one write to the page register;
the address strobe `reg * 256 + 2` (read bit set), successful; one to five polls
of the address register; then one read of each data slot of the width, in the
order slot 0 (width 8 and 16); 0, 1 (width 32); 2, 1, 0 (width 48);
3, 2, 1, 0 (width 64); and nothing after them. -/
theorem read_order {σ : Type} (T : Transport σ) (w : Width) (dev : b53_device σ)
    (page reg val : Nat) (hreg : reg < 256)
    (h : (b53_mdio_op T dev page reg REG_MII_ADDR_READ).1 = 0) :
    ∃ (pg polls : List Call) (rs : List Int),
      (mdio_read T w dev page reg val).2.2.priv.log
        = dev.priv.log ++ (pg ++ Call.write B53_PSEUDO_PHY REG_MII_ADDR
            (reg * 256 + REG_MII_ADDR_READ) 0
          :: (polls ++ List.zipWith
                (fun s r => Call.read B53_PSEUDO_PHY (REG_MII_DATA0 + s) r) w.readSlots rs)) ∧
      (reg * 256 + REG_MII_ADDR_READ) &&& REG_MII_ADDR_READ = REG_MII_ADDR_READ ∧
      pg.length ≤ 1 ∧ (∀ c ∈ pg, c.isPageWrite = true) ∧
      1 ≤ polls.length ∧ polls.length ≤ 5 ∧ (∀ c ∈ polls, c.isPoll = true) ∧
      rs.length = w.readSlots.length := by
  obtain ⟨rs, hlen, _, _, hlog, _, _⟩ := mdio_read_ok T w dev page reg val h
  obtain ⟨tr, hs, hl, _⟩ := b53_mdio_op_shape T dev page reg REG_MII_ADDR_READ
  have hword : ((reg <<< 8) ||| REG_MII_ADDR_READ) % 65536 = reg * 256 + REG_MII_ADDR_READ :=
    strobe_word reg 2 hreg (by decide)
  obtain ⟨pg, rest, htr, hpg1, hpg2, hcase⟩ := hs.split_op
  rcases hcase with ⟨_, hne, _⟩ | ⟨_, ha⟩
  · exact absurd h hne
  · obtain ⟨r, polls, hrest, hpolls, hr⟩ := ha.split_addr
    rcases hr with ⟨hr0, _, hret⟩ | ⟨hr0, hne, hle, _⟩
    · rw [h] at hret
      exact absurd hret.symm hr0
    · subst hr0
      refine ⟨pg, polls, rs, ?_, read_bit_of_strobe reg, hpg1, hpg2, ?_, hle, hpolls, ?_⟩
      · rw [hlog, hl, htr, hrest, hword]
        simp [dataReads]
      · cases polls with
        | nil => exact absurd rfl hne
        | cons c polls => simp
      · rw [hlen]
        cases w <;> rfl

/-- C9, witness: a 48-bit read of page 3, offset 4 from the fresh handle, with
one busy poll: page select, strobe 0x0402, two polls, then slots 2, 1, 0. -/
theorem read_order_witness :
    (mdio_read scripted Width.w48 (scriptedDev 0xff [] [2, 0, 7, 8, 9]) 3 4 0).2.2.priv.log
      = [Call.write 0x1e 0x10 0x0301 0, Call.write 0x1e 0x11 0x0402 0, Call.read 0x1e 0x11 2,
         Call.read 0x1e 0x11 0, Call.read 0x1e 0x1a 7, Call.read 0x1e 0x19 8,
         Call.read 0x1e 0x18 9] ∧
    ∃ (pg polls : List Call) (rs : List Int),
      (mdio_read scripted Width.w48 (scriptedDev 0xff [] [2, 0, 7, 8, 9]) 3 4 0).2.2.priv.log
        = [] ++ (pg ++ Call.write 0x1e 0x11 0x0402 0
          :: (polls ++ List.zipWith (fun s r => Call.read 0x1e (0x18 + s) r) [2, 1, 0] rs)) ∧
      rs.length = 3 := by
  refine ⟨by decide, ?_⟩
  obtain ⟨pg, polls, rs, hlog, _, _, _, _, _, _, hlen⟩ :=
    read_order scripted Width.w48 (scriptedDev 0xff [] [2, 0, 7, 8, 9]) 3 4 0
      (by decide) (by decide)
  exact ⟨pg, polls, rs, hlog, hlen⟩

/-- One step of the accumulation `temp <<= 16; temp |= word` on a `u64` that
holds at most 48 bits. -/
theorem acc_step (acc r : Nat) (hacc : acc < 281474976710656) (hr : r < 65536) :
    ((acc <<< 16) % 18446744073709551616) ||| r = r + acc * 65536 := by
  rw [Nat.shiftLeft_eq]
  have h1 : (acc * 2 ^ 16) % 18446744073709551616 = acc * 65536 := by omega
  rw [h1, Nat.lor_comm]
  exact lor_shift16 r acc hr

/-- The value a read assembles from 16-bit words, as word arithmetic. -/
theorem rawValue_words :
    (∀ s0 : Nat, rawValue Width.w8 [(s0 : Int)] = s0 &&& 0xff) ∧
    (∀ s0 : Nat, s0 < 65536 → rawValue Width.w16 [(s0 : Int)] = s0) ∧
    (∀ s0 s1 : Nat, s0 < 65536 → s1 < 65536 →
      rawValue Width.w32 [(s0 : Int), (s1 : Int)] = s0 + s1 * 65536) ∧
    (∀ s0 s1 s2 : Nat, s0 < 65536 → s1 < 65536 → s2 < 65536 →
      rawValue Width.w48 [(s2 : Int), (s1 : Int), (s0 : Int)]
        = s0 + s1 * 65536 + s2 * 4294967296) ∧
    (∀ s0 s1 s2 s3 : Nat, s0 < 65536 → s1 < 65536 → s2 < 65536 → s3 < 65536 →
      rawValue Width.w64 [(s3 : Int), (s2 : Int), (s1 : Int), (s0 : Int)]
        = s0 + s1 * 65536 + s2 * 4294967296 + s3 * 281474976710656) := by
  refine ⟨?_, ?_, ?_, ?_, ?_⟩
  · intro s0
    simp only [rawValue, to_u32_natCast, and_ff]
    omega
  · intro s0 h0
    simp only [rawValue, to_u16_natCast]
    omega
  · intro s0 s1 h0 h1
    have e1 : to_u32 ((s1 : Int) * 65536) = s1 * 65536 := by
      unfold to_u32
      omega
    have e0 : to_u32 (s0 : Int) = s0 := by
      rw [to_u32_natCast]
      omega
    simp only [rawValue, e0, e1]
    exact lor_shift16 s0 s1 h0
  · intro s0 s1 s2 h0 h1 h2
    have e : ∀ x : Nat, x < 65536 → to_u64 (x : Int) = x := by
      intro x hx
      rw [to_u64_natCast]
      omega
    simp only [rawValue, e s0 h0, e s1 h1, e s2 h2]
    rw [acc_step 0 s2 (by omega) h2, acc_step _ s1 (by omega) h1, acc_step _ s0 (by omega) h0]
    omega
  · intro s0 s1 s2 s3 h0 h1 h2 h3
    have e : ∀ x : Nat, x < 65536 → to_u64 (x : Int) = x := by
      intro x hx
      rw [to_u64_natCast]
      omega
    simp only [rawValue, e s0 h0, e s1 h1, e s2 h2, e s3 h3]
    rw [acc_step 0 s3 (by omega) h3, acc_step _ s2 (by omega) h2, acc_step _ s1 (by omega) h1,
      acc_step _ s0 (by omega) h0]
    omega

/-- The log of a successful read is the handshake followed by the data reads,
and a data-register read found in it is one of the data reads. -/
theorem mdio_read_data {σ : Type} (T : Transport σ) (w : Width) (dev : b53_device σ)
    (page reg val : Nat) (hok : (mdio_read T w dev page reg val).1 = 0) :
    ∃ rs : List Int, rs.length = w.words ∧
      (mdio_read T w dev page reg val).2.1 = rawValue w rs ∧
      ∀ (i : Nat) (x : Int), Call.read B53_PSEUDO_PHY (REG_MII_DATA0 + i) x
          ∈ trace dev.priv.log (mdio_read T w dev page reg val).2.2.priv.log →
        Call.read B53_PSEUDO_PHY (REG_MII_DATA0 + i) x ∈ dataReads w rs := by
  have hop : (b53_mdio_op T dev page reg REG_MII_ADDR_READ).1 = 0 := by
    by_contra hne
    rw [mdio_read_fail T w dev page reg val hne] at hok
    exact hne hok
  obtain ⟨rs, hlen, _, hval, hlog, _, _⟩ := mdio_read_ok T w dev page reg val hop
  obtain ⟨tr, hs, hl, _⟩ := b53_mdio_op_shape T dev page reg REG_MII_ADDR_READ
  refine ⟨rs, hlen, hval, ?_⟩
  intro i x hmem
  rw [hlog, hl, List.append_assoc, trace_append] at hmem
  rcases List.mem_append.mp hmem with h | h
  · have := (hs.mem_op _ h).2
    simp [Call.reg, REG_MII_PAGE, REG_MII_ADDR, REG_MII_DATA0] at this
    omega
  · exact h

/-- C8 (read value composition). For a successful read in which data slot `i`
returned the 16-bit word `slot i` (any value `0 .. 0xffff`): `read8` yields
`slot 0 & 0xff`, `read16` yields `slot 0`, `read32` yields
`slot 0 | (slot 1 << 16)`, which is `slot 0 + slot 1 * 2^16`, `read48` yields
`slot 0 + slot 1 * 2^16 + slot 2 * 2^32` and `read64` yields
`slot 0 + slot 1 * 2^16 + slot 2 * 2^32 + slot 3 * 2^48`: slot 0 is the least
significant word on every path. -/
theorem read_value {σ : Type} (T : Transport σ) (w : Width) (dev : b53_device σ)
    (page reg val : Nat) (slot : Nat → Nat)
    (hok : (mdio_read T w dev page reg val).1 = 0)
    (hslot : ∀ i, i < w.words → Call.read B53_PSEUDO_PHY (REG_MII_DATA0 + i) (slot i : Int)
      ∈ trace dev.priv.log (mdio_read T w dev page reg val).2.2.priv.log)
    (h16 : ∀ i, i < w.words → slot i < 65536) :
    (mdio_read T w dev page reg val).2.1
      = (match w with
        | Width.w8 => slot 0 &&& 0xff
        | Width.w16 => slot 0
        | Width.w32 => slot 0 ||| (slot 1 <<< 16)
        | Width.w48 => slot 0 + slot 1 * 2 ^ 16 + slot 2 * 2 ^ 32
        | Width.w64 => slot 0 + slot 1 * 2 ^ 16 + slot 2 * 2 ^ 32 + slot 3 * 2 ^ 48) ∧
    (w = Width.w32 → (mdio_read T w dev page reg val).2.1 = slot 0 + slot 1 * 2 ^ 16) := by
  obtain ⟨rs, hlen, hval, hmem⟩ := mdio_read_data T w dev page reg val hok
  have hin : ∀ i, i < w.words →
      Call.read B53_PSEUDO_PHY (REG_MII_DATA0 + i) (slot i : Int) ∈ dataReads w rs :=
    fun i hi => hmem i _ (hslot i hi)
  rw [hval]
  cases w with
  | w8 =>
    obtain ⟨a, rfl⟩ : ∃ a, rs = [a] := List.length_eq_one.mp hlen
    have h0 := hin 0 (by decide)
    simp [dataReads, Width.readSlots] at h0
    subst h0
    exact ⟨rawValue_words.1 (slot 0), by intro h; cases h⟩
  | w16 =>
    obtain ⟨a, rfl⟩ : ∃ a, rs = [a] := List.length_eq_one.mp hlen
    have h0 := hin 0 (by decide)
    simp [dataReads, Width.readSlots] at h0
    subst h0
    exact ⟨rawValue_words.2.1 (slot 0) (h16 0 (by decide)), by intro h; cases h⟩
  | w32 =>
    obtain ⟨a, b, rfl⟩ : ∃ a b, rs = [a, b] := List.length_eq_two.mp hlen
    have h0 := hin 0 (by decide)
    have h1 := hin 1 (by decide)
    simp [dataReads, Width.readSlots] at h0 h1
    subst h0 h1
    have e := rawValue_words.2.2.1 (slot 0) (slot 1) (h16 0 (by decide)) (h16 1 (by decide))
    refine ⟨?_, fun _ => by rw [e]; norm_num⟩
    rw [e, Nat.shiftLeft_eq]
    exact (lor_shift16 (slot 0) (slot 1) (h16 0 (by decide))).symm
  | w48 =>
    obtain ⟨a, b, c, rfl⟩ : ∃ a b c, rs = [a, b, c] := List.length_eq_three.mp hlen
    have h0 := hin 0 (by decide)
    have h1 := hin 1 (by decide)
    have h2 := hin 2 (by decide)
    simp [dataReads, Width.readSlots] at h0 h1 h2
    subst h0 h1 h2
    exact ⟨rawValue_words.2.2.2.1 (slot 0) (slot 1) (slot 2) (h16 0 (by decide))
      (h16 1 (by decide)) (h16 2 (by decide)), by intro h; cases h⟩
  | w64 =>
    have hlen4 : rs.length = 4 := hlen
    match rs, hlen4 with
    | [a, b, c, d], _ =>
      have h0 := hin 0 (by decide)
      have h1 := hin 1 (by decide)
      have h2 := hin 2 (by decide)
      have h3 := hin 3 (by decide)
      simp [dataReads, Width.readSlots] at h0 h1 h2 h3
      subst h0 h1 h2 h3
      exact ⟨rawValue_words.2.2.2.2 (slot 0) (slot 1) (slot 2) (slot 3) (h16 0 (by decide))
        (h16 1 (by decide)) (h16 2 (by decide)) (h16 3 (by decide)), by intro h; cases h⟩

/-- C8, witness: a 48-bit read whose slots 2, 1, 0 return 0x8001, 0xffff and
0x8003 (bit 15 set in each) yields 0x8001ffff8003, and a 32-bit read whose
slots 0, 1 return 0x8002 and 0xffff yields 0xffff8002. -/
theorem read_value_witness :
    (mdio_read scripted Width.w48 (scriptedDev 0xff [] [0, 0x8001, 0xffff, 0x8003]) 3 4 0).2.1
      = 0x8001ffff8003 ∧
    (mdio_read scripted Width.w32 (scriptedDev 0xff [] [0, 0x8002, 0xffff]) 3 4 0).2.1
      = 0xffff8002 :=
  ⟨(read_value scripted Width.w48 (scriptedDev 0xff [] [0, 0x8001, 0xffff, 0x8003]) 3 4 0
      (fun i => if i = 0 then 0x8003 else if i = 1 then 0xffff else 0x8001)
      (by decide) (by decide) (by decide)).1,
   (read_value scripted Width.w32 (scriptedDev 0xff [] [0, 0x8002, 0xffff]) 3 4 0
      (fun i => if i = 0 then 0x8002 else 0xffff)
      (by decide) (by decide) (by decide)).2 rfl⟩

/-- C2, counterexample: over a mock whose handshake succeeds (the poll reads 0)
and whose read of data register 0 fails with -5, `b53_mdio_read16` does not
return -5 and does not leave the output variable (77) alone: it returns 0 and
stores 65531, the low 16 bits of -5. -/
theorem read_data_error_counterexample :
    (b53_mdio_op scripted (scriptedDev 0xff [] [0, -5]) 3 4 REG_MII_ADDR_READ).1 = 0 ∧
    Call.read 0x1e 0x18 (-5)
      ∈ (mdio_read scripted Width.w16 (scriptedDev 0xff [] [0, -5]) 3 4 77).2.2.priv.log ∧
    (mdio_read scripted Width.w16 (scriptedDev 0xff [] [0, -5]) 3 4 77).1 = 0 ∧
    (mdio_read scripted Width.w16 (scriptedDev 0xff [] [0, -5]) 3 4 77).2.1 = 65531 ∧
    ¬ ((mdio_read scripted Width.w16 (scriptedDev 0xff [] [0, -5]) 3 4 77).1 = -5 ∧
       (mdio_read scripted Width.w16 (scriptedDev 0xff [] [0, -5]) 3 4 77).2.1 = 77) := by
  decide

/-- C2, as amended. For every read width, once the handshake has succeeded the
read operation returns 0 whatever its data-register reads return, a negative
error code included: it makes every data read of its width, in the slot order
of the width, and stores the value assembled from the returned `int`s; for
`read8` that is the returned `int` modulo 2^8 and for `read16` modulo 2^16. -/
theorem read_ignores_data_errors {σ : Type} (T : Transport σ) (w : Width) (dev : b53_device σ)
    (page reg val : Nat) (h : (b53_mdio_op T dev page reg REG_MII_ADDR_READ).1 = 0) :
    (mdio_read T w dev page reg val).1 = 0 ∧
    ∃ rs : List Int, rs.length = w.words ∧
      trace (b53_mdio_op T dev page reg REG_MII_ADDR_READ).2.priv.log
          (mdio_read T w dev page reg val).2.2.priv.log
        = List.zipWith (fun s r => Call.read B53_PSEUDO_PHY (REG_MII_DATA0 + s) r)
            w.readSlots rs ∧
      (mdio_read T w dev page reg val).2.1 = rawValue w rs ∧
      (w = Width.w8 → ∀ r, rs = [r] →
        (mdio_read T w dev page reg val).2.1 = (r % 256).toNat) ∧
      (w = Width.w16 → ∀ r, rs = [r] →
        (mdio_read T w dev page reg val).2.1 = (r % 65536).toNat) := by
  obtain ⟨rs, hlen, hret, hval, hlog, _, _⟩ := mdio_read_ok T w dev page reg val h
  refine ⟨hret, rs, hlen, by rw [hlog, trace_append]; rfl, hval, ?_, ?_⟩
  · intro hw r hrs
    subst hw hrs
    rw [hval]
    simp only [rawValue, to_u32, and_ff]
    omega
  · intro hw r hrs
    subst hw hrs
    rw [hval]
    rfl

/-- C2 as amended, witness: the 16-bit read whose data read fails with -5
returns 0 and delivers 65531. -/
theorem read_ignores_data_errors_witness :
    (mdio_read scripted Width.w16 (scriptedDev 0xff [] [0, -5]) 3 4 77).1 = 0 ∧
    (mdio_read scripted Width.w16 (scriptedDev 0xff [] [0, -5]) 3 4 77).2.1
      = ((-5 : Int) % 65536).toNat := by
  have h := read_ignores_data_errors scripted Width.w16 (scriptedDev 0xff [] [0, -5]) 3 4 77
    (by decide)
  obtain ⟨h0, rs, hlen, hlog, _, _, h16⟩ := h
  refine ⟨h0, h16 rfl (-5) ?_⟩
  have hl : trace (b53_mdio_op scripted (scriptedDev 0xff [] [0, -5]) 3 4
        REG_MII_ADDR_READ).2.priv.log
      (mdio_read scripted Width.w16 (scriptedDev 0xff [] [0, -5]) 3 4 77).2.2.priv.log
      = [Call.read 0x1e 0x18 (-5)] := by decide
  rw [hl] at hlog
  obtain ⟨r, rfl⟩ : ∃ r, rs = [r] := List.length_eq_one.mp hlen
  simp [Width.readSlots] at hlog
  rw [hlog.2.2]

/-! ## The lock bracket -/

/-- The MDIO callbacks never touch the mutex. -/
theorem mdio_mutex_frame {σ : Type} (T : Transport σ) (w : Width) (dev : b53_device σ)
    (page reg x : Nat) :
    (mdio_read T w dev page reg x).2.2.reg_mutex = dev.reg_mutex ∧
    (mdio_write T w dev page reg x).2.reg_mutex = dev.reg_mutex := by
  constructor
  · obtain ⟨tr, _, _, hm⟩ := b53_mdio_op_shape T dev page reg REG_MII_ADDR_READ
    by_cases hop : (b53_mdio_op T dev page reg REG_MII_ADDR_READ).1 = 0
    · obtain ⟨rs, _, _, _, _, _, hmu⟩ := mdio_read_ok T w dev page reg x hop
      rw [hmu, hm]
    · rw [mdio_read_fail T w dev page reg x hop]
      exact hm
  · rcases mdio_write_shape T w dev page reg x with ⟨_, _, _, _, _, _, _, hm⟩ | ⟨_, _, _, hm⟩ <;>
      exact hm

/-- C10 (lock bracket). With the mutex an explicit held/free flag: each of the
ten entry points `b53_read8/16/32/48/64` and `b53_write8/16/32/48/64`, called
with the mutex free, returns (it does not block), runs the callback of `ops` on
the handle with the mutex held, returns exactly the callback's return code (and
output value) whatever they are, and leaves the state the callback left with
the mutex released; the MDIO callbacks themselves keep the mutex held through
their run. -/
theorem lock_bracket {σ : Type} (ops : b53_io_ops σ) (dev : b53_device σ) (page reg x : Nat)
    (hfree : dev.reg_mutex = false) :
    (held dev).reg_mutex = true ∧ (∀ d : b53_device σ, (mutex_unlock d).reg_mutex = false) ∧
    b53_read8 ops dev page reg x = some ((ops.read8 (held dev) page reg x).1,
      (ops.read8 (held dev) page reg x).2.1, mutex_unlock (ops.read8 (held dev) page reg x).2.2) ∧
    b53_read16 ops dev page reg x = some ((ops.read16 (held dev) page reg x).1,
      (ops.read16 (held dev) page reg x).2.1,
      mutex_unlock (ops.read16 (held dev) page reg x).2.2) ∧
    b53_read32 ops dev page reg x = some ((ops.read32 (held dev) page reg x).1,
      (ops.read32 (held dev) page reg x).2.1,
      mutex_unlock (ops.read32 (held dev) page reg x).2.2) ∧
    b53_read48 ops dev page reg x = some ((ops.read48 (held dev) page reg x).1,
      (ops.read48 (held dev) page reg x).2.1,
      mutex_unlock (ops.read48 (held dev) page reg x).2.2) ∧
    b53_read64 ops dev page reg x = some ((ops.read64 (held dev) page reg x).1,
      (ops.read64 (held dev) page reg x).2.1,
      mutex_unlock (ops.read64 (held dev) page reg x).2.2) ∧
    b53_write8 ops dev page reg x = some ((ops.write8 (held dev) page reg x).1,
      mutex_unlock (ops.write8 (held dev) page reg x).2) ∧
    b53_write16 ops dev page reg x = some ((ops.write16 (held dev) page reg x).1,
      mutex_unlock (ops.write16 (held dev) page reg x).2) ∧
    b53_write32 ops dev page reg x = some ((ops.write32 (held dev) page reg x).1,
      mutex_unlock (ops.write32 (held dev) page reg x).2) ∧
    b53_write48 ops dev page reg x = some ((ops.write48 (held dev) page reg x).1,
      mutex_unlock (ops.write48 (held dev) page reg x).2) ∧
    b53_write64 ops dev page reg x = some ((ops.write64 (held dev) page reg x).1,
      mutex_unlock (ops.write64 (held dev) page reg x).2) ∧
    (∀ (T : Transport σ) (w : Width),
      (mdio_read T w (held dev) page reg x).2.2.reg_mutex = true ∧
      (mdio_write T w (held dev) page reg x).2.reg_mutex = true) := by
  have hlock : mutex_lock dev = some (held dev) := by
    simp [mutex_lock, hfree, held]
  refine ⟨rfl, fun _ => rfl, ?_, ?_, ?_, ?_, ?_, ?_, ?_, ?_, ?_, ?_, ?_⟩
  · simp [b53_read8, b53_read_locked, hlock]
  · simp [b53_read16, b53_read_locked, hlock]
  · simp [b53_read32, b53_read_locked, hlock]
  · simp [b53_read48, b53_read_locked, hlock]
  · simp [b53_read64, b53_read_locked, hlock]
  · simp [b53_write8, b53_write_locked, hlock]
  · simp [b53_write16, b53_write_locked, hlock]
  · simp [b53_write32, b53_write_locked, hlock]
  · simp [b53_write48, b53_write_locked, hlock]
  · simp [b53_write64, b53_write_locked, hlock]
  · intro T w
    exact ⟨(mdio_mutex_frame T w (held dev) page reg x).1,
      (mdio_mutex_frame T w (held dev) page reg x).2⟩

/-- C10, witness: through `b53_write32` a staged write that fails with -5
returns -5, through `b53_read16` a handshake that times out returns `- EIO` and
leaves the output variable, and both leave the mutex free. -/
theorem lock_bracket_witness :
    (b53_write32 (b53_mdio_ops scripted) (scriptedDev 0xff [0, -5] []) 3 4 0x10002).map
        (fun r => (r.1, r.2.reg_mutex)) = some (-5, false) ∧
    (b53_read16 (b53_mdio_ops scripted) (scriptedDev 0xff [] [2, 2, 2, 2, 2]) 3 4 77).map
        (fun r => (r.1, r.2.1, r.2.2.reg_mutex)) = some (- EIO, 77, false) := by
  have h1 := lock_bracket (b53_mdio_ops scripted) (scriptedDev 0xff [0, -5] []) 3 4 0x10002 rfl
  have h2 := lock_bracket (b53_mdio_ops scripted) (scriptedDev 0xff [] [2, 2, 2, 2, 2]) 3 4 77 rfl
  rw [h1.2.2.2.2.2.2.2.2.2.1, h2.2.2.2.1]
  decide

/-! ## Round trip over the in-memory chip -/

/-- A data-register write on the chip succeeds and stores the 16-bit word. -/
theorem chip_write_data (bus : mii_bus Chip) (i v : Nat) (hi : i < 4) :
    (mdiobus_write chipTransport bus B53_PSEUDO_PHY (REG_MII_DATA0 + i) v).1 = 0 ∧
    (mdiobus_write chipTransport bus B53_PSEUDO_PHY (REG_MII_DATA0 + i) v).2.chip.page
      = bus.chip.page ∧
    (mdiobus_write chipTransport bus B53_PSEUDO_PHY (REG_MII_DATA0 + i) v).2.chip.regs
      = bus.chip.regs ∧
    ∀ m, (mdiobus_write chipTransport bus B53_PSEUDO_PHY (REG_MII_DATA0 + i) v).2.chip.data m
      = if m = i then v % 65536 else bus.chip.data m := by
  have h1 : ¬ (REG_MII_DATA0 + i = REG_MII_PAGE) := by simp [REG_MII_DATA0, REG_MII_PAGE]; omega
  have h2 : ¬ (REG_MII_DATA0 + i = REG_MII_ADDR) := by simp [REG_MII_DATA0, REG_MII_ADDR]; omega
  have h3 : REG_MII_DATA0 + i ≤ REG_MII_DATA3 := by simp [REG_MII_DATA0, REG_MII_DATA3]; omega
  simp [mdiobus_write, chipTransport, h1, h2, h3]

/-- Staging on the chip never fails and fills the data registers of its slots. -/
theorem chip_stage : ∀ (k i temp : Nat) (bus : mii_bus Chip), i + k ≤ 4 →
    (b53_mdio_write_loop chipTransport k i temp bus).1 = 0 ∧
    (b53_mdio_write_loop chipTransport k i temp bus).2.chip.page = bus.chip.page ∧
    (b53_mdio_write_loop chipTransport k i temp bus).2.chip.regs = bus.chip.regs ∧
    ∀ m, (b53_mdio_write_loop chipTransport k i temp bus).2.chip.data m
        = if i ≤ m ∧ m < i + k then (temp >>> (16 * (m - i))) % 65536 else bus.chip.data m := by
  intro k
  induction k with
  | zero =>
    intro i temp bus _
    refine ⟨rfl, rfl, rfl, ?_⟩
    intro m
    have : ¬ (i ≤ m ∧ m < i + 0) := by omega
    rw [if_neg this]
    rfl
  | succ k ih =>
    intro i temp bus hik
    obtain ⟨w0, wp, wr, wd⟩ := chip_write_data bus i (temp &&& 0xffff) (by omega)
    obtain ⟨l0, lp, lr, ld⟩ := ih (i + 1) (temp >>> 16)
      (mdiobus_write chipTransport bus B53_PSEUDO_PHY (REG_MII_DATA0 + i) (temp &&& 0xffff)).2
      (by omega)
    simp only [b53_mdio_write_loop, w0, ne_eq, not_true_eq_false, if_false]
    refine ⟨l0, by rw [lp, wp], by rw [lr, wr], ?_⟩
    intro m
    rw [ld m, wd m]
    by_cases hm : m = i
    · subst hm
      have h1 : ¬ (m + 1 ≤ m ∧ m < m + 1 + k) := by omega
      have h2 : m ≤ m ∧ m < m + (k + 1) := by omega
      rw [if_neg h1, if_pos h2, if_pos rfl, and_ffff]
      simp
    · by_cases hin : i + 1 ≤ m ∧ m < i + 1 + k
      · have h2 : i ≤ m ∧ m < i + (k + 1) := by omega
        rw [if_pos hin, if_pos h2, ← Nat.shiftRight_add]
        congr 2
        omega
      · have h2 : ¬ (i ≤ m ∧ m < i + (k + 1)) := by omega
        rw [if_neg hin, if_neg h2, if_neg hm]

/-- The address register of the chip reads back clear after any strobe, so the
first poll ends the loop. -/
theorem chip_poll (bus : mii_bus Chip) (h : bus.chip.addr % 4 = 0) (k : Nat) :
    (b53_mdio_op_poll chipTransport (k + 1) 0 bus).1 = 0 ∧
    (b53_mdio_op_poll chipTransport (k + 1) 0 bus).2.chip = bus.chip := by
  have hc : to_u16 ((bus.chip.addr : Nat) : Int) &&& (REG_MII_ADDR_WRITE ||| REG_MII_ADDR_READ)
      = 0 := by
    show to_u16 ((bus.chip.addr : Nat) : Int) &&& 3 = 0
    rw [to_u16_natCast, and_three]
    omega
  have hread : mdiobus_read chipTransport bus B53_PSEUDO_PHY REG_MII_ADDR
      = ((bus.chip.addr : Int), { chip := bus.chip, log := bus.log ++
          [Call.read B53_PSEUDO_PHY REG_MII_ADDR (bus.chip.addr : Int)] }) := by
    simp [mdiobus_read, chipTransport, REG_MII_ADDR, REG_MII_PAGE]
  simp only [b53_mdio_op_poll, hread, hc, if_true, and_self]

/-- The address half of a handshake on the chip: a write strobe latches the data
registers into the logical register of the selected page, a read strobe loads
that register into the data registers; it never fails. -/
theorem chip_op_addr (dev : b53_device Chip) (reg op : Nat) (hr : reg < 256)
    (hop : op = REG_MII_ADDR_WRITE ∨ op = REG_MII_ADDR_READ) :
    (b53_mdio_op_addr chipTransport dev reg op).1 = 0 ∧
    (b53_mdio_op_addr chipTransport dev reg op).2.current_page = dev.current_page ∧
    (b53_mdio_op_addr chipTransport dev reg op).2.priv.chip.page = dev.priv.chip.page ∧
    (op = REG_MII_ADDR_WRITE →
      (b53_mdio_op_addr chipTransport dev reg op).2.priv.chip.regs dev.priv.chip.page reg
        = dev.priv.chip.data) ∧
    (op = REG_MII_ADDR_READ →
      (b53_mdio_op_addr chipTransport dev reg op).2.priv.chip.data
        = dev.priv.chip.regs dev.priv.chip.page reg) := by
  have hword : ((reg <<< 8) ||| op) % 65536 = reg * 256 + op :=
    strobe_word reg op hr (by rcases hop with h | h <;> subst h <;> decide)
  have hhi : ((reg * 256 + op) % 65536) >>> 8 = reg := by
    rw [Nat.shiftRight_eq_div_pow]
    rcases hop with h | h <;> subst h <;> simp [REG_MII_ADDR_WRITE, REG_MII_ADDR_READ] <;> omega
  have hw0 : (mdiobus_write chipTransport dev.priv B53_PSEUDO_PHY REG_MII_ADDR
      (((reg <<< 8) ||| op) % 65536)).1 = 0 := by
    simp only [mdiobus_write, chipTransport]
    split_ifs <;> rfl
  have hchip : (mdiobus_write chipTransport dev.priv B53_PSEUDO_PHY REG_MII_ADDR
      (((reg <<< 8) ||| op) % 65536)).2.chip
      = if op = REG_MII_ADDR_WRITE then
          { page := dev.priv.chip.page, addr := reg <<< 8, data := dev.priv.chip.data,
            regs := fun p o =>
              if p = dev.priv.chip.page ∧ o = reg then dev.priv.chip.data
              else dev.priv.chip.regs p o }
        else
          { page := dev.priv.chip.page, addr := reg <<< 8,
            data := dev.priv.chip.regs dev.priv.chip.page reg, regs := dev.priv.chip.regs } := by
    rw [hword]
    rcases hop with h | h
    · subst h
      have h1 : ((reg * 256 + REG_MII_ADDR_WRITE) % 65536) &&& REG_MII_ADDR_WRITE ≠ 0 := by
        show ((reg * 256 + 1) % 65536) &&& 1 ≠ 0
        rw [and_one]; omega
      simp [mdiobus_write, chipTransport, hhi, h1, REG_MII_ADDR, REG_MII_PAGE]
    · subst h
      have h1 : ((reg * 256 + REG_MII_ADDR_READ) % 65536) &&& REG_MII_ADDR_WRITE = 0 := by
        show ((reg * 256 + 2) % 65536) &&& 1 = 0
        rw [and_one]; omega
      have h2 : ((reg * 256 + REG_MII_ADDR_READ) % 65536) &&& REG_MII_ADDR_READ ≠ 0 := by
        have e : (reg * 256 + REG_MII_ADDR_READ) % 65536 = reg * 256 + REG_MII_ADDR_READ := by
          simp only [REG_MII_ADDR_READ]; omega
        rw [e, read_bit_of_strobe]
        decide
      have h3 : ¬ (REG_MII_ADDR_READ = REG_MII_ADDR_WRITE) := by decide
      simp [mdiobus_write, chipTransport, hhi, h1, h2, h3, REG_MII_ADDR, REG_MII_PAGE]
  have haddr : (mdiobus_write chipTransport dev.priv B53_PSEUDO_PHY REG_MII_ADDR
      (((reg <<< 8) ||| op) % 65536)).2.chip.addr % 4 = 0 := by
    rw [hchip]
    split_ifs <;> simp [Nat.shiftLeft_eq] <;> omega
  obtain ⟨p0, pc⟩ := chip_poll _ haddr 4
  have h5 : ¬ ((b53_mdio_op_poll chipTransport 5 0 (mdiobus_write chipTransport dev.priv
      B53_PSEUDO_PHY REG_MII_ADDR (((reg <<< 8) ||| op) % 65536)).2).1 = 5) := by
    rw [p0]; decide
  simp only [b53_mdio_op_addr, hw0, ne_eq, not_true_eq_false, if_false, h5, pc, hchip]
  refine ⟨trivial, trivial, ?_, ?_, ?_⟩
  · split_ifs <;> rfl
  · intro h
    simp [h]
  · intro h
    have h3 : ¬ (REG_MII_ADDR_READ = REG_MII_ADDR_WRITE) := by decide
    simp [h, h3]

/-- A handshake on the chip never fails; it leaves the addressed page cached,
selects it on the chip when it was not the cached one, and then latches (write)
or loads (read) the logical register of the page the chip has selected. -/
theorem chip_handshake (dev : b53_device Chip) (page reg op : Nat) (hp : page < 256)
    (hr : reg < 256) (hop : op = REG_MII_ADDR_WRITE ∨ op = REG_MII_ADDR_READ) :
    (b53_mdio_op chipTransport dev page reg op).1 = 0 ∧
    (b53_mdio_op chipTransport dev page reg op).2.current_page = page ∧
    (b53_mdio_op chipTransport dev page reg op).2.priv.chip.page
      = (if dev.current_page = page then dev.priv.chip.page else page) ∧
    (op = REG_MII_ADDR_WRITE →
      (b53_mdio_op chipTransport dev page reg op).2.priv.chip.regs
          (if dev.current_page = page then dev.priv.chip.page else page) reg
        = dev.priv.chip.data) ∧
    (op = REG_MII_ADDR_READ →
      (b53_mdio_op chipTransport dev page reg op).2.priv.chip.data
        = dev.priv.chip.regs (if dev.current_page = page then dev.priv.chip.page else page)
            reg) := by
  by_cases hcp : dev.current_page = page
  · obtain ⟨a0, a1, a2, a3, a4⟩ := chip_op_addr dev reg op hr hop
    simp only [b53_mdio_op, hcp, ne_eq, not_true_eq_false, if_false, if_true]
    exact ⟨a0, by rw [a1, hcp], a2, a3, a4⟩
  · have hpw : ((page <<< 8) ||| REG_MII_PAGE_ENABLE) % 65536 = page * 256 + 1 :=
      strobe_word page 1 hp (by decide)
    have hhi : ((page * 256 + 1) % 65536) >>> 8 = page := by
      rw [Nat.shiftRight_eq_div_pow]
      simp
      omega
    have hw0 : (mdiobus_write chipTransport dev.priv B53_PSEUDO_PHY REG_MII_PAGE
        (((page <<< 8) ||| REG_MII_PAGE_ENABLE) % 65536)).1 = 0 := by
      simp [mdiobus_write, chipTransport]
    have hchip : (mdiobus_write chipTransport dev.priv B53_PSEUDO_PHY REG_MII_PAGE
        (((page <<< 8) ||| REG_MII_PAGE_ENABLE) % 65536)).2.chip
        = { dev.priv.chip with page := page } := by
      rw [hpw]
      simp [mdiobus_write, chipTransport, hhi]
    obtain ⟨a0, a1, a2, a3, a4⟩ := chip_op_addr
      { dev with priv := (mdiobus_write chipTransport dev.priv B53_PSEUDO_PHY REG_MII_PAGE
          (((page <<< 8) ||| REG_MII_PAGE_ENABLE) % 65536)).2, current_page := page } reg op hr hop
    simp only [hchip] at a2 a3 a4
    simp only [b53_mdio_op, hcp, ne_eq, not_false_eq_true, if_true, hw0, not_true_eq_false,
      if_false]
    exact ⟨a0, a1, a2, a3, a4⟩

/-- A data-register read on the chip returns the register and changes nothing. -/
theorem chip_read_data (bus : mii_bus Chip) (r i : Nat) (hr : r = REG_MII_DATA0 + i)
    (hi : i < 4) :
    mdiobus_read chipTransport bus B53_PSEUDO_PHY r
      = ((bus.chip.data i : Int),
          { chip := bus.chip, log := bus.log ++ [Call.read B53_PSEUDO_PHY r (bus.chip.data i)] })
      := by
  subst hr
  have h1 : ¬ (REG_MII_DATA0 + i = REG_MII_PAGE) := by simp [REG_MII_DATA0, REG_MII_PAGE]; omega
  have h2 : ¬ (REG_MII_DATA0 + i = REG_MII_ADDR) := by simp [REG_MII_DATA0, REG_MII_ADDR]; omega
  have h3 : REG_MII_DATA0 + i ≤ REG_MII_DATA3 := by simp [REG_MII_DATA0, REG_MII_DATA3]; omega
  simp [mdiobus_read, chipTransport, h1, h2, h3]

/-- A read on the chip returns 0 and assembles its value from the data
registers as the handshake left them. -/
theorem chip_read_value (w : Width) (dev : b53_device Chip) (page reg val : Nat)
    (hp : page < 256) (hr : reg < 256) :
    (mdio_read chipTransport w dev page reg val).1 = 0 ∧
    (mdio_read chipTransport w dev page reg val).2.1
      = rawValue w (w.readSlots.map fun s =>
          (((b53_mdio_op chipTransport dev page reg REG_MII_ADDR_READ).2.priv.chip.data s : Nat)
            : Int)) := by
  have hop := (chip_handshake dev page reg REG_MII_ADDR_READ hp hr (Or.inr rfl)).1
  have d0 := fun bus => chip_read_data bus REG_MII_DATA0 0 rfl (by decide)
  have d1 := fun bus => chip_read_data bus REG_MII_DATA1 1 rfl (by decide)
  have e0 := fun bus => chip_read_data bus (REG_MII_DATA0 + 0) 0 rfl (by decide)
  have e1 := fun bus => chip_read_data bus (REG_MII_DATA0 + 1) 1 rfl (by decide)
  have e2 := fun bus => chip_read_data bus (REG_MII_DATA0 + 2) 2 rfl (by decide)
  have e3 := fun bus => chip_read_data bus (REG_MII_DATA0 + 3) 3 rfl (by decide)
  cases w
  · simp only [mdio_read, b53_mdio_ops, b53_mdio_read8, hop, d0, Width.readSlots, rawValue]
    simp
  · simp only [mdio_read, b53_mdio_ops, b53_mdio_read16, hop, d0, Width.readSlots, rawValue]
    simp
  · simp only [mdio_read, b53_mdio_ops, b53_mdio_read32, hop, d0, d1, Width.readSlots, rawValue]
    simp
  · simp only [mdio_read, b53_mdio_ops, b53_mdio_read48, b53_mdio_read_loop, hop, e0, e1, e2,
      Width.readSlots, rawValue]
    simp
  · simp only [mdio_read, b53_mdio_ops, b53_mdio_read64, b53_mdio_read_loop, hop, e0, e1, e2, e3,
      Width.readSlots, rawValue]
    simp

/-- The words of a value that fits its width recompose to the value. -/
theorem words_recompose (v : Nat) :
    (v < 2 ^ 8 → (v >>> (16 * 0)) % 65536 &&& 0xff = v) ∧
    (v < 2 ^ 16 → (v >>> (16 * 0)) % 65536 = v) ∧
    (v < 2 ^ 32 → (v >>> (16 * 0)) % 65536 + (v >>> (16 * 1)) % 65536 * 65536 = v) ∧
    (v < 2 ^ 48 → (v >>> (16 * 0)) % 65536 + (v >>> (16 * 1)) % 65536 * 65536
      + (v >>> (16 * 2)) % 65536 * 4294967296 = v) ∧
    (v < 2 ^ 64 → (v >>> (16 * 0)) % 65536 + (v >>> (16 * 1)) % 65536 * 65536
      + (v >>> (16 * 2)) % 65536 * 4294967296
      + (v >>> (16 * 3)) % 65536 * 281474976710656 = v) := by
  have e0 : v >>> (16 * 0) = v := by simp
  have e1 : v >>> (16 * 1) = v / 65536 := by rw [Nat.shiftRight_eq_div_pow]
  have e2 : v >>> (16 * 2) = v / 4294967296 := by rw [Nat.shiftRight_eq_div_pow]
  have e3 : v >>> (16 * 3) = v / 281474976710656 := by rw [Nat.shiftRight_eq_div_pow]
  rw [e0, e1, e2, e3, and_ff]
  refine ⟨?_, ?_, ?_, ?_, ?_⟩ <;> intro h <;> norm_num at h <;> omega

/-- After a write over the chip, a read handshake at the same page and offset
finds in data register `s` the word `(v >> 16 s) & 0xffff` of the value, for
every slot of the width. -/
theorem chip_write_then_load (w : Width) (dev : b53_device Chip) (page reg v : Nat)
    (hp : page < 256) (hr : reg < 256) :
    (mdio_write chipTransport w dev page reg v).1 = 0 ∧
    ∀ s, s < w.words →
      (b53_mdio_op chipTransport (mdio_write chipTransport w dev page reg v).2 page reg
          REG_MII_ADDR_READ).2.priv.chip.data s
        = (v >>> (16 * s)) % 65536 := by
  have hwords : 0 + w.words ≤ 4 := by cases w <;> simp [Width.words]
  obtain ⟨s0, sp, _, sd⟩ := chip_stage w.words 0 v dev.priv hwords
  obtain ⟨h0, hcp, hpage, hregs, _⟩ := chip_handshake
    { dev with priv := (b53_mdio_write_loop chipTransport w.words 0 v dev.priv).2 } page reg
    REG_MII_ADDR_WRITE hp hr (Or.inl rfl)
  have hwrite : mdio_write chipTransport w dev page reg v
      = b53_mdio_op chipTransport
          { dev with priv := (b53_mdio_write_loop chipTransport w.words 0 v dev.priv).2 }
          page reg REG_MII_ADDR_WRITE := by
    rw [mdio_write_eq]
    simp [s0]
  rw [hwrite]
  refine ⟨h0, ?_⟩
  intro s hs
  obtain ⟨_, _, _, _, hload⟩ := chip_handshake
    (b53_mdio_op chipTransport
      { dev with priv := (b53_mdio_write_loop chipTransport w.words 0 v dev.priv).2 }
      page reg REG_MII_ADDR_WRITE).2 page reg REG_MII_ADDR_READ hp hr (Or.inr rfl)
  rw [hload rfl, if_pos hcp, hpage, hregs rfl, sd s]
  have : 0 ≤ s ∧ s < 0 + w.words := by omega
  rw [if_pos this]
  simp

/-- C1 (round-trip law). Over the in-memory chip, for every width, every page
and offset below 256, every starting device handle (any `current_page`, any
chip content, any log) and every value `v` that fits the width: the write
returns 0, the read of the same width at the same page and offset returns 0,
and the read yields exactly `v`. -/
theorem roundtrip (w : Width) (dev : b53_device Chip) (page reg v val : Nat)
    (hp : page < 256) (hr : reg < 256) (hv : v < 2 ^ w.bits) :
    (mdio_write chipTransport w dev page reg v).1 = 0 ∧
    (mdio_read chipTransport w (mdio_write chipTransport w dev page reg v).2 page reg val).1
      = 0 ∧
    (mdio_read chipTransport w (mdio_write chipTransport w dev page reg v).2 page reg val).2.1
      = v := by
  obtain ⟨hw0, hdata⟩ := chip_write_then_load w dev page reg v hp hr
  obtain ⟨hr0, hval⟩ := chip_read_value w (mdio_write chipTransport w dev page reg v).2
    page reg val hp hr
  refine ⟨hw0, hr0, ?_⟩
  rw [hval]
  have hlt : ∀ s, (v >>> (16 * s)) % 65536 < 65536 := fun s => Nat.mod_lt _ (by decide)
  obtain ⟨c8, c16, c32, c48, c64⟩ := words_recompose v
  cases w with
  | w8 =>
    simp only [Width.readSlots, List.map, hdata 0 (by decide)]
    rw [rawValue_words.1]
    exact c8 hv
  | w16 =>
    simp only [Width.readSlots, List.map, hdata 0 (by decide)]
    rw [rawValue_words.2.1 _ (hlt 0)]
    exact c16 hv
  | w32 =>
    simp only [Width.readSlots, List.map, hdata 0 (by decide), hdata 1 (by decide)]
    rw [rawValue_words.2.2.1 _ _ (hlt 0) (hlt 1)]
    exact c32 hv
  | w48 =>
    simp only [Width.readSlots, List.map, hdata 0 (by decide), hdata 1 (by decide),
      hdata 2 (by decide)]
    rw [rawValue_words.2.2.2.1 _ _ _ (hlt 0) (hlt 1) (hlt 2)]
    exact c48 hv
  | w64 =>
    simp only [Width.readSlots, List.map, hdata 0 (by decide), hdata 1 (by decide),
      hdata 2 (by decide), hdata 3 (by decide)]
    rw [rawValue_words.2.2.2.2 _ _ _ _ (hlt 0) (hlt 1) (hlt 2) (hlt 3)]
    exact c64 hv

/-- C1, witness: 0x0001_0002_0003 written as 48 bits to page 3, offset 4 of a
zeroed chip reads back as 0x0001_0002_0003. -/
theorem roundtrip_witness :
    (mdio_write chipTransport Width.w48 chipDev 3 4 0x000100020003).1 = 0 ∧
    (mdio_read chipTransport Width.w48
      (mdio_write chipTransport Width.w48 chipDev 3 4 0x000100020003).2 3 4 0).1 = 0 ∧
    (mdio_read chipTransport Width.w48
      (mdio_write chipTransport Width.w48 chipDev 3 4 0x000100020003).2 3 4 0).2.1
      = 0x000100020003 :=
  roundtrip Width.w48 chipDev 3 4 0x000100020003 0 (by decide) (by decide) (by decide)

/-! ## The shape of any access -/

theorem stagedWrites_data {v n : Nat} (hn : n ≤ 4) :
    ∀ c ∈ stagedWrites v n, c.isDataWrite = true ∧ c.ret = 0 := by
  intro c hc
  obtain ⟨i, hi, rfl⟩ := stagedWrites_mem hc
  refine ⟨?_, rfl⟩
  simp [Call.isDataWrite, Call.isData, Call.isWrite, Call.reg, REG_MII_DATA0, REG_MII_DATA3]
  omega

theorem dataReads_data {w : Width} {rs : List Int} :
    ∀ c ∈ dataReads w rs, c.isDataRead = true := by
  intro c hc
  obtain ⟨s, r, hs, rfl⟩ := dataReads_mem hc
  simp [Call.isDataRead, Call.isData, Call.isWrite, Call.reg, REG_MII_DATA0, REG_MII_DATA3]
  omega

theorem Width.words_le (w : Width) : w.words ≤ 4 := by
  cases w <;> simp [Width.words]

/-- Any access is either a write that stopped at its first failed data write, or
successful data writes (none for a read), then one handshake for the page of the
access, then data reads (none for a write, none after a failed handshake); the
access returns the code of the failed data write, or else of the handshake. -/
theorem access_shape {σ : Type} (T : Transport σ) (dev : b53_device σ) (a : Access) :
    (∃ (pre : List Call) (c : Call),
      (access T dev a).2.priv.log = dev.priv.log ++ (pre ++ [c]) ∧
      (∀ d ∈ pre, d.isDataWrite = true ∧ d.ret = 0) ∧
      c.isDataWrite = true ∧ c.ret ≠ 0 ∧ (access T dev a).1 = c.ret ∧
      (access T dev a).2.current_page = dev.current_page) ∨
    (∃ (pre tr post : List Call) (reg op : Nat),
      OpShape dev.current_page a.page reg op tr (access T dev a).1
        (access T dev a).2.current_page ∧
      (access T dev a).2.priv.log = dev.priv.log ++ (pre ++ (tr ++ post)) ∧
      (∀ d ∈ pre, d.isDataWrite = true ∧ d.ret = 0) ∧
      (∀ d ∈ post, d.isDataRead = true) ∧
      ((access T dev a).1 ≠ 0 → post = [])) := by
  cases a with
  | read w p r val =>
    right
    simp only [access, Access.page]
    obtain ⟨tr, hs, hl, _⟩ := b53_mdio_op_shape T dev p r REG_MII_ADDR_READ
    by_cases hop : (b53_mdio_op T dev p r REG_MII_ADDR_READ).1 = 0
    · obtain ⟨rs, _, hret, _, hlog, hcp, _⟩ := mdio_read_ok T w dev p r val hop
      refine ⟨[], tr, dataReads w rs, r, REG_MII_ADDR_READ, ?_, ?_, by simp,
        dataReads_data, ?_⟩
      · rw [hret, hcp, ← hop]
        exact hs
      · rw [hlog, hl]
        simp
      · intro hne
        exact absurd hret hne
    · rw [mdio_read_fail T w dev p r val hop]
      exact ⟨[], tr, [], r, REG_MII_ADDR_READ, hs, by simpa using hl, by simp, by simp,
        fun _ => rfl⟩
  | write w p r v =>
    simp only [access, Access.page]
    rcases mdio_write_shape T w dev p r v with
      ⟨j, e, hj, he, hret, hlog, hcp, _⟩ | ⟨tr, hs, hlog, _⟩
    · left
      refine ⟨stagedWrites v j, _, hlog, ?_, ?_, he, hret, hcp⟩
      · exact stagedWrites_data (by have := w.words_le; omega)
      · have := w.words_le
        simp [Call.isDataWrite, Call.isData, Call.isWrite, Call.reg, REG_MII_DATA0,
          REG_MII_DATA3]
        omega
    · right
      exact ⟨stagedWrites v w.words, tr, [], r, REG_MII_ADDR_WRITE, hs, by simpa using hlog,
        stagedWrites_data w.words_le, by simp, fun _ => rfl⟩

/-! ## Why a handshake fails -/

/-- A handshake that returns an error ends in a failed write to the page
register, or in a failed address strobe, or it polled five busy words after
successful writes and returns `- EIO`. -/
theorem OpShape.failure {cp page reg op : Nat} {tr : List Call} {ret : Int} {cp1 : Nat}
    (h : OpShape cp page reg op tr ret cp1) (hne : ret ≠ 0) :
    (∃ c, tr = [c] ∧ c.isPageWrite = true ∧ c.ret = ret ∧ cp1 = cp) ∨
    (∃ pre c, tr = pre ++ [c] ∧ c.isStrobe = true ∧ c.ret = ret ∧
      (∀ d ∈ pre, d.isPageWrite = true ∧ d.ret = 0)) ∨
    ((∀ c ∈ tr, c.isWrite = true → c.ret = 0) ∧ (pollResults tr).length = 5 ∧
      (∀ x ∈ pollResults tr, busy x = true) ∧ ret = - EIO) := by
  have haddr : ∀ (tr1 : List Call) (ret1 : Int), AddrShape reg op tr1 ret1 → ret1 ≠ 0 →
      (∃ c, tr1 = [c] ∧ c.isStrobe = true ∧ c.ret = ret1) ∨
      ((∀ c ∈ tr1, c.isWrite = true → c.ret = 0) ∧ (pollResults tr1).length = 5 ∧
        (∀ x ∈ pollResults tr1, busy x = true) ∧ ret1 = - EIO) := by
    intro tr1 ret1 ha hne1
    cases ha with
    | fail r hr => exact Or.inl ⟨_, rfl, rfl, rfl⟩
    | polled rs t hp =>
      right
      cases hp with
      | clear pre r hpre hr hlen => exact absurd rfl hne1
      | timeout rs hlen hrs =>
        rw [pollResults_write_cons, pollResults_map_read]
        refine ⟨?_, hlen, hrs, rfl⟩
        intro c hc hw
        rcases List.mem_cons.mp hc with rfl | hc
        · rfl
        · obtain ⟨x, _, rfl⟩ := List.mem_map.mp hc
          simp [Call.isWrite] at hw
  cases h with
  | same tr ret hcp ha =>
    rcases haddr _ _ ha hne with ⟨c, htr, hc, hret⟩ | h4
    · exact Or.inr (Or.inl ⟨[], c, by simpa using htr, hc, hret, by simp⟩)
    · exact Or.inr (Or.inr h4)
  | fail r hcp hr => exact Or.inl ⟨_, rfl, rfl, rfl, rfl⟩
  | selected tr ret hcp ha =>
    rcases haddr _ _ ha hne with ⟨c, htr, hc, hret⟩ | ⟨hw, hlen, hbusy, hret⟩
    · refine Or.inr (Or.inl ⟨[Call.write B53_PSEUDO_PHY REG_MII_PAGE
        (((page <<< 8) ||| REG_MII_PAGE_ENABLE) % 65536) 0], c, by rw [htr]; rfl, hc, hret, ?_⟩)
      intro d hd
      simp only [List.mem_singleton] at hd
      subst hd
      exact ⟨rfl, rfl⟩
    · refine Or.inr (Or.inr ⟨?_, by rw [pollResults_write_cons]; exact hlen,
        by rw [pollResults_write_cons]; exact hbusy, hret⟩)
      intro c hc hcw
      rcases List.mem_cons.mp hc with rfl | hc
      · rfl
      · exact hw c hc hcw

/-- C19 (read is atomic on handshake failure). For every read width, if the
handshake returns an error, the read returns that code, leaves the caller's
output variable as it was and the device exactly as the handshake left it, and
its log holds no call on a data register. The handshake fails in one of three
ways only: its write to the page register failed, its address strobe failed, or
five polls stayed busy (`- EIO`). -/
theorem read_atomic_on_failure {σ : Type} (T : Transport σ) (w : Width) (dev : b53_device σ)
    (page reg val : Nat) (h : (b53_mdio_op T dev page reg REG_MII_ADDR_READ).1 ≠ 0) :
    (mdio_read T w dev page reg val).1 = (b53_mdio_op T dev page reg REG_MII_ADDR_READ).1 ∧
    (mdio_read T w dev page reg val).2.1 = val ∧
    (mdio_read T w dev page reg val).2.2 = (b53_mdio_op T dev page reg REG_MII_ADDR_READ).2 ∧
    (∀ c ∈ trace dev.priv.log (mdio_read T w dev page reg val).2.2.priv.log,
      c.isData = false ∧ c.isDataRead = false) ∧
    ((∃ c, trace dev.priv.log (mdio_read T w dev page reg val).2.2.priv.log = [c] ∧
        c.isPageWrite = true ∧ c.ret = (mdio_read T w dev page reg val).1) ∨
     (∃ pre c, trace dev.priv.log (mdio_read T w dev page reg val).2.2.priv.log = pre ++ [c] ∧
        c.isStrobe = true ∧ c.ret = (mdio_read T w dev page reg val).1 ∧
        (∀ d ∈ pre, d.isPageWrite = true ∧ d.ret = 0)) ∨
     ((pollResults (trace dev.priv.log (mdio_read T w dev page reg val).2.2.priv.log)).length = 5 ∧
        (mdio_read T w dev page reg val).1 = - EIO)) := by
  rw [mdio_read_fail T w dev page reg val h]
  obtain ⟨tr, hs, hl, _⟩ := b53_mdio_op_shape T dev page reg REG_MII_ADDR_READ
  simp only [hl, trace_append]
  refine ⟨trivial, trivial, trivial, ?_, ?_⟩
  · intro c hc
    have hd := hs.not_data c hc
    exact ⟨hd, by simp [Call.isDataRead, hd]⟩
  · rcases hs.failure h with ⟨c, htr, hc, hret, _⟩ | ⟨pre, c, htr, hc, hret, hpre⟩ |
      ⟨_, hlen, _, hret⟩
    · exact Or.inl ⟨c, htr, hc, hret⟩
    · exact Or.inr (Or.inl ⟨pre, c, htr, hc, hret, hpre⟩)
    · exact Or.inr (Or.inr ⟨hlen, hret⟩)

/-- C19, witness: a 64-bit read over a mock whose address strobe fails with -110
returns -110, keeps the output variable 77 and reads no register at all; one
whose five polls stay busy returns `- EIO` and keeps 77. -/
theorem read_atomic_on_failure_witness :
    ((mdio_read scripted Width.w64 (scriptedDev 0xff [0, -110] [1, 2, 3]) 3 4 77).1 = -110 ∧
      (mdio_read scripted Width.w64 (scriptedDev 0xff [0, -110] [1, 2, 3]) 3 4 77).2.1 = 77 ∧
      (mdio_read scripted Width.w64 (scriptedDev 0xff [0, -110] [1, 2, 3]) 3 4 77).2.2.priv.log
        = [Call.write 0x1e 0x10 0x0301 0, Call.write 0x1e 0x11 0x0402 (-110)]) ∧
    ((mdio_read scripted Width.w32 (scriptedDev 0xff [] [2, 2, 2, 2, 2, 9]) 3 4 77).1 = - EIO ∧
      (mdio_read scripted Width.w32 (scriptedDev 0xff [] [2, 2, 2, 2, 2, 9]) 3 4 77).2.1 = 77) := by
  have h1 := read_atomic_on_failure scripted Width.w64 (scriptedDev 0xff [0, -110] [1, 2, 3])
    3 4 77 (by decide)
  have h2 := read_atomic_on_failure scripted Width.w32 (scriptedDev 0xff [] [2, 2, 2, 2, 2, 9])
    3 4 77 (by decide)
  exact ⟨⟨by rw [h1.1]; decide, h1.2.1, by decide⟩, ⟨by rw [h2.1]; decide, h2.2.1⟩⟩

/-! ## The page select -/

/-- A handshake started with another page cached begins with the write of the
page word to the page register. -/
theorem OpShape.first_page {cp page reg op : Nat} {tr : List Call} {ret : Int} {cp1 : Nat}
    (h : OpShape cp page reg op tr ret cp1) (hcp : cp ≠ page) :
    ∃ (r : Int) (rest : List Call),
      tr = Call.write B53_PSEUDO_PHY REG_MII_PAGE
        (((page <<< 8) ||| REG_MII_PAGE_ENABLE) % 65536) r :: rest := by
  cases h with
  | same tr ret hcp1 ha => exact absurd hcp1 hcp
  | fail r hcp1 hr => exact ⟨_, [], rfl⟩
  | selected tr ret hcp1 ha => exact ⟨0, tr, rfl⟩

/-- A failed write to the page register is the only call of its handshake. -/
theorem OpShape.page_failed {cp page reg op : Nat} {tr : List Call} {ret : Int} {cp1 : Nat}
    (h : OpShape cp page reg op tr ret cp1) (x : Nat) (e : Int) (he : e ≠ 0)
    (hmem : Call.write B53_PSEUDO_PHY REG_MII_PAGE x e ∈ tr) :
    cp ≠ page ∧ x = ((page <<< 8) ||| REG_MII_PAGE_ENABLE) % 65536 ∧
    tr = [Call.write B53_PSEUDO_PHY REG_MII_PAGE x e] ∧ ret = e ∧ cp1 = cp := by
  have hno : ∀ (tr1 : List Call) (ret1 : Int), AddrShape reg op tr1 ret1 →
      ¬ (Call.write B53_PSEUDO_PHY REG_MII_PAGE x e ∈ tr1) := by
    intro tr1 ret1 ha hm
    have := (ha.mem_addr _ hm).2
    simp [Call.reg, REG_MII_PAGE, REG_MII_ADDR] at this
  cases h with
  | same tr ret hcp ha => exact absurd hmem (hno _ _ ha)
  | fail r hcp hr =>
    simp only [List.mem_singleton, Call.write.injEq] at hmem
    obtain ⟨_, _, hx, hr1⟩ := hmem
    subst hx hr1
    exact ⟨hcp, rfl, rfl, rfl, rfl⟩
  | selected tr ret hcp ha =>
    rcases List.mem_cons.mp hmem with h1 | h1
    · simp only [Call.write.injEq] at h1
      exact absurd h1.2.2.2 he
    · exact absurd h1 (hno _ _ ha)

/-- C15 (a failed page select is not cached). If the log of a handshake holds a
write to the page register that failed with `e ≠ 0`, then the handshake needed
the page select (`current_page ≠ page`), it returns `e`, `current_page` is
unchanged, the failed write of the page word is its only call (no address
strobe, no poll), and a handshake for the same page run right after it, for any
offset and operation, again begins with the write of the page word to the page
register. -/
theorem failed_page_select_not_cached {σ : Type} (T : Transport σ) (dev : b53_device σ)
    (page reg op reg2 op2 x : Nat) (e : Int) (he : e ≠ 0)
    (hfail : Call.write B53_PSEUDO_PHY REG_MII_PAGE x e
      ∈ trace dev.priv.log (b53_mdio_op T dev page reg op).2.priv.log) :
    dev.current_page ≠ page ∧
    (b53_mdio_op T dev page reg op).1 = e ∧
    (b53_mdio_op T dev page reg op).2.current_page = dev.current_page ∧
    x = ((page <<< 8) ||| REG_MII_PAGE_ENABLE) % 65536 ∧
    (b53_mdio_op T dev page reg op).2.priv.log
      = dev.priv.log ++ [Call.write B53_PSEUDO_PHY REG_MII_PAGE x e] ∧
    (∀ c ∈ trace dev.priv.log (b53_mdio_op T dev page reg op).2.priv.log,
      c.isStrobe = false ∧ c.isPoll = false) ∧
    ∃ (r : Int) (rest : List Call),
      trace (b53_mdio_op T dev page reg op).2.priv.log
          (b53_mdio_op T (b53_mdio_op T dev page reg op).2 page reg2 op2).2.priv.log
        = Call.write B53_PSEUDO_PHY REG_MII_PAGE x r :: rest := by
  obtain ⟨tr, hs, hlog, _⟩ := b53_mdio_op_shape T dev page reg op
  rw [hlog, trace_append] at hfail
  obtain ⟨hcp, hx, htr, hret, hcp1⟩ := hs.page_failed x e he hfail
  obtain ⟨tr2, hs2, hlog2, _⟩ := b53_mdio_op_shape T (b53_mdio_op T dev page reg op).2
    page reg2 op2
  obtain ⟨r, rest, htr2⟩ := hs2.first_page (by rw [hcp1]; exact hcp)
  refine ⟨hcp, hret, hcp1, hx, by rw [hlog, htr], ?_, r, rest, ?_⟩
  · intro c hc
    rw [hlog, trace_append, htr] at hc
    simp only [List.mem_singleton] at hc
    subst hc
    exact ⟨rfl, rfl⟩
  · rw [hlog2, trace_append, htr2, hx]

/-- C15, witness: the page select for page 3 fails with -5 on the fresh handle;
the handshake returns -5, keeps `current_page = 0xff`, makes no other call, and
the retry writes the page word 0x0301 again. -/
theorem failed_page_select_not_cached_witness :
    (b53_mdio_op scripted (scriptedDev 0xff [-5] []) 3 4 REG_MII_ADDR_WRITE).1 = -5 ∧
    (b53_mdio_op scripted (scriptedDev 0xff [-5] []) 3 4 REG_MII_ADDR_WRITE).2.current_page
      = 0xff ∧
    (b53_mdio_op scripted (scriptedDev 0xff [-5] []) 3 4 REG_MII_ADDR_WRITE).2.priv.log
      = [Call.write 0x1e 0x10 0x0301 (-5)] ∧
    (b53_mdio_op scripted
        (b53_mdio_op scripted (scriptedDev 0xff [-5] []) 3 4 REG_MII_ADDR_WRITE).2 3 4
        REG_MII_ADDR_WRITE).2.priv.log
      = [Call.write 0x1e 0x10 0x0301 (-5), Call.write 0x1e 0x10 0x0301 0,
         Call.write 0x1e 0x11 0x0401 0, Call.read 0x1e 0x11 0] := by
  have h := failed_page_select_not_cached scripted (scriptedDev 0xff [-5] []) 3 4
    REG_MII_ADDR_WRITE 4 REG_MII_ADDR_WRITE 0x0301 (-5) (by decide) (by decide)
  exact ⟨h.2.1, h.2.2.1, h.2.2.2.2.1, by decide⟩

/-! ## The words and the registers of the protocol -/

/-- Every call of an access goes to the pseudo PHY, to the page register, the
address register or a data register. -/
theorem access_calls {σ : Type} (T : Transport σ) (dev : b53_device σ) (a : Access) :
    ∀ c ∈ trace dev.priv.log (access T dev a).2.priv.log,
      c.addr = B53_PSEUDO_PHY ∧
      (c.reg = REG_MII_PAGE ∨ c.reg = REG_MII_ADDR ∨
        (REG_MII_DATA0 ≤ c.reg ∧ c.reg ≤ REG_MII_DATA3)) := by
  have hop : ∀ {cp page reg op : Nat} {tr : List Call} {ret : Int} {cp1 : Nat},
      OpShape cp page reg op tr ret cp1 → ∀ c ∈ tr, c.addr = B53_PSEUDO_PHY ∧
        (c.reg = REG_MII_PAGE ∨ c.reg = REG_MII_ADDR ∨
          (REG_MII_DATA0 ≤ c.reg ∧ c.reg ≤ REG_MII_DATA3)) := by
    intro cp page reg op tr ret cp1 hs c hc
    rcases (hs.mem_op c hc) with ⟨h1, h2 | h2⟩
    · exact ⟨h1, Or.inl h2⟩
    · exact ⟨h1, Or.inr (Or.inl h2)⟩
  have hstage : ∀ (v n : Nat), n ≤ 4 → ∀ c ∈ stagedWrites v n, c.addr = B53_PSEUDO_PHY ∧
      (c.reg = REG_MII_PAGE ∨ c.reg = REG_MII_ADDR ∨
        (REG_MII_DATA0 ≤ c.reg ∧ c.reg ≤ REG_MII_DATA3)) := by
    intro v n hn c hc
    obtain ⟨i, hi, rfl⟩ := stagedWrites_mem hc
    refine ⟨rfl, Or.inr (Or.inr ?_)⟩
    simp [Call.reg, REG_MII_DATA0, REG_MII_DATA3]
    omega
  intro c hc
  cases a with
  | read w p r val =>
    simp only [access] at hc
    obtain ⟨tr, hs, hl, _⟩ := b53_mdio_op_shape T dev p r REG_MII_ADDR_READ
    by_cases h0 : (b53_mdio_op T dev p r REG_MII_ADDR_READ).1 = 0
    · obtain ⟨rs, _, _, _, hlog, _, _⟩ := mdio_read_ok T w dev p r val h0
      rw [hlog, hl, List.append_assoc, trace_append] at hc
      rcases List.mem_append.mp hc with h | h
      · exact hop hs c h
      · obtain ⟨s, x, hs4, rfl⟩ := dataReads_mem h
        refine ⟨rfl, Or.inr (Or.inr ?_)⟩
        simp [Call.reg, REG_MII_DATA0, REG_MII_DATA3]
        omega
    · rw [mdio_read_fail T w dev p r val h0] at hc
      simp only [hl, trace_append] at hc
      exact hop hs c hc
  | write w p r v =>
    simp only [access] at hc
    rcases mdio_write_shape T w dev p r v with
      ⟨j, e, hj, _, _, hlog, _, _⟩ | ⟨tr, hs, hlog, _⟩
    · rw [hlog, trace_append] at hc
      have h4 := w.words_le
      rcases List.mem_append.mp hc with h | h
      · exact hstage v j (by omega) c h
      · simp only [List.mem_singleton] at h
        subst h
        refine ⟨rfl, Or.inr (Or.inr ?_)⟩
        simp [Call.reg, REG_MII_DATA0, REG_MII_DATA3]
        omega
    · rw [hlog, trace_append] at hc
      rcases List.mem_append.mp hc with h | h
      · exact hstage v w.words w.words_le c h
      · exact hop hs c h

/-- C17 (bit-exact handshake words). For every page and offset below 256 and
either operation bit (1 for a write, 2 for a read): a handshake started with
another page cached, all of whose writes succeed, makes as its first two calls
the write of `page * 256 + 1` to register 0x10 and the write of
`offset * 256 + opBit` to register 0x11, both at bus address 0x1e; a handshake
started with the page cached makes the register 0x11 write its first call;
every call of a handshake goes to address 0x1e, register 0x10 or 0x11, and every
call of any read or write operation goes to address 0x1e and a register among
0x10, 0x11, 0x18, 0x19, 0x1a, 0x1b. -/
theorem handshake_words {σ : Type} (T : Transport σ) (dev : b53_device σ) (page reg op : Nat)
    (hp : page < 256) (hr : reg < 256)
    (hop : op = REG_MII_ADDR_WRITE ∨ op = REG_MII_ADDR_READ) :
    (op = 1 ∨ op = 2) ∧
    (dev.current_page ≠ page →
      (∀ c ∈ trace dev.priv.log (b53_mdio_op T dev page reg op).2.priv.log,
        c.isWrite = true → c.ret = 0) →
      ∃ polls : List Call,
        trace dev.priv.log (b53_mdio_op T dev page reg op).2.priv.log
          = Call.write 0x1e 0x10 (page * 256 + 1) 0
            :: Call.write 0x1e 0x11 (reg * 256 + op) 0 :: polls) ∧
    (dev.current_page = page →
      ∃ (r : Int) (rest : List Call),
        trace dev.priv.log (b53_mdio_op T dev page reg op).2.priv.log
          = Call.write 0x1e 0x11 (reg * 256 + op) r :: rest) ∧
    (∀ c ∈ trace dev.priv.log (b53_mdio_op T dev page reg op).2.priv.log,
      c.addr = 0x1e ∧ (c.reg = 0x10 ∨ c.reg = 0x11)) ∧
    (∀ (a : Access), ∀ c ∈ trace dev.priv.log (access T dev a).2.priv.log,
      c.addr = 0x1e ∧ c.reg ∈ [0x10, 0x11, 0x18, 0x19, 0x1a, 0x1b]) := by
  have hop256 : op < 256 := by rcases hop with h | h <;> subst h <;> decide
  have hsw : ((reg <<< 8) ||| op) % 65536 = reg * 256 + op := strobe_word reg op hr hop256
  have hpw : ((page <<< 8) ||| REG_MII_PAGE_ENABLE) % 65536 = page * 256 + 1 :=
    strobe_word page 1 hp (by decide)
  obtain ⟨tr, hs, hlog, _⟩ := b53_mdio_op_shape T dev page reg op
  rw [hlog, trace_append]
  refine ⟨hop, ?_, ?_, ?_, ?_⟩
  · intro hcp hw
    obtain ⟨pg, rest, htr, _, _, hcase⟩ := hs.split_op
    obtain ⟨r, rest1, hfirst⟩ := hs.first_page hcp
    have hr0 : r = 0 := by
      have := hw (Call.write B53_PSEUDO_PHY REG_MII_PAGE
        (((page <<< 8) ||| REG_MII_PAGE_ENABLE) % 65536) r) (by rw [hfirst]; simp) rfl
      exact this
    subst hr0
    generalize (b53_mdio_op T dev page reg op).1 = ret at hs
    generalize (b53_mdio_op T dev page reg op).2.current_page = cp1 at hs
    cases hs with
    | same tr ret hcp1 ha => exact absurd hcp1 hcp
    | fail r hcp1 hr1 =>
      have := hw _ (List.mem_singleton.mpr rfl) rfl
      exact absurd this hr1
    | selected tr ret hcp1 ha =>
      obtain ⟨r2, polls, htr2, _, _⟩ := ha.split_addr
      have hr2 : r2 = 0 := by
        have := hw (Call.write B53_PSEUDO_PHY REG_MII_ADDR (((reg <<< 8) ||| op) % 65536) r2)
          (by rw [htr2]; simp) rfl
        exact this
      subst hr2
      refine ⟨polls, ?_⟩
      rw [htr2, hsw, hpw]
      rfl
  · intro hcp
    generalize (b53_mdio_op T dev page reg op).1 = ret at hs
    generalize (b53_mdio_op T dev page reg op).2.current_page = cp1 at hs
    cases hs with
    | same tr ret hcp1 ha =>
      obtain ⟨r2, polls, htr2, _, _⟩ := ha.split_addr
      exact ⟨r2, polls, by rw [htr2, hsw]; rfl⟩
    | fail r hcp1 hr1 => exact absurd hcp hcp1
    | selected tr ret hcp1 ha => exact absurd hcp hcp1
  · intro c hc
    exact hs.mem_op c hc
  · intro a c hc
    obtain ⟨h1, h2⟩ := access_calls T dev a c hc
    refine ⟨h1, ?_⟩
    simp only [REG_MII_PAGE, REG_MII_ADDR, REG_MII_DATA0, REG_MII_DATA3] at h2
    simp only [List.mem_cons, List.mem_singleton]
    omega

/-- C17, witness: the handshake of a read of page 0x12, offset 0x34 from the
fresh handle begins with the page word 0x1201 to register 0x10 and the strobe
0x3402 to register 0x11. -/
theorem handshake_words_witness :
    ∃ polls : List Call,
      trace [] (b53_mdio_op scripted (scriptedDev 0xff [] []) 0x12 0x34
          REG_MII_ADDR_READ).2.priv.log
        = Call.write 0x1e 0x10 0x1201 0 :: Call.write 0x1e 0x11 0x3402 0 :: polls :=
  (handshake_words scripted (scriptedDev 0xff [] []) 0x12 0x34 REG_MII_ADDR_READ
    (by decide) (by decide) (Or.inr rfl)).2.1 (by decide) (by decide)

/-! ## Polls that return an error code -/

/-- The busy test of the poll loop only sees the low two bits of the `int`. -/
theorem busy_mod4 (x : Int) : busy x = true ↔ x % 4 ≠ 0 := by
  have h3 : to_u16 x &&& (REG_MII_ADDR_WRITE ||| REG_MII_ADDR_READ) = to_u16 x % 4 :=
    and_three (to_u16 x)
  simp only [busy, h3, decide_eq_true_eq]
  unfold to_u16
  omega

/-- The low two bits of the 16-bit truncation of an `int` are those of the `int`. -/
theorem trunc16_and3 (r : Int) : ((r % 65536).toNat &&& 3 = 0 ↔ r % 4 = 0) := by
  rw [and_three]
  omega

/-- What the words of the polls of one handshake look like, in terms of their
low two bits. -/
theorem PollShape.mod4 {polls : List Int} {t : Bool} (hp : PollShape polls t) :
    1 ≤ polls.length ∧ polls.length ≤ 5 ∧
    (∀ pre r post, polls = pre ++ r :: post → r % 4 = 0 → post = [] ∧ t = false) ∧
    (∀ pre r post, polls = pre ++ r :: post → r % 4 ≠ 0 →
      post ≠ [] ∨ (pre.length = 4 ∧ t = true)) ∧
    ((∀ x ∈ polls, x % 4 ≠ 0) → polls.length = 5 ∧ t = true) ∧
    (t = true → polls.length = 5 ∧ ∀ x ∈ polls, x % 4 ≠ 0) := by
  cases hp with
  | clear pre0 r0 hpre hr hlen =>
    have hr0 : r0 % 4 = 0 := by
      by_contra hne
      have := (busy_mod4 r0).mpr hne
      rw [hr] at this
      exact absurd this (by decide)
    refine ⟨by simp, by simp; omega, ?_, ?_, ?_, ?_⟩
    · intro pre r post heq hr4
      have hnb : ¬ (busy r = true) := fun hb => (busy_mod4 r).mp hb hr4
      exact ⟨first_clear_last (fun x => busy x = true) pre0 pre r0 r post heq hpre hnb, rfl⟩
    · intro pre r post heq hr4
      left
      intro hnil
      subst hnil
      have := List.append_inj_right' heq rfl
      simp only [List.cons.injEq, and_true] at this
      exact hr4 (this ▸ hr0)
    · intro hall
      exact absurd hr0 (hall r0 (by simp))
    · intro ht
      cases ht
  | timeout rs hlen hrs =>
    refine ⟨by omega, by omega, ?_, ?_, ?_, ?_⟩
    · intro pre r post heq hr4
      have hmem : r ∈ polls := by rw [heq]; simp
      exact absurd hr4 ((busy_mod4 r).mp (hrs r hmem))
    · intro pre r post heq hr4
      by_cases hnil : post = []
      · right
        subst hnil
        have := congrArg List.length heq
        simp at this
        exact ⟨by omega, rfl⟩
      · exact Or.inl hnil
    · intro _
      exact ⟨hlen, rfl⟩
    · intro _
      exact ⟨hlen, fun x hx => (busy_mod4 x).mp (hrs x hx)⟩

/-- C20 (the poll never checks the sign). For a handshake whose writes succeed
and whatever `int`s its polls return: the poll loop tests the 16-bit truncation
of each returned `int`, `(r mod 2^16) & 3`; the first poll for which it is 0
is the last poll and the handshake returns 0; if it is non-zero for every poll
there are exactly 5 polls and the handshake returns `- EIO`. The test is 0
exactly when `r` is a multiple of 4, so a failed first poll whose negative code
is a multiple of 4 ends the polling with success 0, and five failed polls whose
codes are not multiples of 4 give `- EIO`. -/
theorem poll_sign_unchecked {σ : Type} (T : Transport σ) (dev : b53_device σ)
    (page reg op : Nat)
    (hw : ∀ c ∈ trace dev.priv.log (b53_mdio_op T dev page reg op).2.priv.log,
      c.isWrite = true → c.ret = 0) :
    (∀ (pre : List Int) (r : Int) (post : List Int),
      pollResults (trace dev.priv.log (b53_mdio_op T dev page reg op).2.priv.log)
        = pre ++ r :: post →
      (r % 65536).toNat &&& (REG_MII_ADDR_WRITE ||| REG_MII_ADDR_READ) = 0 →
      post = [] ∧ (b53_mdio_op T dev page reg op).1 = 0) ∧
    ((∀ x ∈ pollResults (trace dev.priv.log (b53_mdio_op T dev page reg op).2.priv.log),
        (x % 65536).toNat &&& (REG_MII_ADDR_WRITE ||| REG_MII_ADDR_READ) ≠ 0) →
      (pollResults (trace dev.priv.log (b53_mdio_op T dev page reg op).2.priv.log)).length = 5 ∧
      (b53_mdio_op T dev page reg op).1 = - EIO) ∧
    (∀ r : Int,
      (r % 65536).toNat &&& (REG_MII_ADDR_WRITE ||| REG_MII_ADDR_READ) = 0 ↔ r % 4 = 0) ∧
    (∀ (r : Int) (post : List Int), r < 0 → r % 4 = 0 →
      pollResults (trace dev.priv.log (b53_mdio_op T dev page reg op).2.priv.log) = r :: post →
      post = [] ∧ (b53_mdio_op T dev page reg op).1 = 0) ∧
    ((∀ x ∈ pollResults (trace dev.priv.log (b53_mdio_op T dev page reg op).2.priv.log),
        x < 0 ∧ x % 4 ≠ 0) →
      (pollResults (trace dev.priv.log (b53_mdio_op T dev page reg op).2.priv.log)).length = 5 ∧
      (b53_mdio_op T dev page reg op).1 = - EIO) := by
  obtain ⟨tr, hs, hlog, _⟩ := b53_mdio_op_shape T dev page reg op
  rw [hlog, trace_append] at hw ⊢
  obtain ⟨t, hp, hret⟩ := hs.polls hw
  obtain ⟨_, _, hclear, _, hbusy, _⟩ := hp.mod4
  have h3 : ∀ r : Int,
      (r % 65536).toNat &&& (REG_MII_ADDR_WRITE ||| REG_MII_ADDR_READ) = 0 ↔ r % 4 = 0 :=
    trunc16_and3
  refine ⟨?_, ?_, h3, ?_, ?_⟩
  · intro pre r post heq hr
    obtain ⟨hpost, ht⟩ := hclear pre r post heq ((h3 r).mp hr)
    exact ⟨hpost, by rw [hret, ht]; rfl⟩
  · intro hall
    obtain ⟨hlen, ht⟩ := hbusy (fun x hx h4 => hall x hx ((h3 x).mpr h4))
    exact ⟨hlen, by rw [hret, ht]; rfl⟩
  · intro r post _ hr4 heq
    obtain ⟨hpost, ht⟩ := hclear [] r post (by simpa using heq) hr4
    exact ⟨hpost, by rw [hret, ht]; rfl⟩
  · intro hall
    obtain ⟨hlen, ht⟩ := hbusy (fun x hx => (hall x hx).2)
    exact ⟨hlen, by rw [hret, ht]; rfl⟩

/-- C20, witness: a first poll failing with -16 ends the handshake with 0 after
one poll; five polls failing with -110 give `- EIO`, not -110. -/
theorem poll_sign_unchecked_witness :
    (pollResults (trace [] (b53_mdio_op scripted (scriptedDev 0xff [] [-16, 2, 2]) 3 4
        REG_MII_ADDR_WRITE).2.priv.log) = [-16] ∧
      (b53_mdio_op scripted (scriptedDev 0xff [] [-16, 2, 2]) 3 4 REG_MII_ADDR_WRITE).1 = 0) ∧
    ((pollResults (trace [] (b53_mdio_op scripted
        (scriptedDev 0xff [] [-110, -110, -110, -110, -110, 0]) 3 4
        REG_MII_ADDR_WRITE).2.priv.log)).length = 5 ∧
      (b53_mdio_op scripted (scriptedDev 0xff [] [-110, -110, -110, -110, -110, 0]) 3 4
        REG_MII_ADDR_WRITE).1 = - EIO) :=
  ⟨⟨by decide,
    ((poll_sign_unchecked scripted (scriptedDev 0xff [] [-16, 2, 2]) 3 4 REG_MII_ADDR_WRITE
      (by decide)).2.2.2.1 (-16) [] (by decide) (by decide) (by decide)).2⟩,
   (poll_sign_unchecked scripted (scriptedDev 0xff [] [-110, -110, -110, -110, -110, 0]) 3 4
      REG_MII_ADDR_WRITE (by decide)).2.2.2.2 (by decide)⟩

/-- The polls of an access are the polls of its handshake: data-register calls
are no polls. -/
theorem pollResults_access (pre tr post : List Call)
    (hpre : ∀ d ∈ pre, d.isDataWrite = true ∧ d.ret = 0)
    (hpost : ∀ d ∈ post, d.isDataRead = true) :
    pollResults (pre ++ (tr ++ post)) = pollResults tr := by
  have h1 : pre.filter Call.isPoll = [] := by
    rw [List.filter_eq_nil_iff]
    intro c hc
    have := (hpre c hc).1
    simp only [Call.isDataWrite, Bool.and_eq_true] at this
    simp [Call.isPoll, this.1]
  have h2 : post.filter Call.isPoll = [] := by
    rw [List.filter_eq_nil_iff]
    intro c hc
    have := hpost c hc
    simp only [Call.isDataRead, Call.isData, Bool.and_eq_true, decide_eq_true_eq] at this
    simp only [Call.isPoll, Bool.and_eq_true, beq_iff_eq, not_and]
    intro _
    have h18 := this.2.1
    simp only [REG_MII_DATA0, REG_MII_ADDR] at h18 ⊢
    omega
  simp [pollResults, List.filter_append, h1, h2]

/-- C11, counterexample: in a 16-bit read whose first poll fails with -5 and
whose second poll reads 0, the handshake does not stop at the failed poll, and
the read does not return -5: it polls again, reads the data register and
returns 0. -/
theorem poll_error_counterexample :
    (mdio_read scripted Width.w16 (scriptedDev 0xff [] [-5, 0, 0x1234]) 3 4 0).2.2.priv.log
      = [Call.write 0x1e 0x10 0x0301 0, Call.write 0x1e 0x11 0x0402 0, Call.read 0x1e 0x11 (-5),
         Call.read 0x1e 0x11 0, Call.read 0x1e 0x18 0x1234] ∧
    (mdio_read scripted Width.w16 (scriptedDev 0xff [] [-5, 0, 0x1234]) 3 4 0).1 = 0 ∧
    (mdio_read scripted Width.w16 (scriptedDev 0xff [] [-5, 0, 0x1234]) 3 4 0).1 ≠ -5 := by
  decide

/-- C11, as amended. A failed poll is not treated as an error. In any read or
write operation whose transport writes all succeed, whatever `int`s the polls
of the address register return (negative error codes included): the operation
polls 1 to 5 times and returns 0 or `- EIO`, and `- EIO` exactly when it polled
5 times and no returned `int` was a multiple of 4; a poll whose `int` is not a
multiple of 4 is followed by another poll unless it was the fifth; a poll whose
`int` is a multiple of 4 ends the polling and the operation carries on to
return 0. -/
theorem poll_error_not_propagated {σ : Type} (T : Transport σ) (dev : b53_device σ)
    (a : Access)
    (hw : ∀ c ∈ trace dev.priv.log (access T dev a).2.priv.log, c.isWrite = true → c.ret = 0) :
    1 ≤ (pollResults (trace dev.priv.log (access T dev a).2.priv.log)).length ∧
    (pollResults (trace dev.priv.log (access T dev a).2.priv.log)).length ≤ 5 ∧
    ((access T dev a).1 = 0 ∨ (access T dev a).1 = - EIO) ∧
    ((access T dev a).1 = - EIO ↔
      ((pollResults (trace dev.priv.log (access T dev a).2.priv.log)).length = 5 ∧
        ∀ x ∈ pollResults (trace dev.priv.log (access T dev a).2.priv.log), x % 4 ≠ 0)) ∧
    (∀ (pre : List Int) (r : Int) (post : List Int),
      pollResults (trace dev.priv.log (access T dev a).2.priv.log) = pre ++ r :: post →
      r % 4 ≠ 0 → post ≠ [] ∨ (pre.length = 4 ∧ (access T dev a).1 = - EIO)) ∧
    (∀ (pre : List Int) (r : Int) (post : List Int),
      pollResults (trace dev.priv.log (access T dev a).2.priv.log) = pre ++ r :: post →
      r % 4 = 0 → post = [] ∧ (access T dev a).1 = 0) := by
  rcases access_shape T dev a with
    ⟨pre, c, hlog, _, hcw, hcne, _, _⟩ | ⟨pre, tr, post, reg, op, hs, hlog, hpre, hpost, _⟩
  · exfalso
    rw [hlog, trace_append] at hw
    simp only [Call.isDataWrite, Bool.and_eq_true] at hcw
    exact hcne (hw c (by simp) hcw.1)
  · rw [hlog, trace_append] at hw ⊢
    rw [pollResults_access pre tr post hpre hpost]
    have hwtr : ∀ c ∈ tr, c.isWrite = true → c.ret = 0 :=
      fun c hc => hw c (by simp [hc])
    obtain ⟨t, hp, hret⟩ := hs.polls hwtr
    obtain ⟨h1, h5, hclear, hbusy, hall, htime⟩ := hp.mod4
    have hEIO : (- EIO : Int) ≠ 0 := by decide
    refine ⟨h1, h5, ?_, ?_, ?_, ?_⟩
    · cases t
      · exact Or.inl (by rw [hret]; rfl)
      · exact Or.inr (by rw [hret]; rfl)
    · constructor
      · intro he
        cases t
        · rw [hret] at he
          exact absurd he.symm hEIO
        · exact htime rfl
      · intro h
        rw [hret, (hall h.2).2]
        rfl
    · intro pre1 r post1 heq hr
      rcases hbusy pre1 r post1 heq hr with h | ⟨h4, ht⟩
      · exact Or.inl h
      · exact Or.inr ⟨h4, by rw [hret, ht]; rfl⟩
    · intro pre1 r post1 heq hr
      obtain ⟨hpost1, ht⟩ := hclear pre1 r post1 heq hr
      exact ⟨hpost1, by rw [hret, ht]; rfl⟩

/-- C11 as amended, witness: the read whose first poll fails with -5 polls a
second time and returns 0. -/
theorem poll_error_not_propagated_witness :
    pollResults (trace [] (access scripted (scriptedDev 0xff [] [-5, 0, 0x1234])
        (Access.read Width.w16 3 4 0)).2.priv.log) = [-5, 0] ∧
    (access scripted (scriptedDev 0xff [] [-5, 0, 0x1234]) (Access.read Width.w16 3 4 0)).1
      = 0 :=
  ⟨by decide,
   ((poll_error_not_propagated scripted (scriptedDev 0xff [] [-5, 0, 0x1234])
      (Access.read Width.w16 3 4 0) (by decide)).2.2.2.2.2 [-5] 0 [] (by decide)
      (by decide)).2⟩

/-! ## The error codes of a failed access -/

/-- C12, counterexample: a 16-bit write whose page select the transport fails
with -5 and a 16-bit write whose five polls stay busy return the same code,
-5 = `- EIO`; the first has a failed transport write and no poll, the second
has no failed write and five polls. -/
theorem error_kinds_counterexample :
    (access scripted (scriptedDev 0xff [0, -5] []) (Access.write Width.w16 3 4 7)).1 = - EIO ∧
    (access scripted (scriptedDev 0xff [0, -5] []) (Access.write Width.w16 3 4 7)).2.priv.log
      = [Call.write 0x1e 0x18 7 0, Call.write 0x1e 0x10 0x0301 (-5)] ∧
    (access scripted (scriptedDev 0xff [] [1, 1, 1, 1, 1])
      (Access.write Width.w16 3 4 7)).1 = - EIO ∧
    (access scripted (scriptedDev 0xff [] [1, 1, 1, 1, 1])
      (Access.write Width.w16 3 4 7)).2.priv.log
      = [Call.write 0x1e 0x18 7 0, Call.write 0x1e 0x10 0x0301 0, Call.write 0x1e 0x11 0x0401 0,
         Call.read 0x1e 0x11 1, Call.read 0x1e 0x11 1, Call.read 0x1e 0x11 1,
         Call.read 0x1e 0x11 1, Call.read 0x1e 0x11 1] ∧
    (access scripted (scriptedDev 0xff [0, -5] []) (Access.write Width.w16 3 4 7)).1
      = (access scripted (scriptedDev 0xff [] [1, 1, 1, 1, 1])
          (Access.write Width.w16 3 4 7)).1 := by
  decide

/-- C12, as amended. A read or write operation that returns an error failed in
one of two ways only. Either its last call is a transport write (a data word,
the page select or the address strobe) that failed, every earlier call being a
successful write, and the operation returns the transport's code unchanged; or
all of its writes succeeded, its five polls stayed busy and it returns `- EIO`.
So the code of a failed transport write is the code of a timeout exactly when
the transport reported `- EIO` itself. -/
theorem error_codes {σ : Type} (T : Transport σ) (dev : b53_device σ) (a : Access)
    (hne : (access T dev a).1 ≠ 0) :
    (∃ (pre : List Call) (c : Call),
      trace dev.priv.log (access T dev a).2.priv.log = pre ++ [c] ∧
      (∀ d ∈ pre, d.isWrite = true ∧ d.ret = 0) ∧
      c.isWrite = true ∧ c.ret ≠ 0 ∧ (access T dev a).1 = c.ret ∧
      ((access T dev a).1 = - EIO ↔ c.ret = - EIO)) ∨
    ((∀ c ∈ trace dev.priv.log (access T dev a).2.priv.log, c.isWrite = true → c.ret = 0) ∧
      (pollResults (trace dev.priv.log (access T dev a).2.priv.log)).length = 5 ∧
      (∀ x ∈ pollResults (trace dev.priv.log (access T dev a).2.priv.log), x % 4 ≠ 0) ∧
      (access T dev a).1 = - EIO) := by
  rcases access_shape T dev a with
    ⟨pre, c, hlog, hpre, hcw, hcne, hret, _⟩ | ⟨pre, tr, post, reg, op, hs, hlog, hpre, hpost, hp⟩
  · left
    refine ⟨pre, c, by rw [hlog, trace_append], ?_, ?_, hcne, hret, by rw [hret]⟩
    · intro d hd
      have := (hpre d hd).1
      simp only [Call.isDataWrite, Bool.and_eq_true] at this
      exact ⟨this.1, (hpre d hd).2⟩
    · simp only [Call.isDataWrite, Bool.and_eq_true] at hcw
      exact hcw.1
  · have hpost0 := hp hne
    subst hpost0
    have hprew : ∀ d ∈ pre, d.isWrite = true ∧ d.ret = 0 := by
      intro d hd
      have := (hpre d hd).1
      simp only [Call.isDataWrite, Bool.and_eq_true] at this
      exact ⟨this.1, (hpre d hd).2⟩
    rw [hlog, trace_append]
    rcases hs.failure hne with ⟨c, htr, hc, hret, _⟩ | ⟨pre0, c, htr, hc, hret, hpre0⟩ |
      ⟨hw, hlen, hbusy, hret⟩
    · left
      simp only [Call.isPageWrite, Bool.and_eq_true] at hc
      exact ⟨pre, c, by rw [htr]; simp, hprew, hc.1, by rw [hret]; exact hne, hret.symm,
        by rw [hret]⟩
    · left
      simp only [Call.isStrobe, Bool.and_eq_true] at hc
      refine ⟨pre ++ pre0, c, by rw [htr]; simp, ?_, hc.1, by rw [hret]; exact hne, hret.symm,
        by rw [hret]⟩
      intro d hd
      rcases List.mem_append.mp hd with h | h
      · exact hprew d h
      · have := (hpre0 d h).1
        simp only [Call.isPageWrite, Bool.and_eq_true] at this
        exact ⟨this.1, (hpre0 d h).2⟩
    · right
      have hpoll := pollResults_access pre tr [] hpre (by simp)
      rw [hpoll]
      refine ⟨?_, hlen, fun x hx => (busy_mod4 x).mp (hbusy x hx), hret⟩
      intro c hc hcw
      simp only [List.append_nil, List.mem_append] at hc
      rcases hc with h | h
      · exact (hprew c h).2
      · exact hw c h hcw

/-- C12 as amended, witness: the write whose page select fails with -110 returns
-110, which is not the timeout code. -/
theorem error_codes_witness :
    ∃ (pre : List Call) (c : Call),
      trace [] (access scripted (scriptedDev 0xff [0, -110] [])
        (Access.write Width.w16 3 4 7)).2.priv.log = pre ++ [c] ∧
      c.ret ≠ 0 ∧
      (access scripted (scriptedDev 0xff [0, -110] []) (Access.write Width.w16 3 4 7)).1
        = c.ret ∧
      (access scripted (scriptedDev 0xff [0, -110] []) (Access.write Width.w16 3 4 7)).1
        ≠ - EIO := by
  rcases error_codes scripted (scriptedDev 0xff [0, -110] []) (Access.write Width.w16 3 4 7)
    (by decide) with ⟨pre, c, htr, _, _, hne, hret, _⟩ | ⟨_, _, _, hret⟩
  · exact ⟨pre, c, htr, hne, hret, by decide⟩
  · exact absurd hret (by decide)

/-! ## The sentinel page -/

/-- C16, counterexample: on the fresh handle (`current_page = 0xff`) a 16-bit
read of page 255 issues no write to the page register: its calls are the
strobe, one poll and the data read. -/
theorem sentinel_counterexample :
    (freshDev { chip := (([] : List Int), ([] : List Int)), log := [] }).current_page = 0xff ∧
    (access scripted (freshDev { chip := ([], []), log := [] })
      (Access.read Width.w16 255 4 0)).2.priv.log
      = [Call.write 0x1e 0x11 0x0402 0, Call.read 0x1e 0x11 0, Call.read 0x1e 0x18 0] ∧
    ((access scripted (freshDev { chip := ([], []), log := [] })
      (Access.read Width.w16 255 4 0)).2.priv.log.filter Call.isPageWrite) = [] := by
  decide

/-- C16, as amended. On a freshly initialised handle (`current_page = 0xff`) the
first register access to any page `p` in 0..254, if it reaches its handshake
(none of its data-register writes failed), writes the page word `p * 256 + 1`
to the page register as the first call of the handshake: only writes to data
registers come before it, and the address strobe does not. -/
theorem sentinel_forces_page_select {σ : Type} (T : Transport σ) (bus : mii_bus σ)
    (a : Access) (hp : a.page < 255)
    (hstage : ∀ c ∈ trace bus.log (access T (freshDev bus) a).2.priv.log,
      c.isDataWrite = true → c.ret = 0) :
    ∃ (pre : List Call) (r : Int) (rest : List Call),
      trace bus.log (access T (freshDev bus) a).2.priv.log
        = pre ++ Call.write B53_PSEUDO_PHY REG_MII_PAGE (a.page * 256 + 1) r :: rest ∧
      (∀ d ∈ pre, d.isDataWrite = true ∧ d.isStrobe = false ∧ d.isPageWrite = false) := by
  have hlog0 : (freshDev bus).priv.log = bus.log := rfl
  have hcp0 : (freshDev bus).current_page = 0xff := rfl
  rcases access_shape T (freshDev bus) a with
    ⟨pre, c, hlog, _, hcw, hcne, _, _⟩ | ⟨pre, tr, post, reg, op, hs, hlog, hpre, _, _⟩
  · exfalso
    rw [hlog, hlog0, trace_append] at hstage
    exact hcne (hstage c (by simp) hcw)
  · rw [hcp0] at hs
    obtain ⟨r, rest, htr⟩ := hs.first_page (by omega)
    have hpw : ((a.page <<< 8) ||| REG_MII_PAGE_ENABLE) % 65536 = a.page * 256 + 1 :=
      strobe_word a.page 1 (by omega) (by decide)
    refine ⟨pre, r, rest ++ post, ?_, ?_⟩
    · rw [hlog, hlog0, trace_append, htr, hpw]
      simp
    · intro d hd
      have hdw := (hpre d hd).1
      refine ⟨hdw, ?_, ?_⟩ <;>
      · simp only [Call.isDataWrite, Call.isData, Bool.and_eq_true, decide_eq_true_eq,
          REG_MII_DATA0] at hdw
        simp only [Call.isStrobe, Call.isPageWrite, REG_MII_ADDR, REG_MII_PAGE,
          Bool.and_eq_false_iff, beq_eq_false_iff_ne, ne_eq]
        right
        omega

/-- C16 as amended, witness: the first 32-bit write to page 0 on the fresh
handle stages its two data words and then selects page 0 with the page word 1. -/
theorem sentinel_forces_page_select_witness :
    ∃ (pre : List Call) (r : Int) (rest : List Call),
      trace [] (access scripted (freshDev { chip := ([], []), log := [] })
        (Access.write Width.w32 0 4 0x10002)).2.priv.log
        = pre ++ Call.write 0x1e 0x10 1 r :: rest ∧
      (∀ d ∈ pre, d.isDataWrite = true ∧ d.isStrobe = false ∧ d.isPageWrite = false) :=
  sentinel_forces_page_select scripted { chip := ([], []), log := [] }
    (Access.write Width.w32 0 4 0x10002) (by decide) (by decide)

/-! ## The page cache invariant -/

theorem pageAfter_append (i : Option Nat) (l t : List Call) :
    pageAfter i (l ++ t) = pageAfter (pageAfter i l) t := by
  simp [pageAfter, List.foldl_append]

/-- Calls that are no successful page select leave the page register alone. -/
theorem pageAfter_same (i : Option Nat) (l : List Call)
    (h : ∀ c ∈ l, c.isPageSelect = false) : pageAfter i l = i := by
  induction l generalizing i with
  | nil => rfl
  | cons c l ih =>
    have hc := h c (List.mem_cons_self _ _)
    have hl : ∀ d ∈ l, d.isPageSelect = false := fun d hd => h d (List.mem_cons_of_mem _ hd)
    have := ih i hl
    simpa [pageAfter, List.foldl_cons, hc] using this

theorem not_pageSelect_of_not_pageWrite {c : Call} (h : c.isPageWrite = false) :
    c.isPageSelect = false := by
  simp [Call.isPageSelect, h]

theorem AddrShape.no_pageSelect {reg op : Nat} {tr : List Call} {ret : Int}
    (h : AddrShape reg op tr ret) : ∀ c ∈ tr, c.isPageSelect = false := by
  intro c hc
  apply not_pageSelect_of_not_pageWrite
  simp [Call.isPageWrite, (h.mem_addr c hc).2, REG_MII_ADDR, REG_MII_PAGE]

/-- A handshake either keeps the cached page and makes no successful page
select, or caches the addressed page after the one successful page select of
its log, which carries that page. -/
theorem OpShape.page_effect {cp page reg op : Nat} {tr : List Call} {ret : Int} {cp1 : Nat}
    (h : OpShape cp page reg op tr ret cp1) (hp : page < 256) :
    (cp1 = cp ∧ ∀ c ∈ tr, c.isPageSelect = false) ∨
    (cp1 = page ∧ (∀ i, pageAfter i tr = some page) ∧
      ∃ c ∈ tr, c.isPageSelect = true ∧ c.val >>> 8 = page) := by
  have hpw : ((page <<< 8) ||| REG_MII_PAGE_ENABLE) % 65536 = page * 256 + 1 :=
    strobe_word page 1 hp (by decide)
  have hhi : (page * 256 + 1) >>> 8 = page := by
    rw [Nat.shiftRight_eq_div_pow]
    omega
  cases h with
  | same tr ret hcp ha => exact Or.inl ⟨rfl, ha.no_pageSelect⟩
  | fail r hcp hr =>
    refine Or.inl ⟨rfl, ?_⟩
    intro c hc
    simp only [List.mem_singleton] at hc
    subst hc
    simp [Call.isPageSelect, Call.ret, hr]
  | selected tr ret hcp ha =>
    refine Or.inr ⟨rfl, ?_, _, List.mem_cons_self _ _, rfl, ?_⟩
    · intro i
      have hsel : Call.isPageSelect (Call.write B53_PSEUDO_PHY REG_MII_PAGE
          (((page <<< 8) ||| REG_MII_PAGE_ENABLE) % 65536) 0) = true := rfl
      have h1 : pageAfter i (Call.write B53_PSEUDO_PHY REG_MII_PAGE
          (((page <<< 8) ||| REG_MII_PAGE_ENABLE) % 65536) 0 :: tr)
          = pageAfter (some ((((page <<< 8) ||| REG_MII_PAGE_ENABLE) % 65536) >>> 8)) tr := by
        simp [pageAfter, List.foldl_cons, hsel, Call.val]
      rw [h1, pageAfter_same _ tr ha.no_pageSelect, hpw, hhi]
    · show ((((page <<< 8) ||| REG_MII_PAGE_ENABLE) % 65536) >>> 8) = page
      rw [hpw, hhi]

/-- One access: either `current_page` and the page register of the log are both
unchanged, or the access made a successful page select for its page, which is
now both cached and selected. -/
theorem access_page_effect {σ : Type} (T : Transport σ) (dev : b53_device σ) (a : Access)
    (hp : a.page < 256) :
    ((access T dev a).2.current_page = dev.current_page ∧
      chipPage (access T dev a).2.priv.log = chipPage dev.priv.log) ∨
    ((access T dev a).2.current_page = a.page ∧
      chipPage (access T dev a).2.priv.log = some a.page ∧
      ∃ c ∈ trace dev.priv.log (access T dev a).2.priv.log,
        c.isPageSelect = true ∧ c.val >>> 8 = a.page) := by
  have hdw : ∀ d : Call, d.isDataWrite = true → d.isPageSelect = false := by
    intro d hd
    apply not_pageSelect_of_not_pageWrite
    simp only [Call.isDataWrite, Call.isData, Bool.and_eq_true, decide_eq_true_eq,
      REG_MII_DATA0] at hd
    simp only [Call.isPageWrite, REG_MII_PAGE, Bool.and_eq_false_iff, beq_eq_false_iff_ne,
      ne_eq]
    right
    omega
  have hdr : ∀ d : Call, d.isDataRead = true → d.isPageSelect = false := by
    intro d hd
    apply not_pageSelect_of_not_pageWrite
    simp only [Call.isDataRead, Call.isData, Bool.and_eq_true, decide_eq_true_eq,
      REG_MII_DATA0] at hd
    simp only [Call.isPageWrite, REG_MII_PAGE, Bool.and_eq_false_iff, beq_eq_false_iff_ne,
      ne_eq]
    right
    omega
  rcases access_shape T dev a with
    ⟨pre, c, hlog, hpre, hcw, _, _, hcp⟩ | ⟨pre, tr, post, reg, op, hs, hlog, hpre, hpost, _⟩
  · left
    refine ⟨hcp, ?_⟩
    rw [hlog]
    unfold chipPage
    rw [pageAfter_append, pageAfter_same]
    intro d hd
    rcases List.mem_append.mp hd with h | h
    · exact hdw d (hpre d h).1
    · simp only [List.mem_singleton] at h
      subst h
      exact hdw d hcw
  · have hpre0 : ∀ d ∈ pre, d.isPageSelect = false := fun d hd => hdw d (hpre d hd).1
    have hpost0 : ∀ d ∈ post, d.isPageSelect = false := fun d hd => hdr d (hpost d hd)
    rcases hs.page_effect hp with ⟨hcp, hno⟩ | ⟨hcp, hsel, c, hc, hcs, hcv⟩
    · left
      refine ⟨hcp, ?_⟩
      rw [hlog]
      unfold chipPage
      rw [pageAfter_append, pageAfter_append, pageAfter_append, pageAfter_same _ post hpost0,
        pageAfter_same _ tr hno, pageAfter_same _ pre hpre0]
    · right
      refine ⟨hcp, ?_, c, ?_, hcs, hcv⟩
      · rw [hlog]
        unfold chipPage
        rw [pageAfter_append, pageAfter_append, pageAfter_append, pageAfter_same _ post hpost0,
          hsel]
      · rw [hlog, trace_append]
        simp [hc]

/-- An access to a page below 256 keeps the page cache in agreement with the
chip. -/
theorem access_pageCacheOk {σ : Type} (T : Transport σ) (dev : b53_device σ) (a : Access)
    (hp : a.page < 256) (h : pageCacheOk dev) : pageCacheOk (access T dev a).2 := by
  rcases access_page_effect T dev a hp with ⟨hcp, hchip⟩ | ⟨hcp, hchip, _⟩
  · unfold pageCacheOk at h ⊢
    rw [hcp, hchip]
    exact h
  · right
    rw [hcp, hchip]

theorem runAll_pageCacheOk {σ : Type} (T : Transport σ) :
    ∀ (ops : List Access) (dev : b53_device σ), (∀ a ∈ ops, a.page < 256) →
      pageCacheOk dev → pageCacheOk (runAll T dev ops) := by
  intro ops
  induction ops with
  | nil => intro dev _ h; exact h
  | cons a ops ih =>
    intro dev hp h
    exact ih (access T dev a).2 (fun b hb => hp b (List.mem_cons_of_mem _ hb))
      (access_pageCacheOk T dev a (hp a (List.mem_cons_self _ _)) h)

/-- C14 (page cache invariant). Take the page register of the chip to be the
page number carried by the most recent successful write to register 0x10 in the
log. For every transport (every pattern of failures and timeouts), every handle
set up with `current_page = 0xff` over a bus on which no page select has
succeeded, and every sequence of read and write operations of any widths to
pages below 256: after each operation of the sequence either no page select has
succeeded yet and `current_page` is still 0xff, or `current_page` is the page
register of the chip. And one operation changes `current_page` only if its log
holds a successful page select, whose page is the new `current_page`. -/
theorem page_cache_invariant {σ : Type} (T : Transport σ) (bus : mii_bus σ)
    (ops : List Access) (hbus : chipPage bus.log = none) (hpages : ∀ a ∈ ops, a.page < 256) :
    (∀ n,
      (chipPage (runAll T (freshDev bus) (ops.take n)).priv.log = none ∧
        (runAll T (freshDev bus) (ops.take n)).current_page = 0xff) ∨
      chipPage (runAll T (freshDev bus) (ops.take n)).priv.log
        = some (runAll T (freshDev bus) (ops.take n)).current_page) ∧
    (∀ (dev : b53_device σ) (a : Access), a.page < 256 →
      (access T dev a).2.current_page ≠ dev.current_page →
      ∃ c ∈ trace dev.priv.log (access T dev a).2.priv.log,
        c.isPageSelect = true ∧ c.val >>> 8 = (access T dev a).2.current_page) := by
  constructor
  · intro n
    have h0 : pageCacheOk (freshDev bus) := Or.inl ⟨hbus, rfl⟩
    exact runAll_pageCacheOk T (ops.take n) (freshDev bus)
      (fun a ha => hpages a (List.mem_of_mem_take ha)) h0
  · intro dev a hp hne
    rcases access_page_effect T dev a hp with ⟨hcp, _⟩ | ⟨hcp, _, c, hc, hcs, hcv⟩
    · exact absurd hcp hne
    · exact ⟨c, hc, hcs, by rw [hcv, hcp]⟩

/-- C14, witness: a write to page 3 whose page select fails, a read of page 3
that succeeds, and a write to page 5 whose polls time out. The cache is the
sentinel with no page selected, then 3 with page 3 selected, then 5 with page 5
selected (the timed-out write had selected its page). -/
theorem page_cache_invariant_witness :
    ((chipPage (runAll scripted (freshDev { chip := ([0, -5], [0, 0, 1, 1, 1, 1, 1]), log := [] })
        (List.take 3 [Access.write Width.w16 3 4 7, Access.read Width.w16 3 4 0,
          Access.write Width.w32 5 4 9])).priv.log = none ∧
      (runAll scripted (freshDev { chip := ([0, -5], [0, 0, 1, 1, 1, 1, 1]), log := [] })
        (List.take 3 [Access.write Width.w16 3 4 7, Access.read Width.w16 3 4 0,
          Access.write Width.w32 5 4 9])).current_page = 0xff) ∨
      chipPage (runAll scripted (freshDev { chip := ([0, -5], [0, 0, 1, 1, 1, 1, 1]), log := [] })
        (List.take 3 [Access.write Width.w16 3 4 7, Access.read Width.w16 3 4 0,
          Access.write Width.w32 5 4 9])).priv.log
        = some (runAll scripted (freshDev { chip := ([0, -5], [0, 0, 1, 1, 1, 1, 1]), log := [] })
          (List.take 3 [Access.write Width.w16 3 4 7, Access.read Width.w16 3 4 0,
            Access.write Width.w32 5 4 9])).current_page) ∧
    (chipPage (runAll scripted (freshDev { chip := ([0, -5], [0, 0, 1, 1, 1, 1, 1]), log := [] })
        [Access.write Width.w16 3 4 7]).priv.log = none ∧
      (runAll scripted (freshDev { chip := ([0, -5], [0, 0, 1, 1, 1, 1, 1]), log := [] })
        [Access.write Width.w16 3 4 7]).current_page = 0xff) ∧
    (chipPage (runAll scripted (freshDev { chip := ([0, -5], [0, 0, 1, 1, 1, 1, 1]), log := [] })
        [Access.write Width.w16 3 4 7, Access.read Width.w16 3 4 0]).priv.log = some 3 ∧
      (runAll scripted (freshDev { chip := ([0, -5], [0, 0, 1, 1, 1, 1, 1]), log := [] })
        [Access.write Width.w16 3 4 7, Access.read Width.w16 3 4 0]).current_page = 3) ∧
    (chipPage (runAll scripted (freshDev { chip := ([0, -5], [0, 0, 1, 1, 1, 1, 1]), log := [] })
        [Access.write Width.w16 3 4 7, Access.read Width.w16 3 4 0,
         Access.write Width.w32 5 4 9]).priv.log = some 5 ∧
      (runAll scripted (freshDev { chip := ([0, -5], [0, 0, 1, 1, 1, 1, 1]), log := [] })
        [Access.write Width.w16 3 4 7, Access.read Width.w16 3 4 0,
         Access.write Width.w32 5 4 9]).current_page = 5 ∧
      (access scripted (runAll scripted
          (freshDev { chip := ([0, -5], [0, 0, 1, 1, 1, 1, 1]), log := [] })
          [Access.write Width.w16 3 4 7, Access.read Width.w16 3 4 0])
        (Access.write Width.w32 5 4 9)).1 = - EIO) :=
  ⟨(page_cache_invariant scripted { chip := ([0, -5], [0, 0, 1, 1, 1, 1, 1]), log := [] }
      [Access.write Width.w16 3 4 7, Access.read Width.w16 3 4 0, Access.write Width.w32 5 4 9]
      (by decide) (by decide)).1 3,
   by decide, by decide, by decide⟩

/-! ## The 48-bit paths -/

/-- The three words a 48-bit write stages do not depend on bits 48 and up. -/
theorem low48_words (v : Nat) :
    (v % 281474976710656) &&& 0xffff = v &&& 0xffff ∧
    ((v % 281474976710656) >>> 16) &&& 0xffff = (v >>> 16) &&& 0xffff ∧
    (((v % 281474976710656) >>> 16) >>> 16) &&& 0xffff = ((v >>> 16) >>> 16) &&& 0xffff := by
  simp only [and_ffff, Nat.shiftRight_eq_div_pow]
  refine ⟨?_, ?_, ?_⟩ <;> omega

/-- A 48-bit write does the same whatever bits 48 and up of the value are. -/
theorem write48_low {σ : Type} (T : Transport σ) (dev : b53_device σ) (page reg v : Nat) :
    mdio_write T Width.w48 dev page reg v
      = mdio_write T Width.w48 dev page reg (v % 281474976710656) := by
  obtain ⟨e0, e1, e2⟩ := low48_words v
  simp only [mdio_write, b53_mdio_ops, b53_mdio_write48, b53_mdio_write_loop, e0, e1, e2]

/-- A successful 48-bit read whose data reads return 16-bit words yields less
than 2^48. -/
theorem read48_bound {σ : Type} (T : Transport σ) (dev : b53_device σ) (page reg val : Nat)
    (hok : (mdio_read T Width.w48 dev page reg val).1 = 0)
    (h16 : ∀ c ∈ trace dev.priv.log (mdio_read T Width.w48 dev page reg val).2.2.priv.log,
      c.isDataRead = true → 0 ≤ c.ret ∧ c.ret < 65536) :
    (mdio_read T Width.w48 dev page reg val).2.1 < 281474976710656 := by
  have hop : (b53_mdio_op T dev page reg REG_MII_ADDR_READ).1 = 0 := by
    by_contra hne
    rw [mdio_read_fail T Width.w48 dev page reg val hne] at hok
    exact hne hok
  obtain ⟨rs, hlen, _, hval, hlog, _, _⟩ := mdio_read_ok T Width.w48 dev page reg val hop
  obtain ⟨tr, _, hl, _⟩ := b53_mdio_op_shape T dev page reg REG_MII_ADDR_READ
  rw [hlog, hl, List.append_assoc, trace_append] at h16
  obtain ⟨a, b, c, rfl⟩ : ∃ a b c, rs = [a, b, c] := List.length_eq_three.mp hlen
  have hmem : ∀ d ∈ dataReads Width.w48 [a, b, c], 0 ≤ d.ret ∧ d.ret < 65536 :=
    fun d hd => h16 d (List.mem_append_right _ hd) (dataReads_data d hd)
  have ha := hmem (Call.read B53_PSEUDO_PHY (REG_MII_DATA0 + 2) a)
    (by simp [dataReads, Width.readSlots])
  have hb := hmem (Call.read B53_PSEUDO_PHY (REG_MII_DATA0 + 1) b)
    (by simp [dataReads, Width.readSlots])
  have hc := hmem (Call.read B53_PSEUDO_PHY (REG_MII_DATA0 + 0) c)
    (by simp [dataReads, Width.readSlots])
  simp only [Call.ret] at ha hb hc
  have ea : a = ((a.toNat : Nat) : Int) := by omega
  have eb : b = ((b.toNat : Nat) : Int) := by omega
  have ec : c = ((c.toNat : Nat) : Int) := by omega
  rw [hval, ea, eb, ec,
    rawValue_words.2.2.2.1 c.toNat b.toNat a.toNat (by omega) (by omega) (by omega)]
  omega

/-- Over the in-memory chip a 48-bit read after a 48-bit write of any value
yields the low 48 bits of the value. -/
theorem chip_roundtrip48 (dev : b53_device Chip) (page reg v val : Nat)
    (hp : page < 256) (hr : reg < 256) :
    (mdio_read chipTransport Width.w48
      (mdio_write chipTransport Width.w48 dev page reg v).2 page reg val).2.1
      = v % 281474976710656 := by
  rw [write48_low]
  obtain ⟨_, hdata⟩ := chip_write_then_load Width.w48 dev page reg (v % 281474976710656) hp hr
  obtain ⟨_, hval⟩ := chip_read_value Width.w48
    (mdio_write chipTransport Width.w48 dev page reg (v % 281474976710656)).2 page reg val hp hr
  rw [hval]
  have hlt : ∀ s, ((v % 281474976710656) >>> (16 * s)) % 65536 < 65536 :=
    fun s => Nat.mod_lt _ (by decide)
  simp only [Width.readSlots, List.map, hdata 0 (by decide), hdata 1 (by decide),
    hdata 2 (by decide)]
  rw [rawValue_words.2.2.2.1 _ _ _ (hlt 0) (hlt 1) (hlt 2)]
  exact (words_recompose (v % 281474976710656)).2.2.2.1 (Nat.mod_lt _ (by decide))

/-- C18 (48-bit truncation). For every value `v` (64 bits or more):
`b53_mdio_write48` of `v` and of `v mod 2^48` return the same code and leave the
same device and the same log, over any transport; a successful `b53_mdio_read48`
whose data reads return 16-bit words yields a value below 2^48; and over the
in-memory chip, for a page and offset below 256, the 48-bit read after the
48-bit write of `v` returns 0 and yields `v mod 2^48`. -/
theorem truncation48 {σ : Type} (T : Transport σ) (dev : b53_device σ) (devc : b53_device Chip)
    (page reg v val : Nat) (hp : page < 256) (hr : reg < 256) :
    mdio_write T Width.w48 dev page reg v = mdio_write T Width.w48 dev page reg (v % 2 ^ 48) ∧
    ((mdio_read T Width.w48 dev page reg val).1 = 0 →
      (∀ c ∈ trace dev.priv.log (mdio_read T Width.w48 dev page reg val).2.2.priv.log,
        c.isDataRead = true → 0 ≤ c.ret ∧ c.ret < 65536) →
      (mdio_read T Width.w48 dev page reg val).2.1 < 2 ^ 48) ∧
    (mdio_read chipTransport Width.w48
      (mdio_write chipTransport Width.w48 devc page reg v).2 page reg val).1 = 0 ∧
    (mdio_read chipTransport Width.w48
      (mdio_write chipTransport Width.w48 devc page reg v).2 page reg val).2.1 = v % 2 ^ 48 :=
  ⟨write48_low T dev page reg v,
   fun hok h16 => read48_bound T dev page reg val hok h16,
   (chip_read_value Width.w48 (mdio_write chipTransport Width.w48 devc page reg v).2 page reg
      val hp hr).1,
   chip_roundtrip48 devc page reg v val hp hr⟩

/-- C18, witness: the 48-bit write of 0xabcd_0001_0002_0003 makes the calls of
the 48-bit write of 0x0001_0002_0003, and over the chip it reads back as
0x0001_0002_0003. -/
theorem truncation48_witness :
    (mdio_write scripted Width.w48 (scriptedDev 0xff [] []) 3 4 0xabcd000100020003).2.priv.log
      = (mdio_write scripted Width.w48 (scriptedDev 0xff [] []) 3 4 0x000100020003).2.priv.log ∧
    (mdio_read chipTransport Width.w48
      (mdio_write chipTransport Width.w48 chipDev 3 4 0xabcd000100020003).2 3 4 0).2.1
      = 0x000100020003 := by
  have h := truncation48 scripted (scriptedDev 0xff [] []) chipDev 3 4 0xabcd000100020003 0
    (by decide) (by decide)
  exact ⟨by rw [h.1]; rfl, h.2.2.2⟩

end B53
